import Mathlib

/-!
# Stencil mesh update engine: embedding and verification

Shallow embedding of `src/stencil/stencil.c`, `src/stencil/stencil_starpu.c` and
`src/stencil/stencil_starpu_vec.c` (namespace `Stencil`), and of the histogram
computation of `src/histogram/histogram.c` (namespace `Histogram`).

* `ELEMENT_TYPE` (`float` in the source) is modelled by `ℚ`: exact arithmetic.
* A buffer (`ELEMENT_TYPE *`) is modelled by a total map from flat addresses to
  values; `p[y * width + x]` is the map applied to `y * width + x`.  An access
  past the end of an allocation is an ordinary access of the map; which
  addresses a kernel touches is stated separately by the footprint definitions.
* Indices are natural numbers.  Every loop of the source that subtracts a
  margin starts at that margin, so the truncated subtraction agrees with the C
  `int` expression on every index the loops produce.
* StarPU tasks are executed in submission order.
-/

set_option autoImplicit false

namespace Stencil

/-- Element type of the meshes (`#define ELEMENT_TYPE float`), in exact arithmetic. -/
abbrev ELEMENT_TYPE : Type := ℚ

/-- Buffer of elements addressed by flat index. -/
abbrev Buffer : Type := Nat → ELEMENT_TYPE

/-- Assignment `p[k] = v`. -/
def store (p : Buffer) (k : Nat) (v : ELEMENT_TYPE) : Buffer :=
  fun i => if i = k then v else p i

/-- Iteration values of `for (i = lo; i < hi; i++)`. -/
def loopRange (lo hi : Nat) : List Nat := List.range' lo (hi - lo)

/-- Number of iterations of `for (i = lo; i < hi; i += step)`. -/
def loopCount (lo hi step : Nat) : Nat := (hi - lo + step - 1) / step

/-- Iteration values of `for (i = lo; i < hi; i += step)`. -/
def loopStep (lo hi step : Nat) : List Nat := List.range' lo (loopCount lo hi step) step

/-- Value of the counter when `for (i = lo; i < hi; i += step)` exits. -/
def loopExit (lo hi step : Nat) : Nat := lo + step * loopCount lo hi step

/-- Loop `for (i = lo; i < hi; i++) body` on a state. -/
def forLoop {σ : Type} (lo hi : Nat) (body : Nat → σ → σ) (s : σ) : σ :=
  (loopRange lo hi).foldl (fun acc i => body i acc) s

def STENCIL_WIDTH : Nat := 3
def STENCIL_HEIGHT : Nat := 3
def TOP_BOUNDARY_VALUE : ELEMENT_TYPE := 10
def BOTTOM_BOUNDARY_VALUE : ELEMENT_TYPE := 5
def LEFT_BOUNDARY_VALUE : ELEMENT_TYPE := -10
def RIGHT_BOUNDARY_VALUE : ELEMENT_TYPE := -5

/-- Coefficient table `stencil_coefs[STENCIL_HEIGHT * STENCIL_WIDTH]`. -/
def stencil_coefs : Nat → ELEMENT_TYPE
  | 0 => 0.25 / 3
  | 1 => 0.50 / 3
  | 2 => 0.25 / 3
  | 3 => 0.50 / 3
  | 4 => -1.00
  | 5 => 0.50 / 3
  | 6 => 0.25 / 3
  | 7 => 0.50 / 3
  | 8 => 0.25 / 3
  | _ => 0

inductive e_initial_mesh_type where
  | initial_mesh_zero
  | initial_mesh_random
deriving DecidableEq

structure s_settings where
  mesh_width : Nat
  mesh_height : Nat
  initial_mesh_type : e_initial_mesh_type
  nb_iterations : Nat
  nb_repeat : Nat
  enable_output : Bool
  enable_verbose : Bool
deriving DecidableEq

/-- Accumulation loops shared by the scalar kernels with `stencil_x` outermost:
`for stencil_x { for stencil_y { value += p_mesh[(y + stencil_y - margin_y) * w
+ (x + stencil_x - margin_x)] * coefs[stencil_y * STENCIL_WIDTH + stencil_x] } }`
started from `value = p_mesh[y * w + x]`. -/
def accumulate_xy (p_mesh : Buffer) (coefs : Nat → ELEMENT_TYPE) (w x y : Nat) : ELEMENT_TYPE :=
  let margin_x := (STENCIL_WIDTH - 1) / 2
  let margin_y := (STENCIL_HEIGHT - 1) / 2
  forLoop 0 STENCIL_WIDTH (fun stencil_x value =>
    forLoop 0 STENCIL_HEIGHT (fun stencil_y value =>
      value + p_mesh ((y + stencil_y - margin_y) * w + (x + stencil_x - margin_x))
                * coefs (stencil_y * STENCIL_WIDTH + stencil_x)) value)
    (p_mesh (y * w + x))

/-- Sequential kernel `naive_stencil_func` (identical text in the three stencil
sources).  `p_temporary_mesh` is the content of the freshly allocated scratch
buffer. -/
def naive_stencil_func (p_temporary_mesh p_mesh : Buffer) (p_settings : s_settings) : Buffer :=
  let margin_x := (STENCIL_WIDTH - 1) / 2
  let margin_y := (STENCIL_HEIGHT - 1) / 2
  let w := p_settings.mesh_width
  let tmp :=
    forLoop margin_x (w - margin_x) (fun x tmp =>
      forLoop margin_y (p_settings.mesh_height - margin_y) (fun y tmp =>
        store tmp (y * w + x) (accumulate_xy p_mesh stencil_coefs w x y)) tmp)
      p_temporary_mesh
  forLoop margin_x (w - margin_x) (fun x mesh =>
    forLoop margin_y (p_settings.mesh_height - margin_y) (fun y mesh =>
      store mesh (y * w + x) (tmp (y * w + x))) mesh)
    p_mesh

/-- Mesh initialisation `init_mesh_zero`. -/
def init_mesh_zero (p_mesh : Buffer) (p_settings : s_settings) : Buffer :=
  let margin_x := (STENCIL_WIDTH - 1) / 2
  let margin_y := (STENCIL_HEIGHT - 1) / 2
  forLoop margin_y (p_settings.mesh_height - margin_y) (fun y mesh =>
    forLoop margin_x (p_settings.mesh_width - margin_x) (fun x mesh =>
      store mesh (y * p_settings.mesh_width + x) 0) mesh)
    p_mesh

/-- Mesh initialisation `init_mesh_random`.  `rand_values k` is the value
`rand() / (ELEMENT_TYPE)RAND_MAX * 20 - 10` obtained from the `k`-th call of
`rand()`; the cell `(x, y)` is reached after `(y - margin_y) * (mesh_width - 2 *
margin_x) + (x - margin_x)` earlier calls. -/
def init_mesh_random (rand_values : Nat → ELEMENT_TYPE) (p_mesh : Buffer)
    (p_settings : s_settings) : Buffer :=
  let margin_x := (STENCIL_WIDTH - 1) / 2
  let margin_y := (STENCIL_HEIGHT - 1) / 2
  forLoop margin_y (p_settings.mesh_height - margin_y) (fun y mesh =>
    forLoop margin_x (p_settings.mesh_width - margin_x) (fun x mesh =>
      store mesh (y * p_settings.mesh_width + x)
        (rand_values ((y - margin_y) * (p_settings.mesh_width - 2 * margin_x) + (x - margin_x))))
      mesh)
    p_mesh

/-- Dispatch `init_mesh_values` (the `default:` branch is unreachable for the
two constructors of the enumeration). -/
def init_mesh_values (rand_values : Nat → ELEMENT_TYPE) (p_mesh : Buffer)
    (p_settings : s_settings) : Buffer :=
  match p_settings.initial_mesh_type with
  | e_initial_mesh_type.initial_mesh_zero => init_mesh_zero p_mesh p_settings
  | e_initial_mesh_type.initial_mesh_random => init_mesh_random rand_values p_mesh p_settings

/-- Copy `copy_mesh`: `memcpy` of `mesh_width * mesh_height` elements. -/
def copy_mesh (p_dst_mesh p_src_mesh : Buffer) (p_settings : s_settings) : Buffer :=
  fun i => if i < p_settings.mesh_width * p_settings.mesh_height then p_src_mesh i
    else p_dst_mesh i

/-- Boundary stamping `apply_boundary_conditions`. -/
def apply_boundary_conditions (p_mesh : Buffer) (p_settings : s_settings) : Buffer :=
  let margin_x := (STENCIL_WIDTH - 1) / 2
  let margin_y := (STENCIL_HEIGHT - 1) / 2
  let w := p_settings.mesh_width
  let h := p_settings.mesh_height
  let mesh1 :=
    forLoop 0 w (fun x mesh =>
      forLoop 0 margin_y (fun y mesh =>
        store (store mesh (y * w + x) TOP_BOUNDARY_VALUE)
          ((h - 1 - y) * w + x) BOTTOM_BOUNDARY_VALUE) mesh)
      p_mesh
  forLoop margin_y (h - margin_y) (fun y mesh =>
    forLoop 0 margin_x (fun x mesh =>
      store (store mesh (y * w + x) LEFT_BOUNDARY_VALUE)
        (y * w + (w - 1 - x)) RIGHT_BOUNDARY_VALUE) mesh)
    mesh1

/-- Iteration loop `run` of `stencil.c`.  `scratch i` is the content of the
scratch buffer allocated by the kernel in iteration `i`; the optional file and
console output is not modelled. -/
def run (scratch : Nat → Buffer) (p_mesh : Buffer) (p_settings : s_settings) : Buffer :=
  forLoop 0 p_settings.nb_iterations (fun i mesh =>
    naive_stencil_func (scratch i) mesh p_settings) p_mesh

/-- Accumulation loops of the StarPU kernels, `stencil_y` outermost, with the
stencil dimensions `sw`, `sh` taken from the task parameters. -/
def accumulate_yx (mesh : Buffer) (coefs : Nat → ELEMENT_TYPE) (sw sh w x y : Nat) :
    ELEMENT_TYPE :=
  let margin_x := (sw - 1) / 2
  let margin_y := (sh - 1) / 2
  forLoop 0 sh (fun sy value =>
    forLoop 0 sw (fun sx value =>
      value + mesh ((y + sy - margin_y) * w + (x + sx - margin_x)) * coefs (sy * sw + sx)) value)
    (mesh (y * w + x))

namespace starpu

/-! ### `stencil_starpu.c`: tiled decomposition -/

structure starpu_parameters where
  stencil_widht : Nat
  stencil_height : Nat
  mesh_width : Nat
  mesh_height : Nat
  actual_x : Nat
  actual_y : Nat
  block_width : Nat
  block_height : Nat
deriving DecidableEq

def BLOCK_WIDTH : Nat := 32
def BLOCK_HEIGHT : Nat := 16

/-- Apply codelet `stencil_func_block`: returns the scratch buffer. -/
def stencil_func_block (mesh temporary : Buffer) (coefs : Nat → ELEMENT_TYPE)
    (parameters : starpu_parameters) : Buffer :=
  let x_start := parameters.actual_x
  let y_start := parameters.actual_y
  let x_end := x_start + parameters.block_width
  let y_end := y_start + parameters.block_height
  forLoop y_start y_end (fun y temporary =>
    forLoop x_start x_end (fun x temporary =>
      store temporary (y * parameters.mesh_width + x)
        (accumulate_yx mesh coefs parameters.stencil_widht parameters.stencil_height
          parameters.mesh_width x y)) temporary)
    temporary

/-- Commit codelet `copy_block_func`: returns the mesh. -/
def copy_block_func (mesh temporary : Buffer) (parameters : starpu_parameters) : Buffer :=
  let x_start := parameters.actual_x
  let x_end := x_start + parameters.block_width
  let y := parameters.actual_y
  forLoop x_start x_end (fun x mesh =>
    store mesh (y * parameters.mesh_width + x) (temporary (y * parameters.mesh_width + x))) mesh

/-- Clipped tile width computed by `starpu_stencil_func_partitioned`. -/
def clipped_block_width (p_settings : s_settings) (bx : Nat) : Nat :=
  let margin_x := (STENCIL_WIDTH - 1) / 2
  if bx + BLOCK_WIDTH < p_settings.mesh_width - margin_x then BLOCK_WIDTH
  else p_settings.mesh_width - margin_x - bx

/-- Clipped tile height computed by `starpu_stencil_func_partitioned`. -/
def clipped_block_height (p_settings : s_settings) (by_ : Nat) : Nat :=
  let margin_y := (STENCIL_HEIGHT - 1) / 2
  if by_ + BLOCK_HEIGHT < p_settings.mesh_height - margin_y then BLOCK_HEIGHT
  else p_settings.mesh_height - margin_y - by_

/-- Parameters of the tasks submitted by the first loop nest (apply phase) of
`starpu_stencil_func_partitioned`, in submission order. -/
def apply_tasks (p_settings : s_settings) : List starpu_parameters :=
  let margin_x := (STENCIL_WIDTH - 1) / 2
  let margin_y := (STENCIL_HEIGHT - 1) / 2
  (loopStep margin_y (p_settings.mesh_height - margin_y) BLOCK_HEIGHT).flatMap (fun by_ =>
    (loopStep margin_x (p_settings.mesh_width - margin_x) BLOCK_WIDTH).map (fun bx =>
      { actual_x := bx
        actual_y := by_
        mesh_width := p_settings.mesh_width
        mesh_height := p_settings.mesh_height
        stencil_widht := STENCIL_WIDTH
        stencil_height := STENCIL_HEIGHT
        block_width := clipped_block_width p_settings bx
        block_height := clipped_block_height p_settings by_ }))

/-- Parameters of the tasks submitted by the second loop nest (commit phase) of
`starpu_stencil_func_partitioned`, in submission order.  The source leaves
`mesh_height`, `stencil_widht` and `stencil_height` unset there; `copy_block_func`
does not read them. -/
def copy_tasks (p_settings : s_settings) : List starpu_parameters :=
  let margin_x := (STENCIL_WIDTH - 1) / 2
  let margin_y := (STENCIL_HEIGHT - 1) / 2
  (loopStep margin_y (p_settings.mesh_height - margin_y) BLOCK_HEIGHT).flatMap (fun by_ =>
    (loopStep margin_x (p_settings.mesh_width - margin_x) BLOCK_WIDTH).map (fun bx =>
      { actual_x := bx
        actual_y := by_
        mesh_width := p_settings.mesh_width
        mesh_height := 0
        stencil_widht := 0
        stencil_height := 0
        block_width := clipped_block_width p_settings bx
        block_height := clipped_block_height p_settings by_ }))

/-- Tiled update `starpu_stencil_func_partitioned`: the apply tasks run in
submission order on the scratch buffer, then (after `starpu_task_wait_for_all`)
the commit tasks run in submission order on the mesh. -/
def starpu_stencil_func_partitioned (p_temporary_mesh p_mesh : Buffer)
    (p_settings : s_settings) : Buffer :=
  let tmp := (apply_tasks p_settings).foldl
    (fun temporary parameters => stencil_func_block p_mesh temporary stencil_coefs parameters)
    p_temporary_mesh
  (copy_tasks p_settings).foldl
    (fun mesh parameters => copy_block_func mesh tmp parameters) p_mesh

/-- Iteration loop `run` of `stencil_starpu.c`. -/
def run (scratch : Nat → Buffer) (p_mesh : Buffer) (p_settings : s_settings) : Buffer :=
  forLoop 0 p_settings.nb_iterations (fun i mesh =>
    starpu_stencil_func_partitioned (scratch i) mesh p_settings) p_mesh

end starpu

namespace starpu_vec

/-! ### `stencil_starpu_vec.c`: row-band decomposition with 8-lane kernels -/

structure starpu_parameters where
  stencil_widht : Nat
  stencil_height : Nat
  mesh_width : Nat
  mesh_height : Nat
  actual_x : Nat
  actual_y : Nat
  block_start : Nat
  block_end : Nat
deriving DecidableEq

/-- Register of 8 single-precision lanes (`__m256`). -/
abbrev m256 : Type := Fin 8 → ELEMENT_TYPE

/-- Broadcast `_mm256_set1_ps`. -/
def mm256_set1_ps (v : ELEMENT_TYPE) : m256 := fun _ => v

/-- Unaligned load `_mm256_loadu_ps(p + k)`: lanes `p[k] .. p[k + 7]`. -/
def mm256_loadu_ps (p : Buffer) (k : Nat) : m256 := fun l => p (k + l.val)

/-- Fused multiply-add `_mm256_fmadd_ps(a, b, c)`: lane-wise `a * b + c`. -/
def mm256_fmadd_ps (a b c : m256) : m256 := fun l => a l * b l + c l

/-- Unaligned store `_mm256_storeu_ps(p + k, v)`: writes `p[k] .. p[k + 7]`. -/
def mm256_storeu_ps (p : Buffer) (k : Nat) (v : m256) : Buffer :=
  fun i => if h : k ≤ i ∧ i < k + 8 then v ⟨i - k, by omega⟩ else p i

/-- Body of the vector loop of `stencil_cpu_func_block` for the batch starting
at column `x` of row `y`: the register stored at `tmp + y * mesh_width + x`. -/
def vector_batch (mesh : Buffer) (tab_stencil_coef : Nat → m256)
    (params : starpu_parameters) (x y : Nat) : m256 :=
  let margin_x := (params.stencil_widht - 1) / 2
  let margin_y := (params.stencil_height - 1) / 2
  let stencil_w := params.stencil_widht
  let stencil_h := params.stencil_height
  forLoop 0 stencil_h (fun stencil_y value =>
    forLoop 0 stencil_w (fun stencil_x value =>
      let a := mm256_loadu_ps mesh
        ((y + stencil_y - margin_y) * params.mesh_width + (x + stencil_x - margin_x))
      mm256_fmadd_ps a (tab_stencil_coef (stencil_y * stencil_w + stencil_x)) value) value)
    (mm256_loadu_ps mesh (y * params.mesh_width + x))

/-- Columns at which the vector loop `for (x = margin_x; x < mesh_w - margin_x;
x += 8)` of `stencil_cpu_func_block` starts a batch. -/
def vector_loop_columns (params : starpu_parameters) : List Nat :=
  let margin_x := (params.stencil_widht - 1) / 2
  loopStep margin_x (params.mesh_width - margin_x) 8

/-- Columns visited by the scalar loop `for ( ; x < params.mesh_width - margin_x;
x++)` of `stencil_cpu_func_block`, which starts from the value `x` has when the
vector loop exits. -/
def scalar_loop_columns (params : starpu_parameters) : List Nat :=
  let margin_x := (params.stencil_widht - 1) / 2
  loopRange (loopExit margin_x (params.mesh_width - margin_x) 8) (params.mesh_width - margin_x)

/-- Apply codelet `stencil_cpu_func_block`: returns the scratch buffer.  The
vector loop uses the broadcast of the global table `stencil_coefs`, the scalar
loop the coefficient buffer `coefs` of the task. -/
def stencil_cpu_func_block (mesh tmp : Buffer) (coefs : Nat → ELEMENT_TYPE)
    (params : starpu_parameters) : Buffer :=
  let stencil_w := params.stencil_widht
  let stencil_h := params.stencil_height
  let tab_stencil_coef : Nat → m256 := fun i => mm256_set1_ps (stencil_coefs i)
  forLoop params.block_start params.block_end (fun y tmp =>
    let tmp1 := (vector_loop_columns params).foldl (fun tmp x =>
      mm256_storeu_ps tmp (y * params.mesh_width + x)
        (vector_batch mesh tab_stencil_coef params x y)) tmp
    (scalar_loop_columns params).foldl (fun tmp x =>
      store tmp (y * params.mesh_width + x)
        (accumulate_yx mesh coefs stencil_w stencil_h params.mesh_width x y)) tmp1)
    tmp

/-- Commit codelet `copy_block_cpu_func`: returns the mesh.  The vector loop
`for (x = margin_x; x <= mesh_width - margin_x - 8; x += 8)` runs while
`x < mesh_width - margin_x - 7`. -/
def copy_block_cpu_func (mesh tmp : Buffer) (params : starpu_parameters) : Buffer :=
  let margin_x := (params.stencil_widht - 1) / 2
  forLoop params.block_start params.block_end (fun y mesh =>
    let mesh1 := (loopStep margin_x (params.mesh_width - margin_x - 7) 8).foldl (fun mesh x =>
      mm256_storeu_ps mesh (y * params.mesh_width + x)
        (mm256_loadu_ps tmp (y * params.mesh_width + x))) mesh
    forLoop (loopExit margin_x (params.mesh_width - margin_x - 7) 8)
      (params.mesh_width - margin_x) (fun x mesh =>
        store mesh (y * params.mesh_width + x) (tmp (y * params.mesh_width + x))) mesh1)
    mesh

/-- Band height computed by `starpu_vec_stencil_func` for `nb_threads` workers. -/
def band_height (p_settings : s_settings) (nb_threads : Nat) : Nat :=
  let margin_y := (STENCIL_HEIGHT - 1) / 2
  let effective_height := p_settings.mesh_height - 2 * margin_y
  let block_height := effective_height / nb_threads
  if block_height = 0 then 1 else block_height

/-- Parameters of the tasks submitted by the first loop (apply phase) of
`starpu_vec_stencil_func`, in submission order; `nb_threads` is the value
returned by `sysconf(_SC_NPROCESSORS_ONLN)`.  The source leaves `actual_x`
unset; `stencil_cpu_func_block` does not read it. -/
def apply_tasks (p_settings : s_settings) (nb_threads : Nat) : List starpu_parameters :=
  let margin_y := (STENCIL_HEIGHT - 1) / 2
  let block_height := band_height p_settings nb_threads
  (loopRange 0 nb_threads).map (fun t =>
    let y_start := margin_y + t * block_height
    let y_end := if t = nb_threads - 1 then p_settings.mesh_height - margin_y
      else y_start + block_height
    { actual_x := 0
      actual_y := y_start
      block_start := y_start
      block_end := y_end
      mesh_width := p_settings.mesh_width
      mesh_height := p_settings.mesh_height
      stencil_height := STENCIL_HEIGHT
      stencil_widht := STENCIL_WIDTH })

/-- Parameters of the tasks submitted by the second loop (commit phase) of
`starpu_vec_stencil_func`, in submission order.  The source leaves the fields
other than `block_start`, `block_end`, `mesh_width` and `stencil_widht` unset;
`copy_block_cpu_func` does not read them. -/
def copy_tasks (p_settings : s_settings) (nb_threads : Nat) : List starpu_parameters :=
  let margin_y := (STENCIL_HEIGHT - 1) / 2
  let block_height := band_height p_settings nb_threads
  (loopRange 0 nb_threads).map (fun t =>
    let block_start := margin_y + t * block_height
    let block_end := if t = nb_threads - 1 then p_settings.mesh_height - margin_y
      else block_start + block_height
    { actual_x := 0
      actual_y := 0
      block_start := block_start
      block_end := block_end
      mesh_width := p_settings.mesh_width
      mesh_height := 0
      stencil_height := 0
      stencil_widht := STENCIL_WIDTH })

/-- Row-band update `starpu_vec_stencil_func` with `nb_threads` workers: the
apply tasks run in submission order on the scratch buffer, then (after
`starpu_task_wait_for_all`) the commit tasks run in submission order on the
mesh. -/
def starpu_vec_stencil_func (nb_threads : Nat) (p_temporary_mesh p_mesh : Buffer)
    (p_settings : s_settings) : Buffer :=
  let tmp := (apply_tasks p_settings nb_threads).foldl
    (fun tmp params => stencil_cpu_func_block p_mesh tmp stencil_coefs params) p_temporary_mesh
  (copy_tasks p_settings nb_threads).foldl
    (fun mesh params => copy_block_cpu_func mesh tmp params) p_mesh

/-- Iteration loop `run` of `stencil_starpu_vec.c`. -/
def run (nb_threads : Nat) (scratch : Nat → Buffer) (p_mesh : Buffer)
    (p_settings : s_settings) : Buffer :=
  forLoop 0 p_settings.nb_iterations (fun i mesh =>
    starpu_vec_stencil_func nb_threads (scratch i) mesh p_settings) p_mesh

end starpu_vec

/-! ## Specification-side definitions -/

/-- Value the stencil assigns to the cell at flat address `i` of a mesh of width
`w`: the cell plus the coefficient-weighted sum of its 3×3 neighbourhood. -/
def stencilAt (coefs : Nat → ELEMENT_TYPE) (w : Nat) (m : Buffer) (i : Nat) : ELEMENT_TYPE :=
  m i + ∑ sy in Finset.range 3, ∑ sx in Finset.range 3,
    m (i + sy * w + sx - (w + 1)) * coefs (sy * 3 + sx)

/-- Cell `(x, y)` belongs to the interior region of a `w × h` mesh. -/
def interiorCell (w h x y : Nat) : Prop := 1 ≤ x ∧ x + 2 ≤ w ∧ 1 ≤ y ∧ y + 2 ≤ h

instance (w h x y : Nat) : Decidable (interiorCell w h x y) := by
  unfold interiorCell; infer_instance

/-- Flat address `i` is the address of an interior cell of a `w × h` mesh. -/
def interiorAddr (w h i : Nat) : Prop := ∃ x y, interiorCell w h x y ∧ i = y * w + x

/-- Cell `(x, y)` lies in the region `[actual_x, actual_x + block_width) ×
[actual_y, actual_y + block_height)` of a tile. -/
def starpu.inTile (p : starpu.starpu_parameters) (x y : Nat) : Prop :=
  p.actual_x ≤ x ∧ x < p.actual_x + p.block_width ∧
    p.actual_y ≤ y ∧ y < p.actual_y + p.block_height

instance (p : starpu.starpu_parameters) (x y : Nat) : Decidable (starpu.inTile p x y) := by
  unfold starpu.inTile; infer_instance

/-- Configuration of the 9×9 scenario: zero interior, one iteration. -/
def scenario_settings : s_settings :=
  { mesh_width := 9
    mesh_height := 9
    initial_mesh_type := e_initial_mesh_type.initial_mesh_zero
    nb_iterations := 1
    nb_repeat := 1
    enable_output := false
    enable_verbose := false }

/-- Content of a buffer returned by `calloc` (`allocate_mesh`). -/
def zero_buffer : Buffer := fun _ => 0

/-- The 9×9 scenario mesh: `init_mesh_values` then `apply_boundary_conditions`
on a zero-filled allocation, as `main` does. -/
def scenario_mesh : Buffer :=
  apply_boundary_conditions
    (init_mesh_values (fun _ => 0) zero_buffer scenario_settings) scenario_settings

/-- Flat address `i` is the address of an interior cell lying on the first row
of a tile of the tiled decomposition (rows `1, 17, 33, ...`). -/
def tileFirstRowAddr (w h i : Nat) : Prop :=
  ∃ x y, interiorCell w h x y ∧ (y - 1) % 16 = 0 ∧ i = y * w + x

/-- Flat address `i` is the address of a cell of the mesh outside the interior
region: row `0`, row `h - 1`, column `0` or column `w - 1`. -/
def boundaryAddr (w h i : Nat) : Prop :=
  ∃ x y, x < w ∧ y < h ∧ (x = 0 ∨ x = w - 1 ∨ y = 0 ∨ y = h - 1) ∧ i = y * w + x

/-- Configured boundary value of the boundary cell `(x, y)`: the top and bottom
rows (corners included) take the top and bottom values, the remaining cells of
the first and last columns the left and right values. -/
def boundaryValue (h x y : Nat) : ELEMENT_TYPE :=
  if y = 0 then TOP_BOUNDARY_VALUE
  else if y = h - 1 then BOTTOM_BOUNDARY_VALUE
  else if x = 0 then LEFT_BOUNDARY_VALUE
  else RIGHT_BOUNDARY_VALUE

/-- Parameters of the only commit task of the 9×9 scenario: the tile with
origin `(1, 1)`, clipped to 7×7. -/
def scenario_commit_tile : starpu.starpu_parameters :=
  { actual_x := 1
    actual_y := 1
    mesh_width := 9
    mesh_height := 0
    stencil_widht := 0
    stencil_height := 0
    block_width := 7
    block_height := 7 }

/-- Default configuration set by `init_settings` (`DEFAULT_MESH_WIDTH` 2000,
`DEFAULT_MESH_HEIGHT` 1000, `DEFAULT_NB_ITERATIONS` 100, `DEFAULT_NB_REPEAT` 10). -/
def init_settings : s_settings :=
  { mesh_width := 2000
    mesh_height := 1000
    initial_mesh_type := e_initial_mesh_type.initial_mesh_zero
    nb_iterations := 100
    nb_repeat := 10
    enable_verbose := false
    enable_output := false }

/-- Addresses of the mesh loaded by one batch of the vector loop of
`stencil_cpu_func_block`: the 8 lanes of the initial `_mm256_loadu_ps` and the 8
lanes of the load of every stencil offset. -/
def starpu_vec.vector_batch_reads (params : starpu_vec.starpu_parameters) (x y : Nat) :
    List Nat :=
  let margin_x := (params.stencil_widht - 1) / 2
  let margin_y := (params.stencil_height - 1) / 2
  (List.range 8).map (fun l => y * params.mesh_width + x + l) ++
    (loopRange 0 params.stencil_height).flatMap (fun stencil_y =>
      (loopRange 0 params.stencil_widht).flatMap (fun stencil_x =>
        (List.range 8).map (fun l =>
          (y + stencil_y - margin_y) * params.mesh_width + (x + stencil_x - margin_x) + l)))

/-- Addresses of the scratch buffer stored by one batch of the vector loop of
`stencil_cpu_func_block`: the 8 lanes of `_mm256_storeu_ps`. -/
def starpu_vec.vector_batch_writes (params : starpu_vec.starpu_parameters) (x y : Nat) :
    List Nat :=
  (List.range 8).map (fun l => y * params.mesh_width + x + l)

/-- Addresses of the mesh read by the vector loop of `stencil_cpu_func_block`
for row `y`. -/
def starpu_vec.vector_loop_reads (params : starpu_vec.starpu_parameters) (y : Nat) : List Nat :=
  (starpu_vec.vector_loop_columns params).flatMap
    (fun x => starpu_vec.vector_batch_reads params x y)

/-- Addresses of the scratch buffer written by the vector loop of
`stencil_cpu_func_block` for row `y`. -/
def starpu_vec.vector_loop_writes (params : starpu_vec.starpu_parameters) (y : Nat) : List Nat :=
  (starpu_vec.vector_loop_columns params).flatMap
    (fun x => starpu_vec.vector_batch_writes params x y)

/-- Apply task of the last of 4 row bands of the default 2000×1000 mesh: rows
`[748, 999)`. -/
def default_last_band : starpu_vec.starpu_parameters :=
  { actual_x := 0
    actual_y := 748
    block_start := 748
    block_end := 999
    mesh_width := 2000
    mesh_height := 1000
    stencil_height := 3
    stencil_widht := 3 }

/-- Row `y` belongs to one of the row bands `[y_start, y_end)` computed by
`starpu_vec_stencil_func` for `nb_threads` workers. -/
def starpu_vec.bandRow (p_settings : s_settings) (nb_threads y : Nat) : Prop :=
  ∃ t, t < nb_threads ∧ 1 + t * starpu_vec.band_height p_settings nb_threads ≤ y ∧
    y < (if t = nb_threads - 1 then p_settings.mesh_height - 1
      else 1 + t * starpu_vec.band_height p_settings nb_threads
        + starpu_vec.band_height p_settings nb_threads)

/-- Flat address `i` is that of a cell in columns `1 .. mesh_width - 2` of a row
belonging to one of the row bands. -/
def starpu_vec.bandAddr (p_settings : s_settings) (nb_threads i : Nat) : Prop :=
  ∃ y, starpu_vec.bandRow p_settings nb_threads y ∧
    ∃ x, 1 ≤ x ∧ x < p_settings.mesh_width - 1 ∧ i = y * p_settings.mesh_width + x

/-- Parameters of the only apply task of the 9×9 scenario: the tile with origin
`(1, 1)`, clipped to 7×7, with the 3×3 stencil. -/
def scenario_apply_tile : starpu.starpu_parameters :=
  { actual_x := 1
    actual_y := 1
    mesh_width := 9
    mesh_height := 9
    stencil_widht := 3
    stencil_height := 3
    block_width := 7
    block_height := 7 }

/-- A sequence of values in `[-10, 10]` standing for the successive values
`rand() / (ELEMENT_TYPE)RAND_MAX * 20 - 10`. -/
def scenario_rand_values : Nat → ELEMENT_TYPE := fun k => ((k % 21 : Nat) : ELEMENT_TYPE) - 10

/-- Comparison tolerance `#define EPSILON 1e-3`. -/
def EPSILON : ELEMENT_TYPE := 1e-3

/-- One line `check failed [x: .., y: ..]: run = .., check = ..` written to
`stderr` by `check`: the coordinates and the two values printed. -/
structure check_record where
  x : Nat
  y : Nat
  run_value : ELEMENT_TYPE
  check_value : ELEMENT_TYPE
deriving DecidableEq

/-- State of the comparison loops of `check`: the local `int check` and the
lines written to `stderr` so far. -/
structure check_state where
  check : Nat
  stderr : List check_record

/-- Outcome of a call of `check`: the returned status, the lines written to
`stderr`, and the content of the two buffers it was given when it returns. -/
structure check_result where
  status : Nat
  stderr : List check_record
  p_mesh : Buffer
  p_mesh_copy : Buffer

/-- Body of the comparison loops of `check` at cell `(x, y)`: `diff = fabs(..)`,
and on `diff > EPSILON` one line on `stderr` and `check = 1`. -/
def check_cell (p_mesh p_mesh_copy : Buffer) (p_settings : s_settings) (x y : Nat)
    (st : check_state) : check_state :=
  let diff := |p_mesh (y * p_settings.mesh_width + x)
    - p_mesh_copy (y * p_settings.mesh_width + x)|
  if diff > EPSILON then
    { check := 1
      stderr := st.stderr ++
        [{ x := x
           y := y
           run_value := p_mesh (y * p_settings.mesh_width + x)
           check_value := p_mesh_copy (y * p_settings.mesh_width + x) }] }
  else st

/-- Comparison loops of `check` (`y` outermost) on the candidate `p_mesh` and
the advanced reference `p_mesh_copy`, started with `check = 0`. -/
def check_compare (p_mesh p_mesh_copy : Buffer) (p_settings : s_settings) : check_state :=
  forLoop 0 p_settings.mesh_height (fun y st =>
    forLoop 0 p_settings.mesh_width (fun x st =>
      check_cell p_mesh p_mesh_copy p_settings x y st) st)
    { check := 0, stderr := [] }

/-- Oracle `check` (identical text in the three stencil sources): the reference
copy is advanced by `nb_iterations` calls of `naive_stencil_func`, then the two
meshes are compared cell by cell.  `p_mesh` is `const` in the source and is
returned as it was received.  `scratch i` is the content of the scratch buffer
allocated in iteration `i`; the optional file and console output is not
modelled. -/
def check (scratch : Nat → Buffer) (p_mesh p_mesh_copy : Buffer) (p_settings : s_settings) :
    check_result :=
  let advanced := forLoop 0 p_settings.nb_iterations (fun i copy =>
    naive_stencil_func (scratch i) copy p_settings) p_mesh_copy
  let st := check_compare p_mesh advanced p_settings
  { status := st.check
    stderr := st.stderr
    p_mesh := p_mesh
    p_mesh_copy := advanced }

/-- Codelet wrapper `stencil_cpu_func_block` of `stencil_starpu.c` on the pair
of buffers `(buffers[0], buffers[1])` = (mesh, scratch): it passes them to
`stencil_func_block`, which stores through `temporary` only. -/
def starpu.stencil_cpu_func_block (buffers : Buffer × Buffer) (coefs : Nat → ELEMENT_TYPE)
    (parameters : starpu.starpu_parameters) : Buffer × Buffer :=
  (buffers.1, starpu.stencil_func_block buffers.1 buffers.2 coefs parameters)

/-- Cells of a `w × h` mesh in the order the comparison loops of `check` visit
them: row by row, each row from column 0. -/
def rowMajorCells (w h : Nat) : List (Nat × Nat) :=
  (List.range h).flatMap (fun y => (List.range w).map (fun x => (x, y)))

/-- The candidate and the reference differ at cell `c = (x, y)` by more than
`EPSILON` in absolute value. -/
def mismatch (w : Nat) (candidate reference : Buffer) (c : Nat × Nat) : Prop :=
  |candidate (c.2 * w + c.1) - reference (c.2 * w + c.1)| > EPSILON

instance (w : Nat) (candidate reference : Buffer) (c : Nat × Nat) :
    Decidable (mismatch w candidate reference c) := by
  unfold mismatch; infer_instance

/-- The record `check` prints for cell `c = (x, y)`: its coordinates, the
candidate value and the reference value. -/
def check_record_of (w : Nat) (candidate reference : Buffer) (c : Nat × Nat) : check_record :=
  { x := c.1
    y := c.2
    run_value := candidate (c.2 * w + c.1)
    check_value := reference (c.2 * w + c.1) }

/-- The records expected on `stderr`: one per mismatching cell, in row-major
order. -/
def expected_report (w h : Nat) (candidate reference : Buffer) : List check_record :=
  ((rowMajorCells w h).filter (fun c => decide (mismatch w candidate reference c))).map
    (check_record_of w candidate reference)

/-- State of the comparison loops after the records `L` have been written:
`check` is 1 exactly when a record has been written. -/
def report_state (L : List check_record) : check_state :=
  { check := if L = [] then 0 else 1
    stderr := L }

/-- The scenario configuration with the iteration count set to 0. -/
def scenario_settings_no_iteration : s_settings :=
  { scenario_settings with nb_iterations := 0 }

/-- A state transformer that assigns `F i` to every address of `S` and leaves
the other addresses alone. -/
def Assigns (f : Buffer → Buffer) (S : Nat → Prop) (F : Nat → ELEMENT_TYPE) : Prop :=
  ∀ m i, (S i → f m i = F i) ∧ (¬ S i → f m i = m i)

/-- Row codelet `stencil_func_v2` of `stencil_starpu.c`: returns the scratch
buffer. -/
def starpu.stencil_func_v2 (mesh temporary : Buffer) (coefs : Nat → ELEMENT_TYPE)
    (parameters : starpu.starpu_parameters) : Buffer :=
  let margin_x := (parameters.stencil_widht - 1) / 2
  forLoop margin_x (parameters.mesh_width - margin_x) (fun x temporary =>
    store temporary (parameters.actual_y * parameters.mesh_width + x)
      (accumulate_yx mesh coefs parameters.stencil_widht parameters.stencil_height
        parameters.mesh_width x parameters.actual_y)) temporary

/-- Row commit codelet `copy_stencil_func`: returns the mesh. -/
def starpu.copy_stencil_func (mesh temporary : Buffer)
    (parameters : starpu.starpu_parameters) : Buffer :=
  let margin_x := parameters.actual_x
  forLoop margin_x (parameters.mesh_width - margin_x) (fun x mesh =>
    store mesh (parameters.actual_y * parameters.mesh_width + x)
      (temporary (parameters.actual_y * parameters.mesh_width + x))) mesh

/-- Cell codelet `stencil_func`: returns the scratch buffer. -/
def starpu.stencil_func (mesh temporary : Buffer) (coefs : Nat → ELEMENT_TYPE)
    (parameters : starpu.starpu_parameters) : Buffer :=
  store temporary (parameters.actual_y * parameters.mesh_width + parameters.actual_x)
    (accumulate_yx mesh coefs parameters.stencil_widht parameters.stencil_height
      parameters.mesh_width parameters.actual_x parameters.actual_y)

/-- Commit tasks submitted by `starpu_stencil_func_v2` and `starpu_stencil_func`
(the same loop in both), in submission order.  The source sets `actual_x`,
`actual_y` and `mesh_width` only; `copy_stencil_func` reads no other field. -/
def starpu.row_copy_tasks (p_settings : s_settings) : List starpu.starpu_parameters :=
  let margin_x := (STENCIL_WIDTH - 1) / 2
  let margin_y := (STENCIL_HEIGHT - 1) / 2
  (loopRange margin_y (p_settings.mesh_height - margin_y)).map (fun y =>
    { actual_x := margin_x
      actual_y := y
      mesh_width := p_settings.mesh_width
      mesh_height := 0
      stencil_widht := 0
      stencil_height := 0
      block_width := 0
      block_height := 0 })

/-- Apply tasks submitted by `starpu_stencil_func_v2`: one per interior row.
The source leaves `actual_x` and the block fields unset; `stencil_func_v2` does
not read them. -/
def starpu.row_apply_tasks (p_settings : s_settings) : List starpu.starpu_parameters :=
  let margin_y := (STENCIL_HEIGHT - 1) / 2
  (loopRange margin_y (p_settings.mesh_height - margin_y)).map (fun y =>
    { actual_x := 0
      actual_y := y
      mesh_height := p_settings.mesh_height
      mesh_width := p_settings.mesh_width
      stencil_height := STENCIL_HEIGHT
      stencil_widht := STENCIL_WIDTH
      block_width := 0
      block_height := 0 })

/-- Apply tasks submitted by `starpu_stencil_func`: one per interior cell, `y`
outermost.  The source leaves the block fields unset; `stencil_func` does not
read them. -/
def starpu.cell_apply_tasks (p_settings : s_settings) : List starpu.starpu_parameters :=
  let margin_x := (STENCIL_WIDTH - 1) / 2
  let margin_y := (STENCIL_HEIGHT - 1) / 2
  (loopRange margin_y (p_settings.mesh_height - margin_y)).flatMap (fun y =>
    (loopRange margin_x (p_settings.mesh_width - margin_x)).map (fun x =>
      { actual_x := x
        actual_y := y
        mesh_height := p_settings.mesh_height
        mesh_width := p_settings.mesh_width
        stencil_height := STENCIL_HEIGHT
        stencil_widht := STENCIL_WIDTH
        block_width := 0
        block_height := 0 }))

/-- Row-per-task update `starpu_stencil_func_v2`: apply tasks in submission
order, `starpu_task_wait_for_all`, then the commit tasks in submission order. -/
def starpu.starpu_stencil_func_v2 (p_temporary_mesh p_mesh : Buffer)
    (p_settings : s_settings) : Buffer :=
  let tmp := (starpu.row_apply_tasks p_settings).foldl
    (fun temporary parameters => starpu.stencil_func_v2 p_mesh temporary stencil_coefs parameters)
    p_temporary_mesh
  (starpu.row_copy_tasks p_settings).foldl
    (fun mesh parameters => starpu.copy_stencil_func mesh tmp parameters) p_mesh

/-- Cell-per-task update `starpu_stencil_func`: apply tasks in submission order,
`starpu_task_wait_for_all`, then the commit tasks in submission order. -/
def starpu.starpu_stencil_func (p_temporary_mesh p_mesh : Buffer)
    (p_settings : s_settings) : Buffer :=
  let tmp := (starpu.cell_apply_tasks p_settings).foldl
    (fun temporary parameters => starpu.stencil_func p_mesh temporary stencil_coefs parameters)
    p_temporary_mesh
  (starpu.row_copy_tasks p_settings).foldl
    (fun mesh parameters => starpu.copy_stencil_func mesh tmp parameters) p_mesh

/-- Addresses of the mesh stored by `copy_block_cpu_func` for row `y`, in the
order of the stores: the 8 lanes of every vector copy, then the scalar tail. -/
def starpu_vec.copy_row_writes (params : starpu_vec.starpu_parameters) (y : Nat) : List Nat :=
  let margin_x := (params.stencil_widht - 1) / 2
  (loopStep margin_x (params.mesh_width - margin_x - 7) 8).flatMap (fun x =>
      (List.range 8).map (fun l => y * params.mesh_width + x + l)) ++
    (loopRange (loopExit margin_x (params.mesh_width - margin_x - 7) 8)
      (params.mesh_width - margin_x)).map (fun x => y * params.mesh_width + x)

/-- Addresses of the mesh stored by `copy_block_cpu_func`, in the order of the
stores. -/
def starpu_vec.copy_block_writes (params : starpu_vec.starpu_parameters) : List Nat :=
  (loopRange params.block_start params.block_end).flatMap
    (fun y => starpu_vec.copy_row_writes params y)

/-- First row `y_start` of the band of worker `t` in `starpu_vec_stencil_func`. -/
def starpu_vec.band_start (p_settings : s_settings) (nb_threads t : Nat) : Nat :=
  1 + t * starpu_vec.band_height p_settings nb_threads

/-- Row `y_end` after the last row of the band of worker `t`. -/
def starpu_vec.band_end (p_settings : s_settings) (nb_threads t : Nat) : Nat :=
  if t = nb_threads - 1 then p_settings.mesh_height - 1
  else starpu_vec.band_start p_settings nb_threads t
    + starpu_vec.band_height p_settings nb_threads

/-- Row `y` belongs to the band `[y_start, y_end)` of worker `t`. -/
def starpu_vec.inBand (p_settings : s_settings) (nb_threads t y : Nat) : Prop :=
  starpu_vec.band_start p_settings nb_threads t ≤ y ∧
    y < starpu_vec.band_end p_settings nb_threads t

instance (p_settings : s_settings) (nb_threads t y : Nat) :
    Decidable (starpu_vec.inBand p_settings nb_threads t y) := by
  unfold starpu_vec.inBand; infer_instance

/-- Addresses of the mesh read by one iteration of the scalar loop of
`stencil_cpu_func_block` at column `x` of row `y`. -/
def starpu_vec.scalar_cell_reads (params : starpu_vec.starpu_parameters) (x y : Nat) :
    List Nat :=
  let margin_x := (params.stencil_widht - 1) / 2
  let margin_y := (params.stencil_height - 1) / 2
  (y * params.mesh_width + x) ::
    (loopRange 0 params.stencil_height).flatMap (fun stencil_y =>
      (loopRange 0 params.stencil_widht).map (fun stencil_x =>
        (y + stencil_y - margin_y) * params.mesh_width + (x + stencil_x - margin_x)))

/-- Addresses of the mesh read by `stencil_cpu_func_block` while it processes
row `y`: those of the vector loop, then those of the scalar loop. -/
def starpu_vec.row_reads (params : starpu_vec.starpu_parameters) (y : Nat) : List Nat :=
  starpu_vec.vector_loop_reads params y ++
    (starpu_vec.scalar_loop_columns params).flatMap
      (fun x => starpu_vec.scalar_cell_reads params x y)

/-- Addresses of the scratch buffer written by `stencil_cpu_func_block` while it
processes row `y`: those of the vector loop, then those of the scalar loop. -/
def starpu_vec.row_writes (params : starpu_vec.starpu_parameters) (y : Nat) : List Nat :=
  starpu_vec.vector_loop_writes params y ++
    (starpu_vec.scalar_loop_columns params).map (fun x => y * params.mesh_width + x)

/-- Loop `while (i < argc)` of `parse_cmd_line` on the arguments not yet read;
`none` stands for the calls of `exit(EXIT_FAILURE)` (directly or through
`usage`).  `atoi` is the C library function. -/
def parse_args (atoi : String → Int) : List String → s_settings → Option s_settings
  | [], p_settings => some p_settings
  | arg :: rest, p_settings =>
    if arg = "--mesh-width" then
      match rest with
      | [] => none
      | v :: rest' =>
        if atoi v < (STENCIL_WIDTH : Int) then none
        else parse_args atoi rest' { p_settings with mesh_width := (atoi v).toNat }
    else if arg = "--mesh-height" then
      match rest with
      | [] => none
      | v :: rest' =>
        if atoi v < (STENCIL_HEIGHT : Int) then none
        else parse_args atoi rest' { p_settings with mesh_height := (atoi v).toNat }
    else if arg = "--initial-mesh" then
      match rest with
      | [] => none
      | v :: rest' =>
        if v = "zero" then
          parse_args atoi rest'
            { p_settings with initial_mesh_type := e_initial_mesh_type.initial_mesh_zero }
        else if v = "random" then
          parse_args atoi rest'
            { p_settings with initial_mesh_type := e_initial_mesh_type.initial_mesh_random }
        else none
    else if arg = "--nb-iterations" then
      match rest with
      | [] => none
      | v :: rest' =>
        if atoi v < 1 then none
        else parse_args atoi rest' { p_settings with nb_iterations := (atoi v).toNat }
    else if arg = "--nb-repeat" then
      match rest with
      | [] => none
      | v :: rest' =>
        if atoi v < 1 then none
        else parse_args atoi rest' { p_settings with nb_repeat := (atoi v).toNat }
    else if arg = "--output" then
      parse_args atoi rest { p_settings with enable_output := true }
    else if arg = "--verbose" then
      parse_args atoi rest { p_settings with enable_verbose := true }
    else none

/-- Command line parsing `parse_cmd_line` on `argv` (`argv[0]` is skipped, the
loop starts at `i = 1`): the settings on return, or `none` when the process
exits. -/
def parse_cmd_line (atoi : String → Int) (argv : List String) (p_settings : s_settings) :
    Option s_settings :=
  match parse_args atoi (argv.drop 1) p_settings with
  | none => none
  | some p_settings =>
    if p_settings.enable_output then
      some { p_settings with
        nb_repeat := 1
        nb_iterations := if p_settings.nb_iterations > 100 then 100
          else p_settings.nb_iterations }
    else some p_settings

/-- The settings satisfy the validation of `parse_cmd_line`. -/
def validated (p_settings : s_settings) : Prop :=
  3 ≤ p_settings.mesh_width ∧ 3 ≤ p_settings.mesh_height ∧
    1 ≤ p_settings.nb_iterations ∧ 1 ≤ p_settings.nb_repeat

instance (p_settings : s_settings) : Decidable (validated p_settings) := by
  unfold validated; infer_instance

end Stencil

namespace Histogram

/-! ### `histogram.c`: histogram binning -/

open Stencil

structure s_settings where
  array_len : Nat
  nb_bins : Nat
  lower_bound : ℚ
  upper_bound : ℚ
  nb_repeat : Nat
  enable_output : Bool
  enable_verbose : Bool

/-- Statement `histogram[j]++`. -/
def increment (histogram : Nat → Int) (j : Nat) : Nat → Int :=
  fun k => if k = j then histogram k + 1 else histogram k

/-- The table `bounds` filled by `naive_compute_histogram`; `bounds0` is the
content of the freshly allocated table. -/
def compute_bounds (bounds0 : Buffer) (p_settings : s_settings) : Buffer :=
  let offset : ELEMENT_TYPE := p_settings.lower_bound
  let scale : ELEMENT_TYPE := p_settings.upper_bound - p_settings.lower_bound
  forLoop 0 p_settings.nb_bins (fun j bounds =>
    store bounds (j + 1) (offset + ((j + 1 : Nat) : ELEMENT_TYPE) * scale / p_settings.nb_bins))
    (store bounds0 0 offset)

/-- Inner loop of `naive_compute_histogram` for one element `value`: the state
is the histogram and whether `break` has been executed. -/
def count_value (bounds : Buffer) (nb_bins : Nat) (value : ELEMENT_TYPE)
    (histogram : Nat → Int) : Nat → Int :=
  (forLoop 0 nb_bins (fun j (st : (Nat → Int) × Bool) =>
    if st.2 then st
    else if value ≥ bounds j ∧ value < bounds (j + 1) then (increment st.1 j, true)
    else st) (histogram, false)).1

/-- Histogram computation `naive_compute_histogram`: returns the histogram.
`bounds0` is the content of the freshly allocated table `bounds`. -/
def naive_compute_histogram (bounds0 : Buffer) (array : Nat → ELEMENT_TYPE)
    (histogram : Nat → Int) (p_settings : s_settings) : Nat → Int :=
  let cleared : Nat → Int := fun j => if j < p_settings.nb_bins then 0 else histogram j
  let bounds := compute_bounds bounds0 p_settings
  forLoop 0 p_settings.array_len (fun i histogram =>
    count_value bounds p_settings.nb_bins (array i) histogram) cleared

/-- Bin edge `j` in exact arithmetic: `lower + j * (upper - lower) / nb_bins`. -/
def bin_edge (p_settings : s_settings) (j : Nat) : ELEMENT_TYPE :=
  p_settings.lower_bound
    + (j : ELEMENT_TYPE) * (p_settings.upper_bound - p_settings.lower_bound) / p_settings.nb_bins

/-- Value `v` falls in bin `j`: `bounds[j] ≤ v < bounds[j + 1]`. -/
def inBin (p_settings : s_settings) (j : Nat) (v : ELEMENT_TYPE) : Prop :=
  bin_edge p_settings j ≤ v ∧ v < bin_edge p_settings (j + 1)

instance (p_settings : s_settings) (j : Nat) (v : ELEMENT_TYPE) :
    Decidable (inBin p_settings j v) := by
  unfold inBin; infer_instance

/-- Default configuration set by `init_settings` of `histogram.c`: 10 elements,
5 bins on `[0, 10)`. -/
def init_settings : s_settings :=
  { array_len := 10
    nb_bins := 5
    lower_bound := 0
    upper_bound := 10
    nb_repeat := 10
    enable_output := false
    enable_verbose := false }

/-- An array of 10 or more elements: `array[i] = i`. -/
def sample_array : Nat → ELEMENT_TYPE := fun i => (i : ELEMENT_TYPE)

end Histogram

namespace Stencil

/-! ## Generic lemmas on loops and stores -/

theorem mem_loopRange (lo hi i : Nat) : i ∈ loopRange lo hi ↔ lo ≤ i ∧ i < hi := by
  unfold loopRange
  rw [List.mem_range'_1]
  omega

theorem assigns_id (F : Nat → ELEMENT_TYPE) : Assigns (fun m => m) (fun _ => False) F := by
  intro m i; simp

theorem assigns_store (F : Nat → ELEMENT_TYPE) (k : Nat) :
    Assigns (fun m => store m k (F k)) (fun i => i = k) F := by
  intro m i
  constructor
  · intro h; simp [store, h]
  · intro h; simp [store, h]

theorem assigns_congr {f : Buffer → Buffer} {S T : Nat → Prop} {F : Nat → ELEMENT_TYPE}
    (h : Assigns f S F) (hST : ∀ i, S i ↔ T i) : Assigns f T F := by
  intro m i
  rw [← hST i]
  exact h m i

theorem assigns_comp {f g : Buffer → Buffer} {S T : Nat → Prop} {F : Nat → ELEMENT_TYPE}
    (hf : Assigns f S F) (hg : Assigns g T F) :
    Assigns (fun m => g (f m)) (fun i => S i ∨ T i) F := by
  intro m i
  by_cases hT : T i
  · exact ⟨fun _ => (hg (f m) i).1 hT, fun h => absurd (Or.inr hT) h⟩
  · constructor
    · intro h
      rcases h with h | h
      · exact ((hg (f m) i).2 hT).trans ((hf m i).1 h)
      · exact absurd h hT
    · intro h
      exact ((hg (f m) i).2 hT).trans ((hf m i).2 (fun hS => h (Or.inl hS)))

theorem assigns_foldl {α : Type} (b : α → Buffer → Buffer) (S : α → Nat → Prop)
    (F : Nat → ELEMENT_TYPE) (l : List α) (h : ∀ a ∈ l, Assigns (b a) (S a) F) :
    Assigns (fun m => l.foldl (fun acc a => b a acc) m) (fun i => ∃ a ∈ l, S a i) F := by
  induction l with
  | nil =>
    intro m i
    simp
  | cons a l ih =>
    have h1 : Assigns (b a) (S a) F := h a (List.mem_cons_self a l)
    have h2 := ih (fun c hc => h c (List.mem_cons_of_mem a hc))
    have h3 := assigns_comp h1 h2
    refine assigns_congr (f := fun m => l.foldl (fun acc a => b a acc) (b a m)) h3 ?_
    intro i
    simp only [List.mem_cons, exists_eq_or_imp]

theorem assigns_forLoop (lo hi : Nat) (b : Nat → Buffer → Buffer) (S : Nat → Nat → Prop)
    (F : Nat → ELEMENT_TYPE) (h : ∀ a, lo ≤ a → a < hi → Assigns (b a) (S a) F) :
    Assigns (forLoop lo hi b) (fun i => ∃ a, lo ≤ a ∧ a < hi ∧ S a i) F := by
  have h1 := assigns_foldl b S F (loopRange lo hi)
    (fun a ha => h a ((mem_loopRange lo hi a).1 ha).1 ((mem_loopRange lo hi a).1 ha).2)
  refine assigns_congr (f := forLoop lo hi b) h1 ?_
  intro i
  constructor
  · rintro ⟨a, ha, hs⟩
    exact ⟨a, ((mem_loopRange lo hi a).1 ha).1, ((mem_loopRange lo hi a).1 ha).2, hs⟩
  · rintro ⟨a, h1, h2, hs⟩
    exact ⟨a, (mem_loopRange lo hi a).2 ⟨h1, h2⟩, hs⟩

/-- The scalar accumulation with `stencil_x` outermost computes `stencilAt`. -/
theorem accumulate_xy_eq (m : Buffer) (coefs : Nat → ELEMENT_TYPE) (w x y : Nat)
    (hx : 1 ≤ x) (hy : 1 ≤ y) :
    accumulate_xy m coefs w x y = stencilAt coefs w m (y * w + x) := by
  obtain ⟨x, rfl⟩ := Nat.exists_eq_add_of_le hx
  obtain ⟨y, rfl⟩ := Nat.exists_eq_add_of_le hy
  have key : ∀ sy sx : Nat, (1 + y + sy - 1) * w + (1 + x + sx - 1)
      = (1 + y) * w + (1 + x) + sy * w + sx - (w + 1) := by
    intro sy sx
    have h1 : 1 + y + sy - 1 = y + sy := by omega
    have h2 : 1 + x + sx - 1 = x + sx := by omega
    have h3 : (1 + y) * w + (1 + x) + sy * w + sx - (w + 1) = (y + sy) * w + (x + sx) := by
      have : (1 + y) * w + (1 + x) + sy * w + sx = (y + sy) * w + (x + sx) + (w + 1) := by ring
      omega
    rw [h1, h2, h3]
  simp only [accumulate_xy, stencilAt, forLoop, loopRange, STENCIL_WIDTH, STENCIL_HEIGHT,
    List.range', List.foldl, Finset.sum_range_succ, Finset.sum_range_zero, key]
  norm_num
  ring

theorem cell_addr (w x y sy sx : Nat) (hx : 1 ≤ x) (hy : 1 ≤ y) :
    y * w + x + sy * w + sx - (w + 1) = (y + sy - 1) * w + (x + sx - 1) := by
  obtain ⟨x, rfl⟩ := Nat.exists_eq_add_of_le hx
  obtain ⟨y, rfl⟩ := Nat.exists_eq_add_of_le hy
  have h1 : 1 + y + sy - 1 = y + sy := by omega
  have h2 : 1 + x + sx - 1 = x + sx := by omega
  have : (1 + y) * w + (1 + x) + sy * w + sx = (y + sy) * w + (x + sx) + (w + 1) := by ring
  rw [h1, h2]
  omega

/-- The value `stencilAt` at the address of cell `(x, y)` in row/column form. -/
theorem stencilAt_cell (coefs : Nat → ELEMENT_TYPE) (w : Nat) (m : Buffer) (x y : Nat)
    (hx : 1 ≤ x) (hy : 1 ≤ y) :
    stencilAt coefs w m (y * w + x) = m (y * w + x) +
      ∑ sy in Finset.range 3, ∑ sx in Finset.range 3,
        m ((y + sy - 1) * w + (x + sx - 1)) * coefs (sy * 3 + sx) := by
  unfold stencilAt
  congr 1
  refine Finset.sum_congr rfl (fun sy _ => Finset.sum_congr rfl (fun sx _ => ?_))
  rw [cell_addr w x y sy sx hx hy]

theorem assigns_store_of_eq (F : Nat → ELEMENT_TYPE) (k : Nat) (v : ELEMENT_TYPE) (h : v = F k) :
    Assigns (fun m => store m k v) (fun i => i = k) F := by
  subst h
  exact assigns_store F k

/-- Phase 1 of `naive_stencil_func`: the scratch buffer receives `stencilAt` on
the interior addresses. -/
theorem naive_compute_assigns (mesh : Buffer) (w h : Nat) :
    Assigns (forLoop 1 (w - 1) (fun x tmp =>
        forLoop 1 (h - 1) (fun y tmp =>
          store tmp (y * w + x) (accumulate_xy mesh stencil_coefs w x y)) tmp))
      (interiorAddr w h) (stencilAt stencil_coefs w mesh) := by
  refine assigns_congr (assigns_forLoop 1 (w - 1) _
    (fun x i => ∃ y, 1 ≤ y ∧ y < h - 1 ∧ i = y * w + x) _ ?_) ?_
  · intro x hx1 _
    refine assigns_forLoop 1 (h - 1) _ (fun y i => i = y * w + x) _ ?_
    intro y hy1 _
    exact assigns_store_of_eq _ _ _ (accumulate_xy_eq mesh stencil_coefs w x y hx1 hy1)
  · intro i
    unfold interiorAddr interiorCell
    constructor
    · rintro ⟨x, hx1, hx2, y, hy1, hy2, rfl⟩
      exact ⟨x, y, ⟨hx1, by omega, hy1, by omega⟩, rfl⟩
    · rintro ⟨x, y, ⟨hx1, hx2, hy1, hy2⟩, rfl⟩
      exact ⟨x, hx1, by omega, y, hy1, by omega, rfl⟩

/-- Phase 2 of `naive_stencil_func`: the mesh receives the scratch buffer on the
interior addresses. -/
theorem naive_commit_assigns (tmp : Buffer) (w h : Nat) :
    Assigns (forLoop 1 (w - 1) (fun x mesh =>
        forLoop 1 (h - 1) (fun y mesh => store mesh (y * w + x) (tmp (y * w + x))) mesh))
      (interiorAddr w h) tmp := by
  refine assigns_congr (assigns_forLoop 1 (w - 1) _
    (fun x i => ∃ y, 1 ≤ y ∧ y < h - 1 ∧ i = y * w + x) _ ?_) ?_
  · intro x _ _
    refine assigns_forLoop 1 (h - 1) _ (fun y i => i = y * w + x) _ ?_
    intro y _ _
    exact assigns_store tmp (y * w + x)
  · intro i
    unfold interiorAddr interiorCell
    constructor
    · rintro ⟨x, hx1, hx2, y, hy1, hy2, rfl⟩
      exact ⟨x, y, ⟨hx1, by omega, hy1, by omega⟩, rfl⟩
    · rintro ⟨x, y, ⟨hx1, hx2, hy1, hy2⟩, rfl⟩
      exact ⟨x, hx1, by omega, y, hy1, by omega, rfl⟩

/-- Closed form of `naive_stencil_func`. -/
theorem naive_stencil_func_at (tmp0 mesh : Buffer) (s : s_settings) (i : Nat) :
    (interiorAddr s.mesh_width s.mesh_height i →
      naive_stencil_func tmp0 mesh s i = stencilAt stencil_coefs s.mesh_width mesh i) ∧
    (¬ interiorAddr s.mesh_width s.mesh_height i → naive_stencil_func tmp0 mesh s i = mesh i) := by
  have hA := naive_compute_assigns mesh s.mesh_width s.mesh_height tmp0 i
  have hB := naive_commit_assigns
    (forLoop 1 (s.mesh_width - 1) (fun x tmp =>
        forLoop 1 (s.mesh_height - 1) (fun y tmp =>
          store tmp (y * s.mesh_width + x)
            (accumulate_xy mesh stencil_coefs s.mesh_width x y)) tmp) tmp0)
    s.mesh_width s.mesh_height mesh i
  constructor
  · intro hi
    exact (hB.1 hi).trans (hA.1 hi)
  · intro hi
    exact hB.2 hi

/-- C1. Sequential kernel, two-phase semantics: after one call of
`naive_stencil_func` on a mesh of width and height at least 3, every interior
cell `(x, y)` holds its old value plus the sum over `sy, sx < 3` of the old value
at `(x + sx - 1, y + sy - 1)` times `stencil_coefs[sy * 3 + sx]`; every value on
the right-hand side is mesh content before the call. -/
theorem naive_stencil_func_interior (tmp0 mesh : Buffer) (s : s_settings)
    (hw : 3 ≤ s.mesh_width) (hh : 3 ≤ s.mesh_height) (x y : Nat)
    (hx1 : 1 ≤ x) (hx2 : x ≤ s.mesh_width - 2) (hy1 : 1 ≤ y) (hy2 : y ≤ s.mesh_height - 2) :
    naive_stencil_func tmp0 mesh s (y * s.mesh_width + x) =
      mesh (y * s.mesh_width + x) +
        ∑ sy in Finset.range 3, ∑ sx in Finset.range 3,
          mesh ((y + sy - 1) * s.mesh_width + (x + sx - 1)) * stencil_coefs (sy * 3 + sx) := by
  have hi : interiorAddr s.mesh_width s.mesh_height (y * s.mesh_width + x) :=
    ⟨x, y, ⟨hx1, by omega, hy1, by omega⟩, rfl⟩
  rw [(naive_stencil_func_at tmp0 mesh s _).1 hi]
  exact stencilAt_cell stencil_coefs s.mesh_width mesh x y hx1 hy1

theorem naive_stencil_func_interior_witness :
    naive_stencil_func zero_buffer scenario_mesh scenario_settings (4 * 9 + 1) =
      scenario_mesh (4 * 9 + 1) +
        ∑ sy in Finset.range 3, ∑ sx in Finset.range 3,
          scenario_mesh ((4 + sy - 1) * 9 + (1 + sx - 1)) * stencil_coefs (sy * 3 + sx) :=
  naive_stencil_func_interior zero_buffer scenario_mesh scenario_settings
    (by decide) (by decide) 1 4 (by decide) (by decide) (by decide) (by decide)

/-! ## Flat addresses -/

theorem addr_inj (w x y x' y' : Nat) (hx : x < w) (hx' : x' < w)
    (h : y * w + x = y' * w + x') : x = x' ∧ y = y' := by
  have hw : 0 < w := by omega
  have h1 : (y * w + x) % w = x := by
    rw [Nat.add_comm, Nat.add_mul_mod_self_right, Nat.mod_eq_of_lt hx]
  have h2 : (y' * w + x') % w = x' := by
    rw [Nat.add_comm, Nat.add_mul_mod_self_right, Nat.mod_eq_of_lt hx']
  have hxx : x = x' := by rw [← h1, ← h2, h]
  subst hxx
  have h3 : y * w = y' * w := by omega
  exact ⟨rfl, Nat.eq_of_mul_eq_mul_right hw h3⟩

theorem interiorAddr_cell (w h x y : Nat) (hx : x < w) :
    interiorAddr w h (y * w + x) ↔ interiorCell w h x y := by
  constructor
  · rintro ⟨x', y', hc, he⟩
    have hx' : x' < w := by unfold interiorCell at hc; omega
    obtain ⟨h1, h2⟩ := addr_inj w x y x' y' hx hx' he
    subst h1; subst h2
    exact hc
  · intro hc
    exact ⟨x, y, hc, rfl⟩

theorem mem_loopStep (lo hi step x : Nat) (hs : 0 < step) :
    x ∈ loopStep lo hi step ↔ ∃ k, x = lo + step * k ∧ x < hi := by
  unfold loopStep loopCount
  rw [List.mem_range']
  have key : ∀ k, k < (hi - lo + step - 1) / step ↔ lo + step * k < hi := by
    intro k
    rw [Nat.lt_iff_add_one_le, Nat.le_div_iff_mul_le hs, Nat.add_mul, Nat.mul_comm k step]
    omega
  constructor
  · rintro ⟨k, hk, rfl⟩
    exact ⟨k, rfl, (key k).1 hk⟩
  · rintro ⟨k, rfl, hk⟩
    exact ⟨k, (key k).2 hk, rfl⟩

/-! ## Tiled decomposition -/

/-- The accumulation with `stencil_y` outermost computes `stencilAt` for the 3×3
stencil. -/
theorem accumulate_yx_eq (m : Buffer) (coefs : Nat → ELEMENT_TYPE) (w x y : Nat)
    (hx : 1 ≤ x) (hy : 1 ≤ y) :
    accumulate_yx m coefs 3 3 w x y = stencilAt coefs w m (y * w + x) := by
  have key : ∀ sy sx : Nat, (y + sy - 1) * w + (x + sx - 1)
      = y * w + x + sy * w + sx - (w + 1) := fun sy sx => (cell_addr w x y sy sx hx hy).symm
  simp only [accumulate_yx, stencilAt, forLoop, loopRange,
    List.range', List.foldl, Finset.sum_range_succ, Finset.sum_range_zero, key]
  norm_num
  ring

theorem stencil_func_block_assigns (mesh : Buffer) (coefs : Nat → ELEMENT_TYPE)
    (p : starpu.starpu_parameters) (hsw : p.stencil_widht = 3) (hsh : p.stencil_height = 3)
    (hx : 1 ≤ p.actual_x) (hy : 1 ≤ p.actual_y) :
    Assigns (fun tmp => starpu.stencil_func_block mesh tmp coefs p)
      (fun i => ∃ x y, starpu.inTile p x y ∧ i = y * p.mesh_width + x)
      (stencilAt coefs p.mesh_width mesh) := by
  unfold starpu.stencil_func_block
  refine assigns_congr (assigns_forLoop _ _ _
    (fun y i => ∃ x, p.actual_x ≤ x ∧ x < p.actual_x + p.block_width ∧
      i = y * p.mesh_width + x) _ ?_) ?_
  · intro y hy1 _
    refine assigns_forLoop _ _ _ (fun x i => i = y * p.mesh_width + x) _ ?_
    intro x hx1 _
    refine assigns_store_of_eq _ _ _ ?_
    rw [hsw, hsh]
    exact accumulate_yx_eq mesh coefs p.mesh_width x y (by omega) (by omega)
  · intro i
    unfold starpu.inTile
    constructor
    · rintro ⟨y, hy1, hy2, x, hx1, hx2, rfl⟩
      exact ⟨x, y, ⟨hx1, hx2, hy1, hy2⟩, rfl⟩
    · rintro ⟨x, y, ⟨hx1, hx2, hy1, hy2⟩, rfl⟩
      exact ⟨y, hy1, hy2, x, hx1, hx2, rfl⟩

theorem copy_block_func_assigns (tmp : Buffer) (p : starpu.starpu_parameters) :
    Assigns (fun mesh => starpu.copy_block_func mesh tmp p)
      (fun i => ∃ x, p.actual_x ≤ x ∧ x < p.actual_x + p.block_width ∧
        i = p.actual_y * p.mesh_width + x) tmp := by
  unfold starpu.copy_block_func
  refine assigns_forLoop _ _ _ (fun x i => i = p.actual_y * p.mesh_width + x) _ ?_
  intro x _ _
  exact assigns_store tmp _

theorem mem_apply_tasks (s : s_settings) (p : starpu.starpu_parameters) :
    p ∈ starpu.apply_tasks s ↔ ∃ kx ky, 1 + 32 * kx < s.mesh_width - 1 ∧
      1 + 16 * ky < s.mesh_height - 1 ∧
      p = { actual_x := 1 + 32 * kx
            actual_y := 1 + 16 * ky
            mesh_width := s.mesh_width
            mesh_height := s.mesh_height
            stencil_widht := 3
            stencil_height := 3
            block_width := starpu.clipped_block_width s (1 + 32 * kx)
            block_height := starpu.clipped_block_height s (1 + 16 * ky) } := by
  unfold starpu.apply_tasks
  simp only [List.mem_flatMap, List.mem_map]
  constructor
  · rintro ⟨by_, hby, bx, hbx, rfl⟩
    obtain ⟨ky, rfl, hky⟩ := (mem_loopStep _ _ _ _ (by decide)).1 hby
    obtain ⟨kx, rfl, hkx⟩ := (mem_loopStep _ _ _ _ (by decide)).1 hbx
    exact ⟨kx, ky, hkx, hky, rfl⟩
  · rintro ⟨kx, ky, hkx, hky, rfl⟩
    exact ⟨1 + 16 * ky, (mem_loopStep _ _ _ _ (by decide)).2 ⟨ky, rfl, hky⟩,
      1 + 32 * kx, (mem_loopStep _ _ _ _ (by decide)).2 ⟨kx, rfl, hkx⟩, rfl⟩

theorem mem_copy_tasks (s : s_settings) (p : starpu.starpu_parameters) :
    p ∈ starpu.copy_tasks s ↔ ∃ kx ky, 1 + 32 * kx < s.mesh_width - 1 ∧
      1 + 16 * ky < s.mesh_height - 1 ∧
      p = { actual_x := 1 + 32 * kx
            actual_y := 1 + 16 * ky
            mesh_width := s.mesh_width
            mesh_height := 0
            stencil_widht := 0
            stencil_height := 0
            block_width := starpu.clipped_block_width s (1 + 32 * kx)
            block_height := starpu.clipped_block_height s (1 + 16 * ky) } := by
  unfold starpu.copy_tasks
  simp only [List.mem_flatMap, List.mem_map]
  constructor
  · rintro ⟨by_, hby, bx, hbx, rfl⟩
    obtain ⟨ky, rfl, hky⟩ := (mem_loopStep _ _ _ _ (by decide)).1 hby
    obtain ⟨kx, rfl, hkx⟩ := (mem_loopStep _ _ _ _ (by decide)).1 hbx
    exact ⟨kx, ky, hkx, hky, rfl⟩
  · rintro ⟨kx, ky, hkx, hky, rfl⟩
    exact ⟨1 + 16 * ky, (mem_loopStep _ _ _ _ (by decide)).2 ⟨ky, rfl, hky⟩,
      1 + 32 * kx, (mem_loopStep _ _ _ _ (by decide)).2 ⟨kx, rfl, hkx⟩, rfl⟩

theorem clipped_block_width_eq (s : s_settings) (bx : Nat) :
    starpu.clipped_block_width s bx = min 32 (s.mesh_width - 1 - bx) := by
  unfold starpu.clipped_block_width
  show (if bx + 32 < s.mesh_width - 1 then 32 else s.mesh_width - 1 - bx) = _
  split <;> omega

theorem clipped_block_height_eq (s : s_settings) (by_ : Nat) :
    starpu.clipped_block_height s by_ = min 16 (s.mesh_height - 1 - by_) := by
  unfold starpu.clipped_block_height
  show (if by_ + 16 < s.mesh_height - 1 then 16 else s.mesh_height - 1 - by_) = _
  split <;> omega

/-- Apply phase of the tiled update: the scratch buffer receives `stencilAt` on
the interior addresses. -/
theorem partitioned_apply_assigns (mesh : Buffer) (s : s_settings) :
    Assigns (fun tmp => (starpu.apply_tasks s).foldl
        (fun temporary parameters =>
          starpu.stencil_func_block mesh temporary stencil_coefs parameters) tmp)
      (interiorAddr s.mesh_width s.mesh_height)
      (stencilAt stencil_coefs s.mesh_width mesh) := by
  refine assigns_congr (assigns_foldl
    (fun p tmp => starpu.stencil_func_block mesh tmp stencil_coefs p)
    (fun p i => ∃ x y, starpu.inTile p x y ∧ i = y * s.mesh_width + x) _ _ ?_) ?_
  · intro p hp
    obtain ⟨kx, ky, hkx, hky, rfl⟩ := (mem_apply_tasks s p).1 hp
    exact stencil_func_block_assigns mesh stencil_coefs _ rfl rfl
      (Nat.le_add_right 1 _) (Nat.le_add_right 1 _)
  · intro i
    constructor
    · rintro ⟨p, hp, x, y, ht, rfl⟩
      obtain ⟨kx, ky, hkx, hky, rfl⟩ := (mem_apply_tasks s p).1 hp
      unfold starpu.inTile at ht
      simp only [clipped_block_width_eq, clipped_block_height_eq] at ht
      exact ⟨x, y, ⟨by omega, by omega, by omega, by omega⟩, rfl⟩
    · rintro ⟨x, y, ⟨hx1, hx2, hy1, hy2⟩, rfl⟩
      refine ⟨_, (mem_apply_tasks s _).2 ⟨(x - 1) / 32, (y - 1) / 16, by omega, by omega, rfl⟩,
        x, y, ?_, rfl⟩
      unfold starpu.inTile
      simp only [clipped_block_width_eq, clipped_block_height_eq]
      omega

/-- Commit phase of the tiled update: the mesh receives the scratch buffer on
the interior addresses of the first row of every tile. -/
theorem partitioned_commit_assigns (tmp : Buffer) (s : s_settings) :
    Assigns (fun mesh => (starpu.copy_tasks s).foldl
        (fun mesh parameters => starpu.copy_block_func mesh tmp parameters) mesh)
      (tileFirstRowAddr s.mesh_width s.mesh_height) tmp := by
  refine assigns_congr (assigns_foldl
    (fun p mesh => starpu.copy_block_func mesh tmp p)
    (fun p i => ∃ x, p.actual_x ≤ x ∧ x < p.actual_x + p.block_width ∧
        i = p.actual_y * p.mesh_width + x) _ _ ?_) ?_
  · intro p _
    exact copy_block_func_assigns tmp p
  · intro i
    constructor
    · rintro ⟨p, hp, x, hx1, hx2, rfl⟩
      obtain ⟨kx, ky, hkx, hky, rfl⟩ := (mem_copy_tasks s p).1 hp
      simp only [clipped_block_width_eq] at hx1 hx2
      exact ⟨x, 1 + 16 * ky, ⟨by omega, by omega, by omega, by omega⟩, by omega, rfl⟩
    · rintro ⟨x, y, ⟨hx1, hx2, hy1, hy2⟩, hy3, rfl⟩
      refine ⟨_, (mem_copy_tasks s _).2 ⟨(x - 1) / 32, (y - 1) / 16, by omega, by omega, rfl⟩,
        x, ?_, ?_, ?_⟩
      · show 1 + 32 * ((x - 1) / 32) ≤ x
        omega
      · show x < 1 + 32 * ((x - 1) / 32) + starpu.clipped_block_width s (1 + 32 * ((x - 1) / 32))
        rw [clipped_block_width_eq]
        omega
      · show y * s.mesh_width + x = (1 + 16 * ((y - 1) / 16)) * s.mesh_width + x
        have : 1 + 16 * ((y - 1) / 16) = y := by omega
        rw [this]

theorem tileFirstRowAddr_interior (w h i : Nat) (hi : tileFirstRowAddr w h i) :
    interiorAddr w h i := by
  obtain ⟨x, y, hc, _, rfl⟩ := hi
  exact ⟨x, y, hc, rfl⟩

/-- Closed form of `starpu_stencil_func_partitioned`. -/
theorem starpu_stencil_func_partitioned_at (tmp0 mesh : Buffer) (s : s_settings) (i : Nat) :
    (tileFirstRowAddr s.mesh_width s.mesh_height i →
      starpu.starpu_stencil_func_partitioned tmp0 mesh s i
        = stencilAt stencil_coefs s.mesh_width mesh i) ∧
    (¬ tileFirstRowAddr s.mesh_width s.mesh_height i →
      starpu.starpu_stencil_func_partitioned tmp0 mesh s i = mesh i) := by
  have hA := partitioned_apply_assigns mesh s tmp0 i
  have hB := partitioned_commit_assigns
    ((starpu.apply_tasks s).foldl
      (fun temporary parameters =>
        starpu.stencil_func_block mesh temporary stencil_coefs parameters) tmp0) s mesh i
  constructor
  · intro hi
    exact (hB.1 hi).trans (hA.1 (tileFirstRowAddr_interior _ _ _ hi))
  · intro hi
    exact hB.2 hi

/-! ## Mesh store -/

theorem addr_div (w x y : Nat) (hx : x < w) : (y * w + x) / w = y := by
  have hw : 0 < w := by omega
  rw [Nat.add_comm, Nat.add_mul_div_right _ _ hw, Nat.div_eq_of_lt hx, Nat.zero_add]

theorem addr_mod (w x y : Nat) (hx : x < w) : (y * w + x) % w = x := by
  rw [Nat.add_comm, Nat.add_mul_mod_self_right, Nat.mod_eq_of_lt hx]

theorem interiorAddr_iff (w h i : Nat) :
    interiorAddr w h i ↔
      ∃ y, 1 ≤ y ∧ y < h - 1 ∧ ∃ x, 1 ≤ x ∧ x < w - 1 ∧ i = y * w + x := by
  unfold interiorAddr interiorCell
  constructor
  · rintro ⟨x, y, ⟨hx1, hx2, hy1, hy2⟩, rfl⟩
    exact ⟨y, hy1, by omega, x, hx1, by omega, rfl⟩
  · rintro ⟨y, hy1, hy2, x, hx1, hx2, rfl⟩
    exact ⟨x, y, ⟨hx1, by omega, hy1, by omega⟩, rfl⟩

theorem init_mesh_zero_assigns (s : s_settings) :
    Assigns (fun mesh => init_mesh_zero mesh s)
      (interiorAddr s.mesh_width s.mesh_height) (fun _ => 0) := by
  unfold init_mesh_zero
  refine assigns_congr (assigns_forLoop 1 (s.mesh_height - 1) _
    (fun y i => ∃ x, 1 ≤ x ∧ x < s.mesh_width - 1 ∧ i = y * s.mesh_width + x) _ ?_)
    (fun i => (interiorAddr_iff _ _ i).symm)
  intro y _ _
  refine assigns_forLoop 1 (s.mesh_width - 1) _ (fun x i => i = y * s.mesh_width + x) _ ?_
  intro x _ _
  exact assigns_store (fun _ => 0) _

theorem init_mesh_random_assigns (rand_values : Nat → ELEMENT_TYPE) (s : s_settings) :
    Assigns (fun mesh => init_mesh_random rand_values mesh s)
      (interiorAddr s.mesh_width s.mesh_height)
      (fun i => rand_values ((i / s.mesh_width - 1) * (s.mesh_width - 2)
        + (i % s.mesh_width - 1))) := by
  unfold init_mesh_random
  refine assigns_congr (assigns_forLoop 1 (s.mesh_height - 1) _
    (fun y i => ∃ x, 1 ≤ x ∧ x < s.mesh_width - 1 ∧ i = y * s.mesh_width + x) _ ?_)
    (fun i => (interiorAddr_iff _ _ i).symm)
  intro y _ _
  refine assigns_forLoop 1 (s.mesh_width - 1) _ (fun x i => i = y * s.mesh_width + x) _ ?_
  intro x _ hx
  refine assigns_store_of_eq _ _ _ ?_
  show rand_values ((y - 1) * (s.mesh_width - 2 * 1) + (x - 1)) = _
  rw [addr_div _ x y (by omega), addr_mod _ x y (by omega), Nat.mul_one]

theorem assigns_store_store (F : Nat → ELEMENT_TYPE) (a b : Nat) (u v : ELEMENT_TYPE)
    (hu : u = F a) (hv : v = F b) :
    Assigns (fun m => store (store m a u) b v) (fun i => i = a ∨ i = b) F :=
  assigns_comp (assigns_store_of_eq F a u hu) (assigns_store_of_eq F b v hv)

theorem apply_boundary_conditions_assigns (s : s_settings)
    (hw : 2 ≤ s.mesh_width) (hh : 2 ≤ s.mesh_height) :
    Assigns (fun mesh => apply_boundary_conditions mesh s)
      (boundaryAddr s.mesh_width s.mesh_height)
      (fun i => boundaryValue s.mesh_height (i % s.mesh_width) (i / s.mesh_width)) := by
  unfold apply_boundary_conditions
  have hrows := assigns_forLoop 0 s.mesh_width
    (fun x mesh => forLoop 0 ((STENCIL_HEIGHT - 1) / 2) (fun y mesh =>
        store (store mesh (y * s.mesh_width + x) TOP_BOUNDARY_VALUE)
          ((s.mesh_height - 1 - y) * s.mesh_width + x) BOTTOM_BOUNDARY_VALUE) mesh)
    (fun x i => ∃ y, 0 ≤ y ∧ y < 1 ∧
      (i = y * s.mesh_width + x ∨ i = (s.mesh_height - 1 - y) * s.mesh_width + x))
    (fun i => boundaryValue s.mesh_height (i % s.mesh_width) (i / s.mesh_width)) (by
      intro x _ hx
      refine assigns_forLoop 0 1 _ (fun y i =>
        i = y * s.mesh_width + x ∨ i = (s.mesh_height - 1 - y) * s.mesh_width + x) _ ?_
      intro y _ hy
      have hy0 : y = 0 := by omega
      subst hy0
      refine assigns_store_store _ _ _ _ _ ?_ ?_
      · show _ = boundaryValue _ _ _
        rw [addr_div _ x 0 hx]
        simp [boundaryValue]
      · show _ = boundaryValue _ _ _
        rw [addr_div _ x _ hx]
        have : ¬ (s.mesh_height - 1 = 0) := by omega
        simp [boundaryValue, this])
  have hcols := assigns_forLoop 1 (s.mesh_height - 1)
    (fun y mesh => forLoop 0 ((STENCIL_WIDTH - 1) / 2) (fun x mesh =>
        store (store mesh (y * s.mesh_width + x) LEFT_BOUNDARY_VALUE)
          (y * s.mesh_width + (s.mesh_width - 1 - x)) RIGHT_BOUNDARY_VALUE) mesh)
    (fun y i => ∃ x, 0 ≤ x ∧ x < 1 ∧
      (i = y * s.mesh_width + x ∨ i = y * s.mesh_width + (s.mesh_width - 1 - x)))
    (fun i => boundaryValue s.mesh_height (i % s.mesh_width) (i / s.mesh_width)) (by
      intro y hy1 hy2
      refine assigns_forLoop 0 1 _ (fun x i =>
        i = y * s.mesh_width + x ∨ i = y * s.mesh_width + (s.mesh_width - 1 - x)) _ ?_
      intro x _ hx
      have hx0 : x = 0 := by omega
      subst hx0
      have h1 : ¬ (y = 0) := by omega
      have h2 : ¬ (y = s.mesh_height - 1) := by omega
      refine assigns_store_store _ _ _ _ _ ?_ ?_
      · show _ = boundaryValue _ _ _
        rw [addr_div _ 0 y (by omega), addr_mod _ 0 y (by omega)]
        simp [boundaryValue, h1, h2]
      · show _ = boundaryValue _ _ _
        rw [addr_div _ _ y (by omega), addr_mod _ _ y (by omega)]
        have h3 : ¬ (s.mesh_width - 1 = 0) := by omega
        simp [boundaryValue, h1, h2, h3])
  refine assigns_congr (assigns_comp hrows hcols) ?_
  intro i
  unfold boundaryAddr
  constructor
  · rintro (⟨x, _, hx, y, _, hy, h | h⟩ | ⟨y, hy1, hy2, x, _, hx, h | h⟩)
    · exact ⟨x, y, hx, by omega, Or.inr (Or.inr (Or.inl (by omega))), h⟩
    · exact ⟨x, s.mesh_height - 1 - y, hx, by omega,
        Or.inr (Or.inr (Or.inr (by omega))), h⟩
    · exact ⟨x, y, by omega, by omega, Or.inl (by omega), h⟩
    · exact ⟨s.mesh_width - 1 - x, y, by omega, by omega, Or.inr (Or.inl (by omega)), h⟩
  · rintro ⟨x, y, hx, hy, hb, rfl⟩
    by_cases hy0 : y = 0
    · subst hy0
      exact Or.inl ⟨x, Nat.zero_le x, hx, 0, Nat.le_refl 0, by decide, Or.inl rfl⟩
    by_cases hyh : y = s.mesh_height - 1
    · subst hyh
      exact Or.inl ⟨x, Nat.zero_le x, hx, 0, Nat.le_refl 0, by decide, Or.inr rfl⟩
    rcases hb with hb | hb | hb | hb
    · subst hb
      exact Or.inr ⟨y, by omega, by omega, 0, Nat.le_refl 0, by decide, Or.inl rfl⟩
    · subst hb
      exact Or.inr ⟨y, by omega, by omega, 0, Nat.le_refl 0, by decide, Or.inr rfl⟩
    · exact absurd hb hy0
    · exact absurd hb hyh

theorem boundaryAddr_not_interior (w h i : Nat) (hb : boundaryAddr w h i) :
    ¬ interiorAddr w h i := by
  rintro ⟨x', y', ⟨hx1, hx2, hy1, hy2⟩, he⟩
  obtain ⟨x, y, hx, hy, hb, rfl⟩ := hb
  obtain ⟨h1, h2⟩ := addr_inj w x y x' y' hx (by omega) he
  omega

theorem boundaryAddr_or_interior (w h x y : Nat) (hx : x < w) (hy : y < h) :
    boundaryAddr w h (y * w + x) ∨ interiorAddr w h (y * w + x) := by
  by_cases hc : interiorCell w h x y
  · exact Or.inr ⟨x, y, hc, rfl⟩
  · refine Or.inl ⟨x, y, hx, hy, ?_, rfl⟩
    unfold interiorCell at hc
    omega

/-- Content of the mesh prepared by `main`: `init_mesh_values` then
`apply_boundary_conditions`, at a boundary cell. -/
theorem prepared_mesh_boundary (rand_values : Nat → ELEMENT_TYPE) (mesh0 : Buffer)
    (s : s_settings) (hw : 2 ≤ s.mesh_width) (hh : 2 ≤ s.mesh_height) (x y : Nat)
    (hx : x < s.mesh_width) (hy : y < s.mesh_height)
    (hb : x = 0 ∨ x = s.mesh_width - 1 ∨ y = 0 ∨ y = s.mesh_height - 1) :
    apply_boundary_conditions (init_mesh_values rand_values mesh0 s) s (y * s.mesh_width + x)
      = boundaryValue s.mesh_height x y := by
  have hB : boundaryAddr s.mesh_width s.mesh_height (y * s.mesh_width + x) :=
    ⟨x, y, hx, hy, hb, rfl⟩
  have h1 := ((apply_boundary_conditions_assigns s hw hh)
    (init_mesh_values rand_values mesh0 s) (y * s.mesh_width + x)).1 hB
  simp only [addr_div _ x y hx, addr_mod _ x y hx] at h1
  exact h1

/-- Content of the 9×9 scenario mesh by flat address. -/
theorem scenario_mesh_addr (i : Nat) :
    scenario_mesh i =
      if i < 81 then
        (if 1 ≤ i % 9 ∧ i % 9 ≤ 7 ∧ 1 ≤ i / 9 ∧ i / 9 ≤ 7 then 0
         else boundaryValue 9 (i % 9) (i / 9))
      else 0 := by
  have hA := apply_boundary_conditions_assigns scenario_settings (by decide) (by decide)
    (init_mesh_values (fun _ => 0) zero_buffer scenario_settings) i
  have hZ := init_mesh_zero_assigns scenario_settings zero_buffer i
  have hdecomp : i = (i / 9) * 9 + i % 9 := by omega
  by_cases hlt : i < 81
  · rw [if_pos hlt]
    by_cases hc : 1 ≤ i % 9 ∧ i % 9 ≤ 7 ∧ 1 ≤ i / 9 ∧ i / 9 ≤ 7
    · rw [if_pos hc]
      have hI : interiorAddr 9 9 i := ⟨i % 9, i / 9, by unfold interiorCell; omega, hdecomp⟩
      have hnB : ¬ boundaryAddr 9 9 i := fun hB => boundaryAddr_not_interior 9 9 i hB hI
      exact (hA.2 hnB).trans (hZ.1 hI)
    · rw [if_neg hc]
      have hB : boundaryAddr 9 9 i := ⟨i % 9, i / 9, by omega, by omega, by omega, hdecomp⟩
      exact hA.1 hB
  · rw [if_neg hlt]
    have hnB : ¬ boundaryAddr 9 9 i := by
      rintro ⟨x, y, hx, hy, _, rfl⟩
      omega
    have hnI : ¬ interiorAddr 9 9 i := by
      rintro ⟨x, y, ⟨_, _, _, _⟩, rfl⟩
      omega
    exact (hA.2 hnB).trans (hZ.2 hnI)

/-- C2. On the 9×9 scenario mesh the tiled update leaves the interior cell
`(x, y) = (1, 2)` at its old value `0`, whereas the sequential kernel gives it
`-10/3`: the commit phase copies only the first row of each tile. -/
theorem partitioned_scenario_row2 :
    starpu.starpu_stencil_func_partitioned zero_buffer scenario_mesh scenario_settings
        (2 * 9 + 1) = 0 ∧
    naive_stencil_func zero_buffer scenario_mesh scenario_settings (2 * 9 + 1) = -10 / 3 := by
  have hI : interiorAddr 9 9 19 := ⟨1, 2, by unfold interiorCell; omega, rfl⟩
  have hnT : ¬ tileFirstRowAddr 9 9 19 := by
    rintro ⟨x, y, ⟨_, _, _, _⟩, _, _⟩
    omega
  constructor
  · rw [(starpu_stencil_func_partitioned_at zero_buffer scenario_mesh scenario_settings 19).2 hnT]
    simp [scenario_mesh_addr]
  · rw [(naive_stencil_func_at zero_buffer scenario_mesh scenario_settings 19).1 hI]
    simp [stencilAt, Finset.sum_range_succ, scenario_mesh_addr, boundaryValue, stencil_coefs,
      scenario_settings, LEFT_BOUNDARY_VALUE]
    norm_num

/-- C4. The commit task of the tile with origin `(1, 1)`, width 7 and height 7
of the 9×9 scenario is among the submitted commit tasks, the cell `(1, 2)` lies
in its region, and `copy_block_func` leaves that mesh cell at its old value `0`
although the scratch buffer holds `1` there: only row `actual_y` is copied. -/
theorem copy_block_func_skips_second_row :
    scenario_commit_tile ∈ starpu.copy_tasks scenario_settings ∧
    starpu.inTile scenario_commit_tile 1 2 ∧
    starpu.copy_block_func zero_buffer (fun _ => 1) scenario_commit_tile (2 * 9 + 1) = 0 := by
  refine ⟨by decide, by unfold starpu.inTile; decide, ?_⟩
  have h := (copy_block_func_assigns (fun _ => 1) scenario_commit_tile zero_buffer
    (2 * 9 + 1)).2
  refine (h ?_).trans rfl
  rintro ⟨x, h1, h2, hx⟩
  simp only [scenario_commit_tile] at h1 h2 hx
  omega

theorem loopStep_pairwise (lo hi step : Nat) (hs : 0 < step) :
    List.Pairwise (fun a b => a ∈ loopStep lo hi step ∧ b ∈ loopStep lo hi step ∧ a < b)
      (loopStep lo hi step) := by
  have h := List.pairwise_lt_range' lo (loopCount lo hi step) step hs
  exact List.Pairwise.imp_of_mem (fun ha hb hab => ⟨ha, hb, hab⟩) h

theorem apply_tasks_pairwise_disjoint (s : s_settings) :
    List.Pairwise (fun p q => ∀ x y, ¬ (starpu.inTile p x y ∧ starpu.inTile q x y))
      (starpu.apply_tasks s) := by
  unfold starpu.apply_tasks
  rw [List.pairwise_flatMap]
  constructor
  · intro by_ _
    rw [List.pairwise_map]
    refine List.Pairwise.imp ?_ (loopStep_pairwise _ _ 32 (by decide))
    rintro a b ⟨ha, hb, hab⟩ x y ⟨⟨h1, h2, _, _⟩, ⟨h3, h4, _, _⟩⟩
    obtain ⟨ka, rfl, _⟩ := (mem_loopStep _ _ _ _ (by decide)).1 ha
    obtain ⟨kb, rfl, _⟩ := (mem_loopStep _ _ _ _ (by decide)).1 hb
    simp only [clipped_block_width_eq] at h1 h2 h3 h4
    omega
  · refine List.Pairwise.imp ?_ (loopStep_pairwise _ _ 16 (by decide))
    rintro a b ⟨ha, hb, hab⟩ p hp q hq x y ⟨⟨_, _, h1, h2⟩, ⟨_, _, h3, h4⟩⟩
    obtain ⟨ka, rfl, _⟩ := (mem_loopStep _ _ _ _ (by decide)).1 ha
    obtain ⟨kb, rfl, _⟩ := (mem_loopStep _ _ _ _ (by decide)).1 hb
    obtain ⟨_, _, rfl⟩ := List.mem_map.1 hp
    obtain ⟨_, _, rfl⟩ := List.mem_map.1 hq
    simp only [clipped_block_height_eq] at h1 h2 h3 h4
    omega

/-- C5. Tiled partition: for a mesh of width and height at least 3, every tile
submitted by the apply phase of `starpu_stencil_func_partitioned` has its origin
at `(1 + 32 kx, 1 + 16 ky)` inside the interior, has width `min 32 (width - 1 -
bx)` and height `min 16 (height - 1 - by)`, both positive and at most 32 and 16,
and contains interior cells only; every such origin inside the interior has its
tile; every interior cell lies in some tile; and the tiles are pairwise
disjoint. -/
theorem apply_tasks_partition (s : s_settings) (hw : 3 ≤ s.mesh_width)
    (hh : 3 ≤ s.mesh_height) :
    (∀ p ∈ starpu.apply_tasks s,
      (∃ kx ky, p.actual_x = 1 + 32 * kx ∧ p.actual_y = 1 + 16 * ky) ∧
      p.actual_x < s.mesh_width - 1 ∧ p.actual_y < s.mesh_height - 1 ∧
      p.block_width = min 32 (s.mesh_width - 1 - p.actual_x) ∧
      p.block_height = min 16 (s.mesh_height - 1 - p.actual_y) ∧
      0 < p.block_width ∧ p.block_width ≤ 32 ∧ 0 < p.block_height ∧ p.block_height ≤ 16 ∧
      ∀ x y, starpu.inTile p x y → interiorCell s.mesh_width s.mesh_height x y) ∧
    (∀ kx ky, 1 + 32 * kx < s.mesh_width - 1 → 1 + 16 * ky < s.mesh_height - 1 →
      ∃ p ∈ starpu.apply_tasks s, p.actual_x = 1 + 32 * kx ∧ p.actual_y = 1 + 16 * ky) ∧
    (∀ x y, interiorCell s.mesh_width s.mesh_height x y →
      ∃ p ∈ starpu.apply_tasks s, starpu.inTile p x y) ∧
    List.Pairwise (fun p q => ∀ x y, ¬ (starpu.inTile p x y ∧ starpu.inTile q x y))
      (starpu.apply_tasks s) := by
  refine ⟨?_, ?_, ?_, apply_tasks_pairwise_disjoint s⟩
  · intro p hp
    obtain ⟨kx, ky, hkx, hky, rfl⟩ := (mem_apply_tasks s p).1 hp
    refine ⟨⟨kx, ky, rfl, rfl⟩, hkx, hky, clipped_block_width_eq s _,
      clipped_block_height_eq s _, ?_, ?_, ?_, ?_, ?_⟩
    · show 0 < starpu.clipped_block_width s (1 + 32 * kx)
      rw [clipped_block_width_eq]; omega
    · show starpu.clipped_block_width s (1 + 32 * kx) ≤ 32
      rw [clipped_block_width_eq]; omega
    · show 0 < starpu.clipped_block_height s (1 + 16 * ky)
      rw [clipped_block_height_eq]; omega
    · show starpu.clipped_block_height s (1 + 16 * ky) ≤ 16
      rw [clipped_block_height_eq]; omega
    · intro x y ht
      unfold starpu.inTile at ht
      simp only [clipped_block_width_eq, clipped_block_height_eq] at ht
      unfold interiorCell
      omega
  · intro kx ky hkx hky
    exact ⟨_, (mem_apply_tasks s _).2 ⟨kx, ky, hkx, hky, rfl⟩, rfl, rfl⟩
  · rintro x y ⟨hx1, hx2, hy1, hy2⟩
    refine ⟨_, (mem_apply_tasks s _).2 ⟨(x - 1) / 32, (y - 1) / 16, by omega, by omega, rfl⟩, ?_⟩
    unfold starpu.inTile
    simp only [clipped_block_width_eq, clipped_block_height_eq]
    omega

theorem apply_tasks_partition_witness :
    (∀ p ∈ starpu.apply_tasks init_settings,
      (∃ kx ky, p.actual_x = 1 + 32 * kx ∧ p.actual_y = 1 + 16 * ky) ∧
      p.actual_x < init_settings.mesh_width - 1 ∧
      p.actual_y < init_settings.mesh_height - 1 ∧
      p.block_width = min 32 (init_settings.mesh_width - 1 - p.actual_x) ∧
      p.block_height = min 16 (init_settings.mesh_height - 1 - p.actual_y) ∧
      0 < p.block_width ∧ p.block_width ≤ 32 ∧ 0 < p.block_height ∧ p.block_height ≤ 16 ∧
      ∀ x y, starpu.inTile p x y →
        interiorCell init_settings.mesh_width init_settings.mesh_height x y) ∧
    (∀ kx ky, 1 + 32 * kx < init_settings.mesh_width - 1 →
      1 + 16 * ky < init_settings.mesh_height - 1 →
      ∃ p ∈ starpu.apply_tasks init_settings,
        p.actual_x = 1 + 32 * kx ∧ p.actual_y = 1 + 16 * ky) ∧
    (∀ x y, interiorCell init_settings.mesh_width init_settings.mesh_height x y →
      ∃ p ∈ starpu.apply_tasks init_settings, starpu.inTile p x y) ∧
    List.Pairwise (fun p q => ∀ x y, ¬ (starpu.inTile p x y ∧ starpu.inTile q x y))
      (starpu.apply_tasks init_settings) :=
  apply_tasks_partition init_settings (by decide) (by decide)

/-! ## Row-band decomposition with 8-lane kernels -/

/-- Every lane of a vector batch holds `stencilAt` at the address it is stored
to. -/
theorem vector_batch_lane (mesh : Buffer) (p : starpu_vec.starpu_parameters)
    (hsw : p.stencil_widht = 3) (hsh : p.stencil_height = 3) (x y : Nat)
    (hx : 1 ≤ x) (hy : 1 ≤ y) (l : Fin 8) :
    starpu_vec.vector_batch mesh (fun i => starpu_vec.mm256_set1_ps (stencil_coefs i)) p x y l
      = stencilAt stencil_coefs p.mesh_width mesh (y * p.mesh_width + x + l.val) := by
  have key : ∀ sy sx : Nat, (y + sy - 1) * p.mesh_width + (x + sx - 1) + l.val
      = y * p.mesh_width + x + l.val + sy * p.mesh_width + sx - (p.mesh_width + 1) := by
    intro sy sx
    have h1 := cell_addr p.mesh_width x y sy sx hx hy
    have h2 : p.mesh_width ≤ y * p.mesh_width := Nat.le_mul_of_pos_left _ hy
    omega
  simp only [starpu_vec.vector_batch, hsw, hsh, stencilAt, forLoop, loopRange,
    List.range', List.foldl, Finset.sum_range_succ, Finset.sum_range_zero,
    starpu_vec.mm256_fmadd_ps, starpu_vec.mm256_loadu_ps, starpu_vec.mm256_set1_ps, key]
  norm_num
  ring

theorem assigns_storeu (F : Nat → ELEMENT_TYPE) (k : Nat) (v : starpu_vec.m256)
    (hv : ∀ l : Fin 8, v l = F (k + l.val)) :
    Assigns (fun m => starpu_vec.mm256_storeu_ps m k v) (fun i => k ≤ i ∧ i < k + 8) F := by
  intro m i
  constructor
  · intro h
    simp only [starpu_vec.mm256_storeu_ps, dif_pos h]
    rw [hv]
    congr 1
    show k + (i - k) = i
    omega
  · intro h
    simp only [starpu_vec.mm256_storeu_ps, dif_neg h]

/-- The scalar loop of `stencil_cpu_func_block` starts where the vector loop
stopped, which is never below its own bound: it visits no column. -/
theorem scalar_loop_columns_nil (p : starpu_vec.starpu_parameters) :
    starpu_vec.scalar_loop_columns p = [] := by
  unfold starpu_vec.scalar_loop_columns loopRange loopExit loopCount
  have h : ∀ m hi : Nat, hi - (m + 8 * ((hi - m + 8 - 1) / 8)) = 0 := by
    intro m hi
    omega
  simp only [h, List.range'_zero]

theorem mem_vector_loop_columns (p : starpu_vec.starpu_parameters)
    (hsw : p.stencil_widht = 3) (x : Nat) :
    x ∈ starpu_vec.vector_loop_columns p ↔ ∃ k, x = 1 + 8 * k ∧ x < p.mesh_width - 1 := by
  unfold starpu_vec.vector_loop_columns
  rw [hsw]
  exact mem_loopStep 1 (p.mesh_width - 1) 8 x (by decide)

/-- Addresses written by `stencil_cpu_func_block`: for every row of the band,
the 8 addresses of every batch started at a column `1 + 8 k < mesh_width - 1`. -/
theorem stencil_cpu_func_block_assigns (mesh : Buffer) (coefs : Nat → ELEMENT_TYPE)
    (p : starpu_vec.starpu_parameters) (hsw : p.stencil_widht = 3)
    (hsh : p.stencil_height = 3) (hbs : 1 ≤ p.block_start) :
    Assigns (fun tmp => starpu_vec.stencil_cpu_func_block mesh tmp coefs p)
      (fun i => ∃ y, p.block_start ≤ y ∧ y < p.block_end ∧
        ∃ k, 1 + 8 * k < p.mesh_width - 1 ∧
          y * p.mesh_width + (1 + 8 * k) ≤ i ∧ i < y * p.mesh_width + (1 + 8 * k) + 8)
      (stencilAt stencil_coefs p.mesh_width mesh) := by
  unfold starpu_vec.stencil_cpu_func_block
  simp only [scalar_loop_columns_nil, List.foldl_nil]
  refine assigns_forLoop _ _ _ _ _ ?_
  intro y hy1 _
  refine assigns_congr (assigns_foldl
    (fun x tmp => starpu_vec.mm256_storeu_ps tmp (y * p.mesh_width + x)
      (starpu_vec.vector_batch mesh (fun i => starpu_vec.mm256_set1_ps (stencil_coefs i)) p x y))
    (fun x i => y * p.mesh_width + x ≤ i ∧ i < y * p.mesh_width + x + 8) _ _ ?_) ?_
  · intro x hx
    obtain ⟨k, rfl, _⟩ := (mem_vector_loop_columns p hsw x).1 hx
    refine assigns_storeu _ _ _ ?_
    intro l
    exact vector_batch_lane mesh p hsw hsh _ y (by omega) (by omega) l
  · intro i
    constructor
    · rintro ⟨x, hx, h1, h2⟩
      obtain ⟨k, rfl, hk⟩ := (mem_vector_loop_columns p hsw x).1 hx
      exact ⟨k, hk, h1, h2⟩
    · rintro ⟨k, hk, h1, h2⟩
      exact ⟨1 + 8 * k, (mem_vector_loop_columns p hsw _).2 ⟨k, rfl, hk⟩, h1, h2⟩

/-- C9. Vector/scalar equivalence at every width: for a mesh of width at least
3 and a band of rows starting at row 1 or below it (in particular a band of
interior rows), after `stencil_cpu_func_block` the scratch value
at every interior cell `(x, y)` of the band equals the scalar kernel's value
`old[y][x] + Σ old[y+sy-1][x+sx-1] * coef[sy*3+sx]`, whether or not `width - 2`
is a multiple of 8, the cells at the row's tail included. -/
theorem stencil_cpu_func_block_interior (mesh tmp : Buffer)
    (p : starpu_vec.starpu_parameters) (hsw : p.stencil_widht = 3)
    (hsh : p.stencil_height = 3) (hw : 3 ≤ p.mesh_width) (hbs : 1 ≤ p.block_start)
    (x y : Nat) (hx1 : 1 ≤ x)
    (hx2 : x ≤ p.mesh_width - 2) (hy1 : p.block_start ≤ y) (hy2 : y < p.block_end) :
    starpu_vec.stencil_cpu_func_block mesh tmp stencil_coefs p (y * p.mesh_width + x) =
      mesh (y * p.mesh_width + x) +
        ∑ sy in Finset.range 3, ∑ sx in Finset.range 3,
          mesh ((y + sy - 1) * p.mesh_width + (x + sx - 1)) * stencil_coefs (sy * 3 + sx) := by
  have h := (stencil_cpu_func_block_assigns mesh stencil_coefs p hsw hsh hbs tmp
    (y * p.mesh_width + x)).1 ⟨y, hy1, hy2, (x - 1) / 8, by omega, by omega, by omega⟩
  rw [← stencilAt_cell stencil_coefs p.mesh_width mesh x y hx1 (by omega)]
  exact h

theorem stencil_cpu_func_block_interior_witness :
    starpu_vec.stencil_cpu_func_block zero_buffer zero_buffer stencil_coefs default_last_band
        (998 * default_last_band.mesh_width + 1998) =
      zero_buffer (998 * default_last_band.mesh_width + 1998) +
        ∑ sy in Finset.range 3, ∑ sx in Finset.range 3,
          zero_buffer ((998 + sy - 1) * default_last_band.mesh_width + (1998 + sx - 1))
            * stencil_coefs (sy * 3 + sx) :=
  stencil_cpu_func_block_interior zero_buffer zero_buffer default_last_band rfl rfl
    (by decide) (by decide) 1998 998 (by decide) (by decide) (by decide) (by decide)

/-- C7. In the last of 4 row bands of the default mesh, of width 2000, `(width - 2) mod 8 = 6` cells per row
do not fill a batch, yet the scalar loop of `stencil_cpu_func_block` visits no
column: the vector loop runs while `x < mesh_w - margin_x` and starts its last
batch at column 1993, which covers the columns 1993 to 2000. -/
theorem scalar_loop_skipped_default :
    default_last_band ∈ starpu_vec.apply_tasks init_settings 4 ∧
    (default_last_band.mesh_width - 2) % 8 = 6 ∧
    starpu_vec.scalar_loop_columns default_last_band = [] ∧
    1993 ∈ starpu_vec.vector_loop_columns default_last_band ∧
    default_last_band.mesh_width - 2 < 1993 + 7 := by
  refine ⟨by decide, by decide, scalar_loop_columns_nil _, ?_, by decide⟩
  exact (mem_vector_loop_columns default_last_band rfl 1993).2 ⟨249, by decide, by decide⟩

/-- C8. For the last interior row 998 of the default 2000×1000 mesh, the vector
loop of `stencil_cpu_func_block` reads the mesh at address 2000001, past the
`2000 * 1000` elements of the mesh, and writes the scratch buffer at the address
of cell `(1999, 998)`, which is in the last column and not an interior cell. -/
theorem vector_loop_footprint_default :
    default_last_band.block_start ≤ 998 ∧ 998 < default_last_band.block_end ∧
    default_last_band.block_end ≤ default_last_band.mesh_height - 1 ∧
    2000001 ∈ starpu_vec.vector_loop_reads default_last_band 998 ∧
    default_last_band.mesh_width * default_last_band.mesh_height ≤ 2000001 ∧
    998 * default_last_band.mesh_width + 1999
      ∈ starpu_vec.vector_loop_writes default_last_band 998 ∧
    ¬ interiorCell default_last_band.mesh_width default_last_band.mesh_height 1999 998 := by
  have hcol : 1993 ∈ starpu_vec.vector_loop_columns default_last_band :=
    (mem_vector_loop_columns default_last_band rfl 1993).2 ⟨249, by decide, by decide⟩
  refine ⟨by decide, by decide, by decide, ?_, by decide, ?_, by decide⟩
  · unfold starpu_vec.vector_loop_reads
    rw [List.mem_flatMap]
    refine ⟨1993, hcol, ?_⟩
    unfold starpu_vec.vector_batch_reads
    rw [List.mem_append]
    right
    rw [List.mem_flatMap]
    refine ⟨2, by decide, ?_⟩
    rw [List.mem_flatMap]
    refine ⟨2, by decide, ?_⟩
    rw [List.mem_map]
    exact ⟨7, by decide, by decide⟩
  · unfold starpu_vec.vector_loop_writes
    rw [List.mem_flatMap]
    refine ⟨1993, hcol, ?_⟩
    unfold starpu_vec.vector_batch_writes
    rw [List.mem_map]
    exact ⟨6, by decide, by decide⟩

theorem mem_vec_apply_tasks (s : s_settings) (P : Nat) (p : starpu_vec.starpu_parameters) :
    p ∈ starpu_vec.apply_tasks s P ↔ ∃ t, t < P ∧
      p = { actual_x := 0
            actual_y := 1 + t * starpu_vec.band_height s P
            block_start := 1 + t * starpu_vec.band_height s P
            block_end := if t = P - 1 then s.mesh_height - 1
              else 1 + t * starpu_vec.band_height s P + starpu_vec.band_height s P
            mesh_width := s.mesh_width
            mesh_height := s.mesh_height
            stencil_height := 3
            stencil_widht := 3 } := by
  unfold starpu_vec.apply_tasks
  simp only [List.mem_map, mem_loopRange]
  constructor
  · rintro ⟨t, ⟨_, ht⟩, rfl⟩
    exact ⟨t, ht, rfl⟩
  · rintro ⟨t, ht, rfl⟩
    exact ⟨t, ⟨Nat.zero_le t, ht⟩, rfl⟩

theorem mem_vec_copy_tasks (s : s_settings) (P : Nat) (p : starpu_vec.starpu_parameters) :
    p ∈ starpu_vec.copy_tasks s P ↔ ∃ t, t < P ∧
      p = { actual_x := 0
            actual_y := 0
            block_start := 1 + t * starpu_vec.band_height s P
            block_end := if t = P - 1 then s.mesh_height - 1
              else 1 + t * starpu_vec.band_height s P + starpu_vec.band_height s P
            mesh_width := s.mesh_width
            mesh_height := 0
            stencil_height := 0
            stencil_widht := 3 } := by
  unfold starpu_vec.copy_tasks
  simp only [List.mem_map, mem_loopRange]
  constructor
  · rintro ⟨t, ⟨_, ht⟩, rfl⟩
    exact ⟨t, ht, rfl⟩
  · rintro ⟨t, ht, rfl⟩
    exact ⟨t, ⟨Nat.zero_le t, ht⟩, rfl⟩

/-- Addresses written by `copy_block_cpu_func`: the columns `1 .. mesh_width - 2`
of every row of the band. -/
theorem copy_block_cpu_func_assigns (tmp : Buffer) (p : starpu_vec.starpu_parameters)
    (hsw : p.stencil_widht = 3) :
    Assigns (fun mesh => starpu_vec.copy_block_cpu_func mesh tmp p)
      (fun i => ∃ y, p.block_start ≤ y ∧ y < p.block_end ∧
        ∃ x, 1 ≤ x ∧ x < p.mesh_width - 1 ∧ i = y * p.mesh_width + x) tmp := by
  unfold starpu_vec.copy_block_cpu_func
  have hm : (p.stencil_widht - 1) / 2 = 1 := by rw [hsw]
  simp only [hm]
  refine assigns_forLoop _ _ _ _ _ ?_
  intro y _ _
  have hvec := assigns_foldl
    (fun x mesh => starpu_vec.mm256_storeu_ps mesh (y * p.mesh_width + x)
      (starpu_vec.mm256_loadu_ps tmp (y * p.mesh_width + x)))
    (fun x i => y * p.mesh_width + x ≤ i ∧ i < y * p.mesh_width + x + 8) tmp
    (loopStep 1 (p.mesh_width - 1 - 7) 8)
    (fun x _ => assigns_storeu tmp _ _ (fun l => rfl))
  have hsca := assigns_forLoop (loopExit 1 (p.mesh_width - 1 - 7) 8) (p.mesh_width - 1)
    (fun x mesh => store mesh (y * p.mesh_width + x) (tmp (y * p.mesh_width + x)))
    (fun x i => i = y * p.mesh_width + x) tmp (fun x _ _ => assigns_store tmp _)
  refine assigns_congr (assigns_comp hvec hsca) ?_
  intro i
  constructor
  · rintro (⟨x, hx, h1, h2⟩ | ⟨x, hx1, hx2, rfl⟩)
    · obtain ⟨k, rfl, hk⟩ := (mem_loopStep _ _ _ _ (by decide)).1 hx
      exact ⟨i - y * p.mesh_width, by omega, by omega, by omega⟩
    · refine ⟨x, ?_, hx2, rfl⟩
      unfold loopExit at hx1
      omega
  · rintro ⟨x, hx1, hx2, rfl⟩
    by_cases hE : loopExit 1 (p.mesh_width - 1 - 7) 8 ≤ x
    · exact Or.inr ⟨x, hE, hx2, rfl⟩
    · refine Or.inl ⟨1 + 8 * ((x - 1) / 8), ?_, by omega, by omega⟩
      refine (mem_loopStep _ _ _ _ (by decide)).2 ⟨(x - 1) / 8, rfl, ?_⟩
      unfold loopExit loopCount at hE
      omega

/-- Apply phase of the row-band update: the scratch buffer receives `stencilAt`
at every address stored by a batch of a row of a band. -/
theorem vec_apply_assigns (mesh : Buffer) (s : s_settings) (P : Nat) :
    Assigns (fun tmp => (starpu_vec.apply_tasks s P).foldl
        (fun tmp params => starpu_vec.stencil_cpu_func_block mesh tmp stencil_coefs params) tmp)
      (fun i => ∃ y, starpu_vec.bandRow s P y ∧ ∃ k, 1 + 8 * k < s.mesh_width - 1 ∧
        y * s.mesh_width + (1 + 8 * k) ≤ i ∧ i < y * s.mesh_width + (1 + 8 * k) + 8)
      (stencilAt stencil_coefs s.mesh_width mesh) := by
  refine assigns_congr (assigns_foldl
    (fun p tmp => starpu_vec.stencil_cpu_func_block mesh tmp stencil_coefs p)
    (fun p i => ∃ y, p.block_start ≤ y ∧ y < p.block_end ∧
        ∃ k, 1 + 8 * k < s.mesh_width - 1 ∧
          y * s.mesh_width + (1 + 8 * k) ≤ i ∧ i < y * s.mesh_width + (1 + 8 * k) + 8) _ _ ?_) ?_
  · intro p hp
    obtain ⟨t, ht, rfl⟩ := (mem_vec_apply_tasks s P p).1 hp
    exact stencil_cpu_func_block_assigns mesh stencil_coefs _ rfl rfl (Nat.le_add_right 1 _)
  · intro i
    constructor
    · rintro ⟨p, hp, y, hy1, hy2, hk⟩
      obtain ⟨t, ht, rfl⟩ := (mem_vec_apply_tasks s P p).1 hp
      exact ⟨y, ⟨t, ht, hy1, hy2⟩, hk⟩
    · rintro ⟨y, ⟨t, ht, hy1, hy2⟩, hk⟩
      exact ⟨_, (mem_vec_apply_tasks s P _).2 ⟨t, ht, rfl⟩, y, hy1, hy2, hk⟩

/-- Commit phase of the row-band update: the mesh receives the scratch buffer
on the columns `1 .. mesh_width - 2` of every row of a band. -/
theorem vec_commit_assigns (tmp : Buffer) (s : s_settings) (P : Nat) :
    Assigns (fun mesh => (starpu_vec.copy_tasks s P).foldl
        (fun mesh params => starpu_vec.copy_block_cpu_func mesh tmp params) mesh)
      (starpu_vec.bandAddr s P) tmp := by
  refine assigns_congr (assigns_foldl
    (fun p mesh => starpu_vec.copy_block_cpu_func mesh tmp p)
    (fun p i => ∃ y, p.block_start ≤ y ∧ y < p.block_end ∧
        ∃ x, 1 ≤ x ∧ x < s.mesh_width - 1 ∧ i = y * s.mesh_width + x) _ _ ?_) ?_
  · intro p hp
    obtain ⟨t, ht, rfl⟩ := (mem_vec_copy_tasks s P p).1 hp
    exact copy_block_cpu_func_assigns tmp _ rfl
  · intro i
    constructor
    · rintro ⟨p, hp, y, hy1, hy2, hk⟩
      obtain ⟨t, ht, rfl⟩ := (mem_vec_copy_tasks s P p).1 hp
      exact ⟨y, ⟨t, ht, hy1, hy2⟩, hk⟩
    · rintro ⟨y, ⟨t, ht, hy1, hy2⟩, hk⟩
      exact ⟨_, (mem_vec_copy_tasks s P _).2 ⟨t, ht, rfl⟩, y, hy1, hy2, hk⟩

/-- Closed form of `starpu_vec_stencil_func`. -/
theorem starpu_vec_stencil_func_at (P : Nat) (tmp0 mesh : Buffer) (s : s_settings) (i : Nat) :
    (starpu_vec.bandAddr s P i →
      starpu_vec.starpu_vec_stencil_func P tmp0 mesh s i
        = stencilAt stencil_coefs s.mesh_width mesh i) ∧
    (¬ starpu_vec.bandAddr s P i →
      starpu_vec.starpu_vec_stencil_func P tmp0 mesh s i = mesh i) := by
  have hA := vec_apply_assigns mesh s P tmp0 i
  have hB := vec_commit_assigns
    ((starpu_vec.apply_tasks s P).foldl
      (fun tmp params => starpu_vec.stencil_cpu_func_block mesh tmp stencil_coefs params)
      tmp0) s P mesh i
  constructor
  · intro hi
    refine (hB.1 hi).trans (hA.1 ?_)
    obtain ⟨y, hy, x, hx1, hx2, rfl⟩ := hi
    exact ⟨y, hy, (x - 1) / 8, by omega, by omega, by omega⟩
  · intro hi
    exact hB.2 hi

/-- C3. On the 9×9 scenario mesh with 9 workers, `starpu_vec_stencil_func`
overwrites the cell `(x, y) = (1, 8)` of the bottom boundary row with `5/6`,
whereas the sequential kernel leaves it at the boundary value `5`: the fallback
band height 1 makes the band of worker 7 the row `height - 1`. -/
theorem starpu_vec_stencil_func_scenario_row8 :
    starpu_vec.starpu_vec_stencil_func 9 zero_buffer scenario_mesh scenario_settings
        (8 * 9 + 1) = 5 / 6 ∧
    naive_stencil_func zero_buffer scenario_mesh scenario_settings (8 * 9 + 1) = 5 := by
  have hB : starpu_vec.bandAddr scenario_settings 9 73 :=
    ⟨8, ⟨7, by decide, by decide, by decide⟩, 1, by decide, by decide, rfl⟩
  have hnI : ¬ interiorAddr 9 9 73 := by
    rintro ⟨x, y, ⟨_, _, _, _⟩, _⟩
    omega
  constructor
  · rw [(starpu_vec_stencil_func_at 9 zero_buffer scenario_mesh scenario_settings 73).1 hB]
    simp [stencilAt, Finset.sum_range_succ, scenario_mesh_addr, boundaryValue, stencil_coefs,
      scenario_settings, LEFT_BOUNDARY_VALUE, BOTTOM_BOUNDARY_VALUE]
    norm_num
  · rw [(naive_stencil_func_at zero_buffer scenario_mesh scenario_settings 73).2 hnI]
    simp [scenario_mesh_addr, boundaryValue, BOTTOM_BOUNDARY_VALUE]

/-- C6. For the 9-row scenario mesh and 9 workers the row bands computed by
`starpu_vec_stencil_func` are `[1,2), [2,3), ..., [8,9), [9,8)`: the band of
worker 7 is the row 8, which is the bottom boundary row and not an interior
row. -/
theorem row_bands_scenario_nine_workers :
    (starpu_vec.apply_tasks scenario_settings 9).map (fun p => (p.block_start, p.block_end))
      = [(1, 2), (2, 3), (3, 4), (4, 5), (5, 6), (6, 7), (7, 8), (8, 9), (9, 8)] ∧
    starpu_vec.bandRow scenario_settings 9 8 ∧
    ¬ (8 < scenario_settings.mesh_height - 1) := by
  refine ⟨by decide, ⟨7, by decide, by decide, by decide⟩, by decide⟩

/-! ## Boundary invariance -/

theorem forLoop_preserves {σ : Type} (lo hi : Nat) (body : Nat → σ → σ) (Q : σ → Prop)
    (hbody : ∀ i st, Q st → Q (body i st)) (st : σ) (hst : Q st) :
    Q (forLoop lo hi body st) := by
  unfold forLoop
  generalize loopRange lo hi = l
  induction l generalizing st with
  | nil => exact hst
  | cons a l ih => exact ih (body a st) (hbody a st hst)

theorem boundary_cell_not_interior (w h x y : Nat) (hx : x < w) (hy : y < h)
    (hb : x = 0 ∨ x = w - 1 ∨ y = 0 ∨ y = h - 1) : ¬ interiorAddr w h (y * w + x) :=
  boundaryAddr_not_interior w h _ ⟨x, y, hx, hy, hb, rfl⟩

/-- C10. Boundary invariance of the sequential and tiled kernels: for a mesh of
width and height at least 3, `naive_stencil_func` and
`starpu_stencil_func_partitioned` leave every cell of row 0, row `height - 1`,
column 0 and column `width - 1` unchanged; hence after `init_mesh_values` and
`apply_boundary_conditions` followed by `run` with any iteration count
`nb_iterations` (the settings are arbitrary), in either program, those cells
hold the configured boundary values. -/
theorem boundary_invariance (s : s_settings) (hw : 3 ≤ s.mesh_width)
    (hh : 3 ≤ s.mesh_height) (x y : Nat) (hx : x < s.mesh_width) (hy : y < s.mesh_height)
    (hb : x = 0 ∨ x = s.mesh_width - 1 ∨ y = 0 ∨ y = s.mesh_height - 1) :
    (∀ tmp0 mesh : Buffer,
      naive_stencil_func tmp0 mesh s (y * s.mesh_width + x) = mesh (y * s.mesh_width + x)) ∧
    (∀ tmp0 mesh : Buffer,
      starpu.starpu_stencil_func_partitioned tmp0 mesh s (y * s.mesh_width + x)
        = mesh (y * s.mesh_width + x)) ∧
    (∀ (scratch : Nat → Buffer) (rand_values : Nat → ELEMENT_TYPE) (mesh0 : Buffer),
      run scratch (apply_boundary_conditions (init_mesh_values rand_values mesh0 s) s) s
        (y * s.mesh_width + x) = boundaryValue s.mesh_height x y) ∧
    (∀ (scratch : Nat → Buffer) (rand_values : Nat → ELEMENT_TYPE) (mesh0 : Buffer),
      starpu.run scratch (apply_boundary_conditions (init_mesh_values rand_values mesh0 s) s) s
        (y * s.mesh_width + x) = boundaryValue s.mesh_height x y) := by
  have hnI := boundary_cell_not_interior s.mesh_width s.mesh_height x y hx hy hb
  have hnT : ¬ tileFirstRowAddr s.mesh_width s.mesh_height (y * s.mesh_width + x) :=
    fun hT => hnI (tileFirstRowAddr_interior _ _ _ hT)
  have hnaive : ∀ tmp0 mesh : Buffer,
      naive_stencil_func tmp0 mesh s (y * s.mesh_width + x) = mesh (y * s.mesh_width + x) :=
    fun tmp0 mesh => (naive_stencil_func_at tmp0 mesh s _).2 hnI
  have htiled : ∀ tmp0 mesh : Buffer,
      starpu.starpu_stencil_func_partitioned tmp0 mesh s (y * s.mesh_width + x)
        = mesh (y * s.mesh_width + x) :=
    fun tmp0 mesh => (starpu_stencil_func_partitioned_at tmp0 mesh s _).2 hnT
  refine ⟨hnaive, htiled, ?_, ?_⟩
  · intro scratch rand_values mesh0
    unfold run
    refine forLoop_preserves 0 s.nb_iterations _
      (fun m : Buffer => m (y * s.mesh_width + x) = boundaryValue s.mesh_height x y) ?_ _ ?_
    · intro i m hm
      exact (hnaive (scratch i) m).trans hm
    · exact prepared_mesh_boundary rand_values mesh0 s (by omega) (by omega) x y hx hy hb
  · intro scratch rand_values mesh0
    unfold starpu.run
    refine forLoop_preserves 0 s.nb_iterations _
      (fun m : Buffer => m (y * s.mesh_width + x) = boundaryValue s.mesh_height x y) ?_ _ ?_
    · intro i m hm
      exact (htiled (scratch i) m).trans hm
    · exact prepared_mesh_boundary rand_values mesh0 s (by omega) (by omega) x y hx hy hb

theorem boundary_invariance_witness :
    (∀ tmp0 mesh : Buffer,
      naive_stencil_func tmp0 mesh init_settings (5 * init_settings.mesh_width + 0)
        = mesh (5 * init_settings.mesh_width + 0)) ∧
    (∀ tmp0 mesh : Buffer,
      starpu.starpu_stencil_func_partitioned tmp0 mesh init_settings
        (5 * init_settings.mesh_width + 0) = mesh (5 * init_settings.mesh_width + 0)) ∧
    (∀ (scratch : Nat → Buffer) (rand_values : Nat → ELEMENT_TYPE) (mesh0 : Buffer),
      run scratch
        (apply_boundary_conditions (init_mesh_values rand_values mesh0 init_settings)
          init_settings) init_settings
        (5 * init_settings.mesh_width + 0) = boundaryValue init_settings.mesh_height 0 5) ∧
    (∀ (scratch : Nat → Buffer) (rand_values : Nat → ELEMENT_TYPE) (mesh0 : Buffer),
      starpu.run scratch
        (apply_boundary_conditions (init_mesh_values rand_values mesh0 init_settings)
          init_settings) init_settings
        (5 * init_settings.mesh_width + 0) = boundaryValue init_settings.mesh_height 0 5) :=
  boundary_invariance init_settings (by decide) (by decide) 0 5 (by decide) (by decide)
    (Or.inl rfl)

/-- C11. On the 9×9 scenario mesh with 9 workers, one call of
`starpu_vec_stencil_func` changes the cell `(x, y) = (4, 8)` of the bottom
boundary row from the boundary value `5` to `5/3`: the band of worker 7 is the
row `height - 1`, and the commit task copies its columns `1 .. width - 2`. -/
theorem starpu_vec_stencil_func_scenario_boundary :
    scenario_mesh (8 * 9 + 4) = 5 ∧
    starpu_vec.starpu_vec_stencil_func 9 zero_buffer scenario_mesh scenario_settings
        (8 * 9 + 4) = 5 / 3 := by
  have hB : starpu_vec.bandAddr scenario_settings 9 76 :=
    ⟨8, ⟨7, by decide, by decide, by decide⟩, 4, by decide, by decide, rfl⟩
  constructor
  · simp [scenario_mesh_addr, boundaryValue, BOTTOM_BOUNDARY_VALUE]
  · rw [(starpu_vec_stencil_func_at 9 zero_buffer scenario_mesh scenario_settings 76).1 hB]
    simp [stencilAt, Finset.sum_range_succ, scenario_mesh_addr, boundaryValue, stencil_coefs,
      scenario_settings, LEFT_BOUNDARY_VALUE, BOTTOM_BOUNDARY_VALUE]
    norm_num

/-! ## Phase A frame -/

/-- C12. Phase A frame of the tiled variant: for a tile with origin inside the
interior and the 3×3 stencil, the apply codelet returns the mesh as it received
it, leaves the scratch buffer unchanged at every address that is not the address
of a cell `(x, y)` with `x0 ≤ x < x0 + bw` and `y0 ≤ y < y0 + bh`, and gives each
cell of the tile the stencil value computed from the mesh it received, whatever
the scratch buffer held. -/
theorem stencil_func_block_frame (mesh tmp : Buffer) (coefs : Nat → ELEMENT_TYPE)
    (p : starpu.starpu_parameters) (hsw : p.stencil_widht = 3) (hsh : p.stencil_height = 3)
    (hx0 : 1 ≤ p.actual_x) (hy0 : 1 ≤ p.actual_y) :
    (starpu.stencil_cpu_func_block (mesh, tmp) coefs p).1 = mesh ∧
    (∀ i, ¬ (∃ x y, starpu.inTile p x y ∧ i = y * p.mesh_width + x) →
      (starpu.stencil_cpu_func_block (mesh, tmp) coefs p).2 i = tmp i) ∧
    (∀ x y, starpu.inTile p x y →
      (starpu.stencil_cpu_func_block (mesh, tmp) coefs p).2 (y * p.mesh_width + x) =
        mesh (y * p.mesh_width + x) +
          ∑ sy in Finset.range 3, ∑ sx in Finset.range 3,
            mesh ((y + sy - 1) * p.mesh_width + (x + sx - 1)) * coefs (sy * 3 + sx)) := by
  have hA := stencil_func_block_assigns mesh coefs p hsw hsh hx0 hy0 tmp
  refine ⟨rfl, fun i hi => (hA i).2 hi, ?_⟩
  intro x y ht
  have h1 := (hA (y * p.mesh_width + x)).1 ⟨x, y, ht, rfl⟩
  have hx : 1 ≤ x := le_trans hx0 ht.1
  have hy : 1 ≤ y := le_trans hy0 ht.2.2.1
  rw [← stencilAt_cell coefs p.mesh_width mesh x y hx hy]
  exact h1

theorem stencil_func_block_frame_witness :
    (starpu.stencil_cpu_func_block (scenario_mesh, zero_buffer) stencil_coefs
      scenario_apply_tile).1
        = scenario_mesh ∧
    (∀ i, ¬ (∃ x y, starpu.inTile scenario_apply_tile x y ∧ i = y * 9 + x) →
      (starpu.stencil_cpu_func_block (scenario_mesh, zero_buffer) stencil_coefs
        scenario_apply_tile).2 i
          = zero_buffer i) ∧
    (∀ x y, starpu.inTile scenario_apply_tile x y →
      (starpu.stencil_cpu_func_block (scenario_mesh, zero_buffer) stencil_coefs
        scenario_apply_tile).2 (y * 9 + x) =
        scenario_mesh (y * 9 + x) +
          ∑ sy in Finset.range 3, ∑ sx in Finset.range 3,
            scenario_mesh ((y + sy - 1) * 9 + (x + sx - 1)) * stencil_coefs (sy * 3 + sx)) :=
  stencil_func_block_frame scenario_mesh zero_buffer stencil_coefs scenario_apply_tile
    rfl rfl (by decide) (by decide)

/-! ## Zero iterations -/

/-- C15. Zero-iteration idempotence: with `nb_iterations = 0`, whatever the
other settings (output and verbose flags included), `run` returns the mesh it
received, in the sequential, the tiled and the row-band vectorized program. -/
theorem run_zero_iterations (s : s_settings) (h0 : s.nb_iterations = 0)
    (scratch : Nat → Buffer) (mesh : Buffer) (nb_threads : Nat) :
    run scratch mesh s = mesh ∧
    starpu.run scratch mesh s = mesh ∧
    starpu_vec.run nb_threads scratch mesh s = mesh := by
  unfold run starpu.run starpu_vec.run forLoop loopRange
  rw [h0]
  exact ⟨rfl, rfl, rfl⟩

theorem run_zero_iterations_witness :
    run (fun _ => zero_buffer) scenario_mesh scenario_settings_no_iteration = scenario_mesh ∧
    starpu.run (fun _ => zero_buffer) scenario_mesh scenario_settings_no_iteration
      = scenario_mesh ∧
    starpu_vec.run 4 (fun _ => zero_buffer) scenario_mesh scenario_settings_no_iteration
      = scenario_mesh :=
  run_zero_iterations scenario_settings_no_iteration rfl (fun _ => zero_buffer) scenario_mesh 4

/-! ## Scenario properties of the sequential kernel -/

theorem scenario_mesh_interior (x y : Nat) (hc : interiorCell 9 9 x y) :
    scenario_mesh (y * 9 + x) = 0 := by
  obtain ⟨hx1, hx2, hy1, hy2⟩ := hc
  rw [scenario_mesh_addr]
  have h1 : (y * 9 + x) % 9 = x := by omega
  have h2 : (y * 9 + x) / 9 = y := by omega
  rw [h1, h2, if_pos (by omega), if_pos ⟨hx1, by omega, hy1, by omega⟩]

/-- C16. Zero-interior locality: on a mesh of width and height at least 5 whose
interior cells are all 0, whatever the boundary cells hold, one call of
`naive_stencil_func` leaves at 0 every cell `(x, y)` with `2 ≤ x ≤ width - 3`
and `2 ≤ y ≤ height - 3`. -/
theorem naive_stencil_func_zero_interior (tmp0 mesh : Buffer) (s : s_settings)
    (hw : 5 ≤ s.mesh_width) (hh : 5 ≤ s.mesh_height)
    (hz : ∀ x y, interiorCell s.mesh_width s.mesh_height x y → mesh (y * s.mesh_width + x) = 0)
    (x y : Nat) (hx1 : 2 ≤ x) (hx2 : x ≤ s.mesh_width - 3) (hy1 : 2 ≤ y)
    (hy2 : y ≤ s.mesh_height - 3) :
    naive_stencil_func tmp0 mesh s (y * s.mesh_width + x) = 0 := by
  have hi : interiorAddr s.mesh_width s.mesh_height (y * s.mesh_width + x) :=
    ⟨x, y, ⟨by omega, by omega, by omega, by omega⟩, rfl⟩
  rw [(naive_stencil_func_at tmp0 mesh s _).1 hi,
    stencilAt_cell stencil_coefs s.mesh_width mesh x y (by omega) (by omega),
    hz x y ⟨by omega, by omega, by omega, by omega⟩, zero_add]
  refine Finset.sum_eq_zero (fun sy hsy => Finset.sum_eq_zero (fun sx hsx => ?_))
  rw [Finset.mem_range] at hsy hsx
  rw [hz (x + sx - 1) (y + sy - 1) ⟨by omega, by omega, by omega, by omega⟩, zero_mul]

theorem naive_stencil_func_zero_interior_witness :
    naive_stencil_func zero_buffer scenario_mesh scenario_settings
      (6 * scenario_settings.mesh_width + 2) = 0 :=
  naive_stencil_func_zero_interior zero_buffer scenario_mesh scenario_settings
    (by decide) (by decide) scenario_mesh_interior 2 6 (by decide) (by decide) (by decide)
    (by decide)

theorem scenario_naive_value (i : Nat) (hi : interiorAddr 9 9 i) :
    naive_stencil_func zero_buffer scenario_mesh scenario_settings i
      = stencilAt stencil_coefs 9 scenario_mesh i :=
  (naive_stencil_func_at zero_buffer scenario_mesh scenario_settings i).1 hi

/-- C17. The 9×9 scenario after one call of `naive_stencil_func`: every interior
cell holds its old value times `-1.0` plus the coefficient-weighted sum of the
old values of its 8 neighbours; the cells `(4,1)`, `(4,7)`, `(1,4)`, `(7,4)` and
`(1,1)` hold `10/3`, `5/3`, `-10/3`, `-5/3` and `5/6`. -/
theorem scenario_one_iteration :
    (∀ x y, interiorCell 9 9 x y →
      naive_stencil_func zero_buffer scenario_mesh scenario_settings (y * 9 + x) =
        scenario_mesh (y * 9 + x) * (-1.0) +
          ∑ sy in Finset.range 3, ∑ sx in Finset.range 3,
            if sy = 1 ∧ sx = 1 then 0
            else scenario_mesh ((y + sy - 1) * 9 + (x + sx - 1)) * stencil_coefs (sy * 3 + sx)) ∧
    naive_stencil_func zero_buffer scenario_mesh scenario_settings (1 * 9 + 4) = 10 / 3 ∧
    naive_stencil_func zero_buffer scenario_mesh scenario_settings (7 * 9 + 4) = 5 / 3 ∧
    naive_stencil_func zero_buffer scenario_mesh scenario_settings (4 * 9 + 1) = -10 / 3 ∧
    naive_stencil_func zero_buffer scenario_mesh scenario_settings (4 * 9 + 7) = -5 / 3 ∧
    naive_stencil_func zero_buffer scenario_mesh scenario_settings (1 * 9 + 1) = 5 / 6 := by
  refine ⟨?_, ?_, ?_, ?_, ?_, ?_⟩
  · intro x y hc
    have hx : 1 ≤ x := hc.1
    have hy : 1 ≤ y := hc.2.2.1
    rw [scenario_naive_value _ ⟨x, y, hc, rfl⟩, stencilAt_cell stencil_coefs 9 scenario_mesh x y hx hy]
    have h0 := scenario_mesh_interior x y hc
    have hc1 : (y + 1 - 1) * 9 + (x + 1 - 1) = y * 9 + x := by omega
    simp only [Finset.sum_range_succ, Finset.sum_range_zero, hc1, h0]
    norm_num
  · rw [scenario_naive_value _ ⟨4, 1, by unfold interiorCell; omega, rfl⟩]
    simp [stencilAt, Finset.sum_range_succ, scenario_mesh_addr, boundaryValue, stencil_coefs,
      TOP_BOUNDARY_VALUE]
    norm_num
  · rw [scenario_naive_value _ ⟨4, 7, by unfold interiorCell; omega, rfl⟩]
    simp [stencilAt, Finset.sum_range_succ, scenario_mesh_addr, boundaryValue, stencil_coefs,
      BOTTOM_BOUNDARY_VALUE]
    norm_num
  · rw [scenario_naive_value _ ⟨1, 4, by unfold interiorCell; omega, rfl⟩]
    simp [stencilAt, Finset.sum_range_succ, scenario_mesh_addr, boundaryValue, stencil_coefs,
      LEFT_BOUNDARY_VALUE]
    norm_num
  · rw [scenario_naive_value _ ⟨7, 4, by unfold interiorCell; omega, rfl⟩]
    simp [stencilAt, Finset.sum_range_succ, scenario_mesh_addr, boundaryValue, stencil_coefs,
      RIGHT_BOUNDARY_VALUE]
    norm_num
  · rw [scenario_naive_value _ ⟨1, 1, by unfold interiorCell; omega, rfl⟩]
    simp [stencilAt, Finset.sum_range_succ, scenario_mesh_addr, boundaryValue, stencil_coefs,
      TOP_BOUNDARY_VALUE, LEFT_BOUNDARY_VALUE]
    norm_num

/-! ## Mesh store contracts -/

theorem apply_boundary_conditions_cell (mesh : Buffer) (s : s_settings)
    (hw : 2 ≤ s.mesh_width) (hh : 2 ≤ s.mesh_height) (x y : Nat)
    (hx : x < s.mesh_width) (hy : y < s.mesh_height)
    (hb : x = 0 ∨ x = s.mesh_width - 1 ∨ y = 0 ∨ y = s.mesh_height - 1) :
    apply_boundary_conditions mesh s (y * s.mesh_width + x)
      = boundaryValue s.mesh_height x y := by
  have h1 := ((apply_boundary_conditions_assigns s hw hh) mesh (y * s.mesh_width + x)).1
    ⟨x, y, hx, hy, hb, rfl⟩
  simp only [addr_div _ x y hx, addr_mod _ x y hx] at h1
  exact h1

/-- C18. Boundary stamping: on a mesh of width and height at least 3, after
`apply_boundary_conditions` every cell of row 0 holds 10 and every cell of row
`height - 1` holds 5 (corners included), every cell of column 0 in the rows
`1 .. height - 2` holds -10, every cell of column `width - 1` in those rows
holds -5, and every interior cell holds what it held before. -/
theorem apply_boundary_conditions_stamps (mesh : Buffer) (s : s_settings)
    (hw : 3 ≤ s.mesh_width) (hh : 3 ≤ s.mesh_height) :
    (∀ x, x < s.mesh_width → apply_boundary_conditions mesh s (0 * s.mesh_width + x) = 10) ∧
    (∀ x, x < s.mesh_width →
      apply_boundary_conditions mesh s ((s.mesh_height - 1) * s.mesh_width + x) = 5) ∧
    (∀ y, 1 ≤ y → y ≤ s.mesh_height - 2 →
      apply_boundary_conditions mesh s (y * s.mesh_width + 0) = -10) ∧
    (∀ y, 1 ≤ y → y ≤ s.mesh_height - 2 →
      apply_boundary_conditions mesh s (y * s.mesh_width + (s.mesh_width - 1)) = -5) ∧
    (∀ x y, interiorCell s.mesh_width s.mesh_height x y →
      apply_boundary_conditions mesh s (y * s.mesh_width + x) = mesh (y * s.mesh_width + x)) := by
  have hw2 : 2 ≤ s.mesh_width := by omega
  have hh2 : 2 ≤ s.mesh_height := by omega
  refine ⟨?_, ?_, ?_, ?_, ?_⟩
  · intro x hx
    rw [apply_boundary_conditions_cell mesh s hw2 hh2 x 0 hx (by omega) (Or.inr (Or.inr (Or.inl rfl)))]
    simp [boundaryValue, TOP_BOUNDARY_VALUE]
  · intro x hx
    rw [apply_boundary_conditions_cell mesh s hw2 hh2 x (s.mesh_height - 1) hx (by omega)
      (Or.inr (Or.inr (Or.inr rfl)))]
    have : ¬ (s.mesh_height - 1 = 0) := by omega
    simp [boundaryValue, BOTTOM_BOUNDARY_VALUE, this]
  · intro y hy1 hy2
    rw [apply_boundary_conditions_cell mesh s hw2 hh2 0 y (by omega) (by omega) (Or.inl rfl)]
    have h1 : ¬ (y = 0) := by omega
    have h2 : ¬ (y = s.mesh_height - 1) := by omega
    simp [boundaryValue, LEFT_BOUNDARY_VALUE, h1, h2]
  · intro y hy1 hy2
    rw [apply_boundary_conditions_cell mesh s hw2 hh2 (s.mesh_width - 1) y (by omega) (by omega)
      (Or.inr (Or.inl rfl))]
    have h1 : ¬ (y = 0) := by omega
    have h2 : ¬ (y = s.mesh_height - 1) := by omega
    have h3 : ¬ (s.mesh_width - 1 = 0) := by omega
    simp [boundaryValue, RIGHT_BOUNDARY_VALUE, h1, h2, h3]
  · intro x y hc
    have hI : interiorAddr s.mesh_width s.mesh_height (y * s.mesh_width + x) := ⟨x, y, hc, rfl⟩
    exact ((apply_boundary_conditions_assigns s hw2 hh2) mesh _).2
      (fun hB => boundaryAddr_not_interior _ _ _ hB hI)

theorem apply_boundary_conditions_stamps_witness :
    (∀ x, x < init_settings.mesh_width →
      apply_boundary_conditions zero_buffer init_settings (0 * init_settings.mesh_width + x)
        = 10) ∧
    (∀ x, x < init_settings.mesh_width →
      apply_boundary_conditions zero_buffer init_settings
        ((init_settings.mesh_height - 1) * init_settings.mesh_width + x) = 5) ∧
    (∀ y, 1 ≤ y → y ≤ init_settings.mesh_height - 2 →
      apply_boundary_conditions zero_buffer init_settings (y * init_settings.mesh_width + 0)
        = -10) ∧
    (∀ y, 1 ≤ y → y ≤ init_settings.mesh_height - 2 →
      apply_boundary_conditions zero_buffer init_settings
        (y * init_settings.mesh_width + (init_settings.mesh_width - 1)) = -5) ∧
    (∀ x y, interiorCell init_settings.mesh_width init_settings.mesh_height x y →
      apply_boundary_conditions zero_buffer init_settings (y * init_settings.mesh_width + x)
        = zero_buffer (y * init_settings.mesh_width + x)) :=
  apply_boundary_conditions_stamps zero_buffer init_settings (by decide) (by decide)

/-- C19. Interior initialisation: `init_mesh_zero` sets every interior cell to 0
and leaves every cell outside the interior region unchanged; `init_mesh_random`
gives every interior cell the value drawn for it and likewise leaves every cell
outside the interior region unchanged.  This holds for every mesh size, those of
width and height at least 3 included. -/
theorem init_mesh_interior_only (rand_values : Nat → ELEMENT_TYPE) (mesh : Buffer)
    (s : s_settings) :
    (∀ x y, interiorCell s.mesh_width s.mesh_height x y →
      init_mesh_zero mesh s (y * s.mesh_width + x) = 0) ∧
    (∀ x y, x < s.mesh_width → ¬ interiorCell s.mesh_width s.mesh_height x y →
      init_mesh_zero mesh s (y * s.mesh_width + x) = mesh (y * s.mesh_width + x)) ∧
    (∀ x y, interiorCell s.mesh_width s.mesh_height x y →
      init_mesh_random rand_values mesh s (y * s.mesh_width + x)
        = rand_values ((y - 1) * (s.mesh_width - 2) + (x - 1))) ∧
    (∀ x y, x < s.mesh_width → ¬ interiorCell s.mesh_width s.mesh_height x y →
      init_mesh_random rand_values mesh s (y * s.mesh_width + x)
        = mesh (y * s.mesh_width + x)) := by
  refine ⟨?_, ?_, ?_, ?_⟩
  · intro x y hc
    exact (init_mesh_zero_assigns s mesh _).1 ⟨x, y, hc, rfl⟩
  · intro x y hx hc
    exact (init_mesh_zero_assigns s mesh _).2
      (fun hI => hc ((interiorAddr_cell _ _ x y hx).1 hI))
  · intro x y hc
    have h1 := (init_mesh_random_assigns rand_values s mesh _).1 ⟨x, y, hc, rfl⟩
    have hx : x < s.mesh_width := by unfold interiorCell at hc; omega
    simp only [addr_div _ x y hx, addr_mod _ x y hx] at h1
    exact h1
  · intro x y hx hc
    exact (init_mesh_random_assigns rand_values s mesh _).2
      (fun hI => hc ((interiorAddr_cell _ _ x y hx).1 hI))

theorem init_mesh_interior_only_witness :
    (∀ x y, interiorCell scenario_settings.mesh_width scenario_settings.mesh_height x y →
      init_mesh_zero scenario_mesh scenario_settings (y * scenario_settings.mesh_width + x)
        = 0) ∧
    (∀ x y, x < scenario_settings.mesh_width →
      ¬ interiorCell scenario_settings.mesh_width scenario_settings.mesh_height x y →
      init_mesh_zero scenario_mesh scenario_settings (y * scenario_settings.mesh_width + x)
        = scenario_mesh (y * scenario_settings.mesh_width + x)) ∧
    (∀ x y, interiorCell scenario_settings.mesh_width scenario_settings.mesh_height x y →
      init_mesh_random scenario_rand_values scenario_mesh scenario_settings
        (y * scenario_settings.mesh_width + x)
        = scenario_rand_values ((y - 1) * (scenario_settings.mesh_width - 2) + (x - 1))) ∧
    (∀ x y, x < scenario_settings.mesh_width →
      ¬ interiorCell scenario_settings.mesh_width scenario_settings.mesh_height x y →
      init_mesh_random scenario_rand_values scenario_mesh scenario_settings
        (y * scenario_settings.mesh_width + x)
        = scenario_mesh (y * scenario_settings.mesh_width + x)) :=
  init_mesh_interior_only scenario_rand_values scenario_mesh scenario_settings

/-! ## Correctness oracle -/

theorem check_cell_report (m c : Buffer) (s : s_settings) (x y : Nat)
    (L : List check_record) :
    check_cell m c s x y (report_state L) =
      report_state (L ++ (([(x, y)].filter
        (fun c' => decide (mismatch s.mesh_width m c c'))).map
          (check_record_of s.mesh_width m c))) := by
  by_cases hm : mismatch s.mesh_width m c (x, y)
  · have h1 : |m (y * s.mesh_width + x) - c (y * s.mesh_width + x)| > EPSILON := hm
    simp [check_cell, report_state, check_record_of, hm, h1]
  · have h1 : ¬ |m (y * s.mesh_width + x) - c (y * s.mesh_width + x)| > EPSILON := hm
    simp [check_cell, report_state, hm, h1]

theorem compare_row (m c : Buffer) (s : s_settings) (y : Nat) (xs : List Nat)
    (L : List check_record) :
    xs.foldl (fun acc x => check_cell m c s x y acc) (report_state L) =
      report_state (L ++ (((xs.map (fun x => (x, y))).filter
        (fun c' => decide (mismatch s.mesh_width m c c'))).map
          (check_record_of s.mesh_width m c))) := by
  induction xs generalizing L with
  | nil => simp
  | cons a xs ih =>
    rw [List.foldl_cons, check_cell_report, ih]
    simp [List.filter_cons, List.append_assoc]
    split <;> simp

theorem compare_rows (m c : Buffer) (s : s_settings) (xs ys : List Nat)
    (L : List check_record) :
    ys.foldl (fun acc y => xs.foldl (fun acc x => check_cell m c s x y acc) acc)
        (report_state L) =
      report_state (L ++ (((ys.flatMap (fun y => xs.map (fun x => (x, y)))).filter
        (fun c' => decide (mismatch s.mesh_width m c c'))).map
          (check_record_of s.mesh_width m c))) := by
  induction ys generalizing L with
  | nil => simp
  | cons b ys ih =>
    rw [List.foldl_cons, compare_row, ih]
    simp [List.flatMap_cons, List.filter_append, List.append_assoc]

/-- Closed form of the comparison loops of `check`. -/
theorem check_compare_eq (m c : Buffer) (s : s_settings) :
    check_compare m c s = report_state (expected_report s.mesh_width s.mesh_height m c) := by
  unfold check_compare forLoop loopRange expected_report rowMajorCells
  have h0 : ({ check := 0, stderr := [] } : check_state) = report_state [] := by
    simp [report_state]
  rw [h0, Nat.sub_zero, Nat.sub_zero, ← List.range_eq_range', ← List.range_eq_range']
  rw [compare_rows m c s (List.range s.mesh_width) (List.range s.mesh_height) []]
  simp

/-- The result of `naive_stencil_func` does not depend on what the freshly
allocated scratch buffer holds. -/
theorem naive_stencil_func_scratch (t t' mesh : Buffer) (s : s_settings) :
    naive_stencil_func t mesh s = naive_stencil_func t' mesh s := by
  funext i
  by_cases hi : interiorAddr s.mesh_width s.mesh_height i
  · rw [(naive_stencil_func_at t mesh s i).1 hi, (naive_stencil_func_at t' mesh s i).1 hi]
  · rw [(naive_stencil_func_at t mesh s i).2 hi, (naive_stencil_func_at t' mesh s i).2 hi]

theorem foldl_iterate {σ : Type} (f : σ → σ) (g : Nat → σ → σ) (hg : ∀ i a, g i a = f a)
    (l : List Nat) (a : σ) : l.foldl (fun acc i => g i acc) a = f^[l.length] a := by
  induction l generalizing a with
  | nil => rfl
  | cons b l ih => rw [List.foldl_cons, ih, hg, List.length_cons, Function.iterate_succ_apply]

/-- The advance loop of `check` and the loop of the sequential `run` apply
`naive_stencil_func` exactly `nb_iterations` times. -/
theorem advance_eq_iterate (scratch : Nat → Buffer) (mesh : Buffer) (s : s_settings) :
    forLoop 0 s.nb_iterations (fun i copy => naive_stencil_func (scratch i) copy s) mesh
      = (fun copy => naive_stencil_func zero_buffer copy s)^[s.nb_iterations] mesh := by
  unfold forLoop
  rw [foldl_iterate (fun copy => naive_stencil_func zero_buffer copy s)
    (fun i copy => naive_stencil_func (scratch i) copy s)
    (fun i a => naive_stencil_func_scratch (scratch i) zero_buffer a s)]
  unfold loopRange
  rw [List.length_range', Nat.sub_zero]

theorem mem_rowMajorCells (w h x y : Nat) : (x, y) ∈ rowMajorCells w h ↔ x < w ∧ y < h := by
  unfold rowMajorCells
  simp only [List.mem_flatMap, List.mem_map, List.mem_range, Prod.mk.injEq]
  constructor
  · rintro ⟨b, hb, a, ha, rfl, rfl⟩
    exact ⟨ha, hb⟩
  · rintro ⟨hx, hy⟩
    exact ⟨y, hy, x, hx, rfl, rfl⟩

theorem rowMajorCells_nodup (w h : Nat) : (rowMajorCells w h).Nodup := by
  unfold rowMajorCells List.Nodup
  rw [List.pairwise_flatMap]
  constructor
  · intro y _
    rw [List.pairwise_map]
    refine List.Pairwise.imp ?_ (List.nodup_range w)
    intro a b hab hc
    exact hab (Prod.mk.inj hc).1
  · refine List.Pairwise.imp ?_ (List.nodup_range h)
    intro a b hab p hp q hq hc
    obtain ⟨_, _, rfl⟩ := List.mem_map.1 hp
    obtain ⟨_, _, rfl⟩ := List.mem_map.1 hq
    exact hab (Prod.mk.inj hc).2

theorem expected_report_eq_nil (w h : Nat) (m c : Buffer) :
    expected_report w h m c = [] ↔
      ¬ ∃ x y, x < w ∧ y < h ∧ |m (y * w + x) - c (y * w + x)| > EPSILON := by
  unfold expected_report
  rw [List.map_eq_nil_iff, List.filter_eq_nil_iff]
  constructor
  · rintro hall ⟨x, y, hx, hy, hm⟩
    have := hall (x, y) ((mem_rowMajorCells w h x y).2 ⟨hx, hy⟩)
    exact this (by simpa [mismatch] using hm)
  · rintro hno ⟨x, y⟩ hmem hm
    obtain ⟨hx, hy⟩ := (mem_rowMajorCells w h x y).1 hmem
    exact hno ⟨x, y, hx, hy, by simpa [mismatch] using hm⟩

/-- C13. Oracle status: for every candidate, reference copy, mesh size and
iteration count, `check` returns with the reference advanced by exactly
`nb_iterations` applications of `naive_stencil_func` and the candidate as it
received it; the status is 1 if and only if some cell of the mesh (boundary
cells included) has its candidate and advanced reference values differing by
more than `EPSILON = 1e-3` in absolute value, and it is 0 otherwise. -/
theorem check_status (scratch : Nat → Buffer) (p_mesh p_mesh_copy : Buffer) (s : s_settings) :
    (check scratch p_mesh p_mesh_copy s).p_mesh_copy
      = (fun copy => naive_stencil_func zero_buffer copy s)^[s.nb_iterations] p_mesh_copy ∧
    (check scratch p_mesh p_mesh_copy s).p_mesh = p_mesh ∧
    ((check scratch p_mesh p_mesh_copy s).status = 1 ↔
      ∃ x y, x < s.mesh_width ∧ y < s.mesh_height ∧
        |p_mesh (y * s.mesh_width + x)
          - (check scratch p_mesh p_mesh_copy s).p_mesh_copy (y * s.mesh_width + x)|
          > 1 / 1000) ∧
    ((check scratch p_mesh p_mesh_copy s).status = 0 ↔
      ¬ ∃ x y, x < s.mesh_width ∧ y < s.mesh_height ∧
        |p_mesh (y * s.mesh_width + x)
          - (check scratch p_mesh p_mesh_copy s).p_mesh_copy (y * s.mesh_width + x)|
          > 1 / 1000) := by
  have heps : EPSILON = 1 / 1000 := by unfold EPSILON; norm_num
  have hnil := expected_report_eq_nil s.mesh_width s.mesh_height p_mesh
    (check scratch p_mesh p_mesh_copy s).p_mesh_copy
  rw [heps] at hnil
  have hst : (check scratch p_mesh p_mesh_copy s).status
      = if expected_report s.mesh_width s.mesh_height p_mesh
          (check scratch p_mesh p_mesh_copy s).p_mesh_copy = [] then 0 else 1 := by
    show (check_compare p_mesh _ s).check = _
    rw [check_compare_eq]
    rfl
  refine ⟨advance_eq_iterate scratch p_mesh_copy s, rfl, ?_, ?_⟩
  · rw [hst, ← not_iff_not, ← hnil]
    split <;> simp_all
  · rw [hst, ← hnil]
    split <;> simp_all

/-- C14. Oracle report: the lines `check` writes to `stderr` are exactly the
records (x, y, run value, check value) of the cells of the mesh whose candidate
and advanced reference values differ by more than `EPSILON`, in row-major order
(`y` outer, `x` inner); the row-major list holds every cell of the mesh once, so
each mismatching cell has one record, no other cell has one, and the number of
records is the number of mismatching cells. -/
theorem check_report (scratch : Nat → Buffer) (p_mesh p_mesh_copy : Buffer) (s : s_settings) :
    (check scratch p_mesh p_mesh_copy s).stderr
      = ((rowMajorCells s.mesh_width s.mesh_height).filter
          (fun c => decide (mismatch s.mesh_width p_mesh
            (check scratch p_mesh p_mesh_copy s).p_mesh_copy c))).map
          (check_record_of s.mesh_width p_mesh
            (check scratch p_mesh p_mesh_copy s).p_mesh_copy) ∧
    (rowMajorCells s.mesh_width s.mesh_height).Nodup ∧
    (∀ x y, (x, y) ∈ rowMajorCells s.mesh_width s.mesh_height ↔
      x < s.mesh_width ∧ y < s.mesh_height) ∧
    (check scratch p_mesh p_mesh_copy s).stderr.length
      = (rowMajorCells s.mesh_width s.mesh_height).countP
          (fun c => decide (mismatch s.mesh_width p_mesh
            (check scratch p_mesh p_mesh_copy s).p_mesh_copy c)) := by
  have hst : (check scratch p_mesh p_mesh_copy s).stderr
      = expected_report s.mesh_width s.mesh_height p_mesh
          (check scratch p_mesh p_mesh_copy s).p_mesh_copy := by
    show (check_compare p_mesh _ s).stderr = _
    rw [check_compare_eq]
    rfl
  refine ⟨hst, rowMajorCells_nodup _ _, mem_rowMajorCells _ _, ?_⟩
  rw [hst, expected_report, List.length_map, List.countP_eq_length_filter]

/-! ## Sequential self-check -/

theorem addr_lt (w h x y : Nat) (hx : x < w) (hy : y < h) : y * w + x < w * h := by
  have h1 : (y + 1) * w ≤ h * w := Nat.mul_le_mul_right w hy
  have h2 : (y + 1) * w = y * w + w := by ring
  have h3 : h * w = w * h := Nat.mul_comm h w
  omega

theorem forLoop_rel {σ τ : Type} (lo hi : Nat) (f : Nat → σ → σ) (g : Nat → τ → τ)
    (R : σ → τ → Prop) (hstep : ∀ i a b, R a b → R (f i a) (g i b)) (a : σ) (b : τ)
    (hab : R a b) : R (forLoop lo hi f a) (forLoop lo hi g b) := by
  unfold forLoop
  generalize loopRange lo hi = l
  induction l generalizing a b with
  | nil => exact hab
  | cons c l ih => exact ih (f c a) (g c b) (hstep c a b hab)

/-- Two meshes that agree on the `mesh_width * mesh_height` elements of the mesh
still agree on them after one call of `naive_stencil_func` each. -/
theorem naive_stencil_func_agree (t t' a b : Buffer) (s : s_settings)
    (hab : ∀ i, i < s.mesh_width * s.mesh_height → a i = b i) :
    ∀ i, i < s.mesh_width * s.mesh_height →
      naive_stencil_func t a s i = naive_stencil_func t' b s i := by
  intro i hi
  by_cases hI : interiorAddr s.mesh_width s.mesh_height i
  · rw [(naive_stencil_func_at t a s i).1 hI, (naive_stencil_func_at t' b s i).1 hI]
    obtain ⟨x, y, ⟨hx1, hx2, hy1, hy2⟩, rfl⟩ := hI
    rw [stencilAt_cell _ _ a x y hx1 hy1, stencilAt_cell _ _ b x y hx1 hy1, hab _ hi]
    congr 1
    refine Finset.sum_congr rfl (fun sy hsy => Finset.sum_congr rfl (fun sx hsx => ?_))
    rw [Finset.mem_range] at hsy hsx
    rw [hab _ (addr_lt s.mesh_width s.mesh_height (x + sx - 1) (y + sy - 1)
      (by omega) (by omega))]
  · rw [(naive_stencil_func_at t a s i).2 hI, (naive_stencil_func_at t' b s i).2 hI]
    exact hab i hi

/-- C20. Sequential self-check: for every configuration and every initial mesh,
if the reference is `copy_mesh` of the mesh taken before `run`, then `check` on
the mesh after `run` and that reference returns 0 and reports no cell: both
loops apply `naive_stencil_func` `nb_iterations` times to meshes that agree on
every cell. -/
theorem sequential_self_check (scratch scratch' : Nat → Buffer) (p_mesh p_mesh_copy : Buffer)
    (s : s_settings) :
    (check scratch' (run scratch p_mesh s) (copy_mesh p_mesh_copy p_mesh s) s).status = 0 ∧
    (check scratch' (run scratch p_mesh s) (copy_mesh p_mesh_copy p_mesh s) s).stderr = [] := by
  have hagree : ∀ i, i < s.mesh_width * s.mesh_height →
      run scratch p_mesh s i =
        forLoop 0 s.nb_iterations (fun i copy => naive_stencil_func (scratch' i) copy s)
          (copy_mesh p_mesh_copy p_mesh s) i := by
    unfold run
    refine forLoop_rel 0 s.nb_iterations _ _
      (fun a b : Buffer => ∀ i, i < s.mesh_width * s.mesh_height → a i = b i) ?_ _ _ ?_
    · intro k a b hab
      exact naive_stencil_func_agree (scratch k) (scratch' k) a b s hab
    · intro i hi
      simp [copy_mesh, hi]
  have hnil : expected_report s.mesh_width s.mesh_height (run scratch p_mesh s)
      (forLoop 0 s.nb_iterations (fun i copy => naive_stencil_func (scratch' i) copy s)
        (copy_mesh p_mesh_copy p_mesh s)) = [] := by
    rw [expected_report_eq_nil]
    rintro ⟨x, y, hx, hy, hm⟩
    rw [hagree _ (addr_lt _ _ x y hx hy), sub_self, abs_zero] at hm
    unfold EPSILON at hm
    norm_num at hm
  have hcmp := check_compare_eq (run scratch p_mesh s)
    (forLoop 0 s.nb_iterations (fun i copy => naive_stencil_func (scratch' i) copy s)
      (copy_mesh p_mesh_copy p_mesh s)) s
  rw [hnil] at hcmp
  constructor
  · show (check_compare _ _ s).check = 0
    rw [hcmp]
    rfl
  · show (check_compare _ _ s).stderr = []
    rw [hcmp]
    rfl

/-! ## Exact behaviour of the tiled commit -/

/-- C24. Tiled commit reaches only the first row of each tile: on a mesh with
an interior cell (so of width and height at least 3), after one call of
`starpu_stencil_func_partitioned` an interior cell `(x, y)` holds the value the
sequential kernel gives it when `(y - 1) mod 16 = 0`, and its old value
otherwise. -/
theorem starpu_stencil_func_partitioned_rows (tmp0 tmp1 mesh : Buffer) (s : s_settings)
    (x y : Nat)
    (hc : interiorCell s.mesh_width s.mesh_height x y) :
    ((y - 1) % 16 = 0 →
      starpu.starpu_stencil_func_partitioned tmp0 mesh s (y * s.mesh_width + x)
        = naive_stencil_func tmp1 mesh s (y * s.mesh_width + x)) ∧
    ((y - 1) % 16 ≠ 0 →
      starpu.starpu_stencil_func_partitioned tmp0 mesh s (y * s.mesh_width + x)
        = mesh (y * s.mesh_width + x)) := by
  have hx : x < s.mesh_width := by unfold interiorCell at hc; omega
  constructor
  · intro hy
    rw [(starpu_stencil_func_partitioned_at tmp0 mesh s _).1 ⟨x, y, hc, hy, rfl⟩,
      (naive_stencil_func_at tmp1 mesh s _).1 ⟨x, y, hc, rfl⟩]
  · intro hy
    refine (starpu_stencil_func_partitioned_at tmp0 mesh s _).2 ?_
    rintro ⟨x', y', hc', hy', he⟩
    have hx' : x' < s.mesh_width := by unfold interiorCell at hc'; omega
    obtain ⟨_, h2⟩ := addr_inj s.mesh_width x y x' y' hx hx' he
    subst h2
    exact hy hy'

theorem starpu_stencil_func_partitioned_rows_witness :
    ((17 - 1) % 16 = 0 →
      starpu.starpu_stencil_func_partitioned zero_buffer zero_buffer init_settings
          (17 * init_settings.mesh_width + 40)
        = naive_stencil_func zero_buffer zero_buffer init_settings
          (17 * init_settings.mesh_width + 40)) ∧
    ((17 - 1) % 16 ≠ 0 →
      starpu.starpu_stencil_func_partitioned zero_buffer zero_buffer init_settings
          (17 * init_settings.mesh_width + 40)
        = zero_buffer (17 * init_settings.mesh_width + 40)) :=
  starpu_stencil_func_partitioned_rows zero_buffer zero_buffer zero_buffer init_settings
    40 17 (by decide)

/-! ## Algebra of the reference coefficients -/

theorem stencil_coefs_sum : ∑ k in Finset.range 9, stencil_coefs k = 0 := by
  simp [Finset.sum_range_succ, stencil_coefs]
  norm_num

/-- The stencil value at the address of an interior-column cell with the
reference coefficients: the weighted sum of the 8 neighbours. -/
theorem stencilAt_neighbours (w : Nat) (m : Buffer) (x y : Nat) (hx : 1 ≤ x) (hy : 1 ≤ y) :
    stencilAt stencil_coefs w m (y * w + x) =
      (0.25 / 3) * (m ((y - 1) * w + (x - 1)) + m ((y - 1) * w + (x + 1))
        + m ((y + 1) * w + (x - 1)) + m ((y + 1) * w + (x + 1)))
      + (0.50 / 3) * (m ((y - 1) * w + x) + m (y * w + (x - 1))
        + m (y * w + (x + 1)) + m ((y + 1) * w + x)) := by
  rw [stencilAt_cell stencil_coefs w m x y hx hy]
  have e0 : y + 0 - 1 = y - 1 := by omega
  have e1 : y + 1 - 1 = y := by omega
  have e2 : y + 2 - 1 = y + 1 := by omega
  have f0 : x + 0 - 1 = x - 1 := by omega
  have f1 : x + 1 - 1 = x := by omega
  have f2 : x + 2 - 1 = x + 1 := by omega
  simp only [Finset.sum_range_succ, Finset.sum_range_zero, e0, e1, e2, f0, f1, f2]
  simp [stencil_coefs]
  ring

/-- C28. Self-term cancellation: with the reference coefficient table the value
`naive_stencil_func` gives an interior cell is the weighted sum of its 8
neighbours only, with weight `0.25/3` for each diagonal neighbour and `0.50/3`
for each orthogonal neighbour; hence two meshes that differ only at the cell
`(x, y)` get the same new value at `(x, y)`. -/
theorem naive_stencil_func_self_term (tmp0 mesh : Buffer) (s : s_settings) (x y : Nat)
    (hc : interiorCell s.mesh_width s.mesh_height x y) :
    naive_stencil_func tmp0 mesh s (y * s.mesh_width + x) =
      (0.25 / 3) * (mesh ((y - 1) * s.mesh_width + (x - 1))
        + mesh ((y - 1) * s.mesh_width + (x + 1))
        + mesh ((y + 1) * s.mesh_width + (x - 1))
        + mesh ((y + 1) * s.mesh_width + (x + 1)))
      + (0.50 / 3) * (mesh ((y - 1) * s.mesh_width + x) + mesh (y * s.mesh_width + (x - 1))
        + mesh (y * s.mesh_width + (x + 1)) + mesh ((y + 1) * s.mesh_width + x)) ∧
    ∀ (tmp1 mesh' : Buffer),
      (∀ i, i ≠ y * s.mesh_width + x → mesh' i = mesh i) →
      naive_stencil_func tmp1 mesh' s (y * s.mesh_width + x)
        = naive_stencil_func tmp0 mesh s (y * s.mesh_width + x) := by
  have hx1 : 1 ≤ x := hc.1
  have hy1 : 1 ≤ y := hc.2.2.1
  have hx2 : x + 2 ≤ s.mesh_width := hc.2.1
  have hval : ∀ (t m : Buffer), naive_stencil_func t m s (y * s.mesh_width + x) =
      (0.25 / 3) * (m ((y - 1) * s.mesh_width + (x - 1))
        + m ((y - 1) * s.mesh_width + (x + 1))
        + m ((y + 1) * s.mesh_width + (x - 1))
        + m ((y + 1) * s.mesh_width + (x + 1)))
      + (0.50 / 3) * (m ((y - 1) * s.mesh_width + x) + m (y * s.mesh_width + (x - 1))
        + m (y * s.mesh_width + (x + 1)) + m ((y + 1) * s.mesh_width + x)) := by
    intro t m
    rw [(naive_stencil_func_at t m s _).1 ⟨x, y, hc, rfl⟩]
    exact stencilAt_neighbours s.mesh_width m x y hx1 hy1
  refine ⟨hval tmp0 mesh, ?_⟩
  intro tmp1 mesh' hdiff
  have hne : ∀ x' y', x' < s.mesh_width → (x' ≠ x ∨ y' ≠ y) →
      mesh' (y' * s.mesh_width + x') = mesh (y' * s.mesh_width + x') := by
    intro x' y' hx' hxy
    refine hdiff _ (fun he => ?_)
    obtain ⟨h1, h2⟩ := addr_inj s.mesh_width x' y' x y hx' (by omega) he
    omega
  rw [hval tmp1 mesh', hval tmp0 mesh,
    hne (x - 1) (y - 1) (by omega) (by omega), hne (x + 1) (y - 1) (by omega) (by omega),
    hne (x - 1) (y + 1) (by omega) (by omega), hne (x + 1) (y + 1) (by omega) (by omega),
    hne x (y - 1) (by omega) (by omega), hne (x - 1) y (by omega) (by omega),
    hne (x + 1) y (by omega) (by omega), hne x (y + 1) (by omega) (by omega)]

theorem naive_stencil_func_self_term_witness :
    naive_stencil_func zero_buffer scenario_mesh scenario_settings
        (1 * scenario_settings.mesh_width + 4) =
      (0.25 / 3) * (scenario_mesh ((1 - 1) * scenario_settings.mesh_width + (4 - 1))
        + scenario_mesh ((1 - 1) * scenario_settings.mesh_width + (4 + 1))
        + scenario_mesh ((1 + 1) * scenario_settings.mesh_width + (4 - 1))
        + scenario_mesh ((1 + 1) * scenario_settings.mesh_width + (4 + 1)))
      + (0.50 / 3) * (scenario_mesh ((1 - 1) * scenario_settings.mesh_width + 4)
        + scenario_mesh (1 * scenario_settings.mesh_width + (4 - 1))
        + scenario_mesh (1 * scenario_settings.mesh_width + (4 + 1))
        + scenario_mesh ((1 + 1) * scenario_settings.mesh_width + 4)) ∧
    ∀ (tmp1 mesh' : Buffer),
      (∀ i, i ≠ 1 * scenario_settings.mesh_width + 4 → mesh' i = scenario_mesh i) →
      naive_stencil_func tmp1 mesh' scenario_settings (1 * scenario_settings.mesh_width + 4)
        = naive_stencil_func zero_buffer scenario_mesh scenario_settings
          (1 * scenario_settings.mesh_width + 4) :=
  naive_stencil_func_self_term zero_buffer scenario_mesh scenario_settings 4 1 (by decide)

/-- C29. Constant mesh is a fixed point: the nine reference coefficients sum to
0 and the eight neighbour weights to 1; so on a mesh of any size (width and
height at least 3 included) whose cells all hold the same value `v`,
`naive_stencil_func` returns the mesh unchanged, and so does `run` for every
iteration count. -/
theorem constant_mesh_fixed_point (s : s_settings) (v : ELEMENT_TYPE) (mesh : Buffer)
    (hconst : ∀ x y, x < s.mesh_width → y < s.mesh_height → mesh (y * s.mesh_width + x) = v) :
    ∑ k in Finset.range 9, stencil_coefs k = 0 ∧
    (∑ k in Finset.range 9, if k = 4 then 0 else stencil_coefs k) = 1 ∧
    (∀ tmp0 : Buffer, naive_stencil_func tmp0 mesh s = mesh) ∧
    (∀ scratch : Nat → Buffer, run scratch mesh s = mesh) := by
  have hnaive : ∀ tmp0 : Buffer, naive_stencil_func tmp0 mesh s = mesh := by
    intro tmp0
    funext i
    by_cases hI : interiorAddr s.mesh_width s.mesh_height i
    · rw [(naive_stencil_func_at tmp0 mesh s i).1 hI]
      obtain ⟨x, y, ⟨hx1, hx2, hy1, hy2⟩, rfl⟩ := hI
      rw [stencilAt_neighbours s.mesh_width mesh x y hx1 hy1,
        hconst (x - 1) (y - 1) (by omega) (by omega), hconst (x + 1) (y - 1) (by omega) (by omega),
        hconst (x - 1) (y + 1) (by omega) (by omega), hconst (x + 1) (y + 1) (by omega) (by omega),
        hconst x (y - 1) (by omega) (by omega), hconst (x - 1) y (by omega) (by omega),
        hconst (x + 1) y (by omega) (by omega), hconst x (y + 1) (by omega) (by omega),
        hconst x y (by omega) (by omega)]
      ring
    · exact (naive_stencil_func_at tmp0 mesh s i).2 hI
  refine ⟨stencil_coefs_sum, ?_, hnaive, ?_⟩
  · simp [Finset.sum_range_succ, stencil_coefs]
    norm_num
  · intro scratch
    unfold run
    refine forLoop_preserves 0 s.nb_iterations _ (fun m : Buffer => m = mesh) ?_ _ rfl
    intro i m hm
    rw [hm]
    exact hnaive (scratch i)

theorem constant_mesh_fixed_point_witness :
    ∑ k in Finset.range 9, stencil_coefs k = 0 ∧
    (∑ k in Finset.range 9, if k = 4 then 0 else stencil_coefs k) = 1 ∧
    (∀ tmp0 : Buffer, naive_stencil_func tmp0 (fun _ => 7) init_settings = (fun _ => 7)) ∧
    (∀ scratch : Nat → Buffer, run scratch (fun _ => 7) init_settings = (fun _ => 7)) :=
  constant_mesh_fixed_point init_settings 7 (fun _ => 7) (fun _ _ _ _ => rfl)

/-! ## Fine-grained StarPU variants -/

theorem stencil_func_v2_assigns (mesh : Buffer) (coefs : Nat → ELEMENT_TYPE)
    (p : starpu.starpu_parameters) (hsw : p.stencil_widht = 3) (hsh : p.stencil_height = 3)
    (hy : 1 ≤ p.actual_y) :
    Assigns (fun tmp => starpu.stencil_func_v2 mesh tmp coefs p)
      (fun i => ∃ x, 1 ≤ x ∧ x < p.mesh_width - 1 ∧ i = p.actual_y * p.mesh_width + x)
      (stencilAt coefs p.mesh_width mesh) := by
  unfold starpu.stencil_func_v2
  have hm : (p.stencil_widht - 1) / 2 = 1 := by rw [hsw]
  simp only [hm]
  refine assigns_forLoop 1 (p.mesh_width - 1) _
    (fun x i => i = p.actual_y * p.mesh_width + x) _ ?_
  intro x hx1 _
  refine assigns_store_of_eq _ _ _ ?_
  rw [hsw, hsh]
  exact accumulate_yx_eq mesh coefs p.mesh_width x p.actual_y hx1 hy

theorem stencil_func_assigns (mesh : Buffer) (coefs : Nat → ELEMENT_TYPE)
    (p : starpu.starpu_parameters) (hsw : p.stencil_widht = 3) (hsh : p.stencil_height = 3)
    (hx : 1 ≤ p.actual_x) (hy : 1 ≤ p.actual_y) :
    Assigns (fun tmp => starpu.stencil_func mesh tmp coefs p)
      (fun i => i = p.actual_y * p.mesh_width + p.actual_x)
      (stencilAt coefs p.mesh_width mesh) := by
  unfold starpu.stencil_func
  refine assigns_store_of_eq _ _ _ ?_
  rw [hsw, hsh]
  exact accumulate_yx_eq mesh coefs p.mesh_width p.actual_x p.actual_y hx hy

theorem copy_stencil_func_assigns (tmp : Buffer) (p : starpu.starpu_parameters) :
    Assigns (fun mesh => starpu.copy_stencil_func mesh tmp p)
      (fun i => ∃ x, p.actual_x ≤ x ∧ x < p.mesh_width - p.actual_x ∧
        i = p.actual_y * p.mesh_width + x) tmp := by
  unfold starpu.copy_stencil_func
  refine assigns_forLoop _ _ _ (fun x i => i = p.actual_y * p.mesh_width + x) _ ?_
  intro x _ _
  exact assigns_store tmp _

theorem row_apply_assigns (mesh : Buffer) (s : s_settings) :
    Assigns (fun tmp => (starpu.row_apply_tasks s).foldl
        (fun temporary parameters =>
          starpu.stencil_func_v2 mesh temporary stencil_coefs parameters) tmp)
      (interiorAddr s.mesh_width s.mesh_height)
      (stencilAt stencil_coefs s.mesh_width mesh) := by
  refine assigns_congr (assigns_foldl
    (fun p tmp => starpu.stencil_func_v2 mesh tmp stencil_coefs p)
    (fun p i => ∃ x, 1 ≤ x ∧ x < s.mesh_width - 1 ∧ i = p.actual_y * s.mesh_width + x)
    _ _ ?_) ?_
  · intro p hp
    unfold starpu.row_apply_tasks at hp
    simp only [List.mem_map, mem_loopRange] at hp
    obtain ⟨y, ⟨hy1, _⟩, rfl⟩ := hp
    exact stencil_func_v2_assigns mesh stencil_coefs _ rfl rfl hy1
  · intro i
    unfold starpu.row_apply_tasks
    simp only [List.mem_map, mem_loopRange]
    rw [interiorAddr_iff]
    constructor
    · rintro ⟨p, ⟨y, ⟨hy1, hy2⟩, rfl⟩, hx⟩
      exact ⟨y, hy1, hy2, hx⟩
    · rintro ⟨y, hy1, hy2, hx⟩
      exact ⟨_, ⟨y, ⟨hy1, hy2⟩, rfl⟩, hx⟩

theorem cell_apply_assigns (mesh : Buffer) (s : s_settings) :
    Assigns (fun tmp => (starpu.cell_apply_tasks s).foldl
        (fun temporary parameters =>
          starpu.stencil_func mesh temporary stencil_coefs parameters) tmp)
      (interiorAddr s.mesh_width s.mesh_height)
      (stencilAt stencil_coefs s.mesh_width mesh) := by
  refine assigns_congr (assigns_foldl
    (fun p tmp => starpu.stencil_func mesh tmp stencil_coefs p)
    (fun p i => i = p.actual_y * s.mesh_width + p.actual_x) _ _ ?_) ?_
  · intro p hp
    unfold starpu.cell_apply_tasks at hp
    simp only [List.mem_flatMap, List.mem_map, mem_loopRange] at hp
    obtain ⟨y, ⟨hy1, _⟩, x, ⟨hx1, _⟩, rfl⟩ := hp
    exact stencil_func_assigns mesh stencil_coefs _ rfl rfl hx1 hy1
  · intro i
    unfold starpu.cell_apply_tasks
    simp only [List.mem_flatMap, List.mem_map, mem_loopRange]
    rw [interiorAddr_iff]
    constructor
    · rintro ⟨p, ⟨y, ⟨hy1, hy2⟩, x, ⟨hx1, hx2⟩, rfl⟩, rfl⟩
      exact ⟨y, hy1, hy2, x, hx1, hx2, rfl⟩
    · rintro ⟨y, hy1, hy2, x, hx1, hx2, rfl⟩
      exact ⟨_, ⟨y, ⟨hy1, hy2⟩, x, ⟨hx1, hx2⟩, rfl⟩, rfl⟩

theorem row_copy_assigns (tmp : Buffer) (s : s_settings) :
    Assigns (fun mesh => (starpu.row_copy_tasks s).foldl
        (fun mesh parameters => starpu.copy_stencil_func mesh tmp parameters) mesh)
      (interiorAddr s.mesh_width s.mesh_height) tmp := by
  refine assigns_congr (assigns_foldl
    (fun p mesh => starpu.copy_stencil_func mesh tmp p)
    (fun p i => ∃ x, p.actual_x ≤ x ∧ x < p.mesh_width - p.actual_x ∧
        i = p.actual_y * p.mesh_width + x) _ _ (fun p _ => copy_stencil_func_assigns tmp p)) ?_
  intro i
  unfold starpu.row_copy_tasks
  simp only [List.mem_map, mem_loopRange]
  rw [interiorAddr_iff]
  constructor
  · rintro ⟨p, ⟨y, ⟨hy1, hy2⟩, rfl⟩, hx⟩
    exact ⟨y, hy1, hy2, hx⟩
  · rintro ⟨y, hy1, hy2, hx⟩
    exact ⟨_, ⟨y, ⟨hy1, hy2⟩, rfl⟩, hx⟩

/-- C27. Fine-grained StarPU variants: for every mesh (width and height at
least 3 included) the row-per-task update `starpu_stencil_func_v2` and the
cell-per-task update `starpu_stencil_func` return exactly the mesh
`naive_stencil_func` returns, whatever the scratch buffers held, although their
codelets accumulate the 3×3 terms with `stencil_y` outermost and the sequential
kernel with `stencil_x` outermost. -/
theorem fine_grained_variants_eq_naive (tmp0 tmp1 mesh : Buffer) (s : s_settings) :
    starpu.starpu_stencil_func_v2 tmp0 mesh s = naive_stencil_func tmp1 mesh s ∧
    starpu.starpu_stencil_func tmp0 mesh s = naive_stencil_func tmp1 mesh s := by
  constructor
  · funext i
    have hA := row_apply_assigns mesh s tmp0 i
    have hB := row_copy_assigns ((starpu.row_apply_tasks s).foldl
      (fun temporary parameters =>
        starpu.stencil_func_v2 mesh temporary stencil_coefs parameters) tmp0) s mesh i
    by_cases hI : interiorAddr s.mesh_width s.mesh_height i
    · rw [(naive_stencil_func_at tmp1 mesh s i).1 hI]
      exact (hB.1 hI).trans (hA.1 hI)
    · rw [(naive_stencil_func_at tmp1 mesh s i).2 hI]
      exact hB.2 hI
  · funext i
    have hA := cell_apply_assigns mesh s tmp0 i
    have hB := row_copy_assigns ((starpu.cell_apply_tasks s).foldl
      (fun temporary parameters =>
        starpu.stencil_func mesh temporary stencil_coefs parameters) tmp0) s mesh i
    by_cases hI : interiorAddr s.mesh_width s.mesh_height i
    · rw [(naive_stencil_func_at tmp1 mesh s i).1 hI]
      exact (hB.1 hI).trans (hA.1 hI)
    · rw [(naive_stencil_func_at tmp1 mesh s i).2 hI]
      exact hB.2 hI

/-! ## Row-band commit -/

theorem flatMap_lanes (B a c : Nat) :
    (List.range' a c 8).flatMap (fun x => (List.range 8).map (fun l => B + x + l))
      = List.range' (B + a) (8 * c) := by
  induction c generalizing a with
  | zero => simp
  | succ c ih =>
    rw [List.range'_succ, List.flatMap_cons, ih (a + 8)]
    have h1 : (List.range 8).map (fun l => B + a + l) = List.range' (B + a) 8 :=
      (List.range'_eq_map_range (B + a) 8).symm
    rw [h1]
    have h2 : B + (a + 8) = B + a + 8 := by omega
    rw [h2, List.range'_append_1]
    have h3 : 8 * c + 8 = 8 * (c + 1) := by omega
    rw [h3]

/-- The stores of `copy_block_cpu_func` for row `y` go to the addresses of the
columns `1 .. mesh_width - 2`, in ascending order, once each. -/
theorem copy_row_writes_eq (p : starpu_vec.starpu_parameters) (hsw : p.stencil_widht = 3)
    (hw : 2 ≤ p.mesh_width) (y : Nat) :
    starpu_vec.copy_row_writes p y = List.range' (y * p.mesh_width + 1) (p.mesh_width - 2) := by
  unfold starpu_vec.copy_row_writes
  have hm : (p.stencil_widht - 1) / 2 = 1 := by rw [hsw]
  simp only [hm]
  unfold loopStep loopRange loopExit
  rw [flatMap_lanes, List.map_add_range']
  have h1 : y * p.mesh_width + (1 + 8 * loopCount 1 (p.mesh_width - 1 - 7) 8)
      = y * p.mesh_width + 1 + 8 * loopCount 1 (p.mesh_width - 1 - 7) 8 := by omega
  rw [h1, List.range'_append_1]
  congr 1
  unfold loopCount
  omega

theorem copy_block_writes_eq (p : starpu_vec.starpu_parameters) (hsw : p.stencil_widht = 3)
    (hw : 2 ≤ p.mesh_width) :
    starpu_vec.copy_block_writes p = (loopRange p.block_start p.block_end).flatMap
      (fun y => List.range' (y * p.mesh_width + 1) (p.mesh_width - 2)) := by
  unfold starpu_vec.copy_block_writes
  congr 1
  funext y
  exact copy_row_writes_eq p hsw hw y

theorem band_addresses_ascending (w lo hi : Nat) (hw : 2 ≤ w) :
    List.Pairwise (fun a b => a < b)
      ((loopRange lo hi).flatMap (fun y => List.range' (y * w + 1) (w - 2))) := by
  rw [List.pairwise_flatMap]
  constructor
  · intro y _
    exact List.pairwise_lt_range' _ _
  · unfold loopRange
    refine List.Pairwise.imp ?_ (List.pairwise_lt_range' lo (hi - lo))
    intro y1 y2 hy a ha b hb
    rw [List.mem_range'_1] at ha hb
    have h1 : (y1 + 1) * w ≤ y2 * w := Nat.mul_le_mul_right w hy
    have h2 : (y1 + 1) * w = y1 * w + w := by ring
    omega

/-- C23. Row-band commit coverage: for a mesh of width at least 3 and any band
`[block_start, block_end)`, `copy_block_cpu_func` gives every cell with
`block_start ≤ y < block_end` and `1 ≤ x ≤ width - 2` the scratch value and
leaves every other cell of those columns `x < width` (columns 0 and `width - 1`
included) unchanged; its stores, in order, go to the addresses of the columns
`1 .. width - 2` of each row of the band, in strictly ascending order, so each
cell is stored exactly once. -/
theorem copy_block_cpu_func_coverage (mesh tmp : Buffer) (p : starpu_vec.starpu_parameters)
    (hsw : p.stencil_widht = 3) (hw : 3 ≤ p.mesh_width) :
    (∀ x y, p.block_start ≤ y → y < p.block_end → 1 ≤ x → x ≤ p.mesh_width - 2 →
      starpu_vec.copy_block_cpu_func mesh tmp p (y * p.mesh_width + x)
        = tmp (y * p.mesh_width + x)) ∧
    (∀ x y, x < p.mesh_width →
      ¬ (p.block_start ≤ y ∧ y < p.block_end ∧ 1 ≤ x ∧ x ≤ p.mesh_width - 2) →
      starpu_vec.copy_block_cpu_func mesh tmp p (y * p.mesh_width + x)
        = mesh (y * p.mesh_width + x)) ∧
    starpu_vec.copy_block_writes p = (loopRange p.block_start p.block_end).flatMap
      (fun y => List.range' (y * p.mesh_width + 1) (p.mesh_width - 2)) ∧
    List.Pairwise (fun a b => a < b) (starpu_vec.copy_block_writes p) := by
  have hA := copy_block_cpu_func_assigns tmp p hsw mesh
  have hEq := copy_block_writes_eq p hsw (by omega)
  refine ⟨?_, ?_, hEq, ?_⟩
  · intro x y hy1 hy2 hx1 hx2
    exact (hA _).1 ⟨y, hy1, hy2, x, hx1, by omega, rfl⟩
  · intro x y hx hn
    refine (hA _).2 ?_
    rintro ⟨y', hy1, hy2, x', hx1, hx2, he⟩
    obtain ⟨h1, h2⟩ := addr_inj p.mesh_width x y x' y' hx (by omega) he
    subst h1; subst h2
    exact hn ⟨hy1, hy2, hx1, by omega⟩
  · rw [hEq]
    exact band_addresses_ascending p.mesh_width p.block_start p.block_end (by omega)

theorem copy_block_cpu_func_coverage_witness :
    (∀ x y, default_last_band.block_start ≤ y → y < default_last_band.block_end → 1 ≤ x →
      x ≤ default_last_band.mesh_width - 2 →
      starpu_vec.copy_block_cpu_func zero_buffer scenario_mesh default_last_band
          (y * default_last_band.mesh_width + x)
        = scenario_mesh (y * default_last_band.mesh_width + x)) ∧
    (∀ x y, x < default_last_band.mesh_width →
      ¬ (default_last_band.block_start ≤ y ∧ y < default_last_band.block_end ∧ 1 ≤ x ∧
        x ≤ default_last_band.mesh_width - 2) →
      starpu_vec.copy_block_cpu_func zero_buffer scenario_mesh default_last_band
          (y * default_last_band.mesh_width + x)
        = zero_buffer (y * default_last_band.mesh_width + x)) ∧
    starpu_vec.copy_block_writes default_last_band
      = (loopRange default_last_band.block_start default_last_band.block_end).flatMap
        (fun y => List.range' (y * default_last_band.mesh_width + 1)
          (default_last_band.mesh_width - 2)) ∧
    List.Pairwise (fun a b => a < b) (starpu_vec.copy_block_writes default_last_band) :=
  copy_block_cpu_func_coverage zero_buffer scenario_mesh default_last_band rfl (by decide)

/-! ## Exact condition for the row-band partition -/

theorem apply_tasks_bands (s : s_settings) (P : Nat) :
    (starpu_vec.apply_tasks s P).map (fun p => (p.block_start, p.block_end))
      = (List.range P).map
        (fun t => (starpu_vec.band_start s P t, starpu_vec.band_end s P t)) := by
  unfold starpu_vec.apply_tasks loopRange
  rw [List.map_map, Nat.sub_zero, ← List.range_eq_range']
  rfl

theorem band_height_cases (s : s_settings) (P : Nat) (hP : 1 ≤ P) :
    (P ≤ s.mesh_height - 2 →
      starpu_vec.band_height s P = (s.mesh_height - 2) / P ∧ 1 ≤ (s.mesh_height - 2) / P) ∧
    (s.mesh_height - 2 < P → starpu_vec.band_height s P = 1) := by
  unfold starpu_vec.band_height
  show (P ≤ s.mesh_height - 2 →
      (if (s.mesh_height - 2 * 1) / P = 0 then 1 else (s.mesh_height - 2 * 1) / P)
        = (s.mesh_height - 2) / P ∧ 1 ≤ (s.mesh_height - 2) / P) ∧
    (s.mesh_height - 2 < P →
      (if (s.mesh_height - 2 * 1) / P = 0 then 1 else (s.mesh_height - 2 * 1) / P) = 1)
  rw [Nat.mul_one]
  constructor
  · intro h
    have h1 : 1 ≤ (s.mesh_height - 2) / P := (Nat.one_le_div_iff (by omega)).2 h
    rw [if_neg (by omega)]
    exact ⟨rfl, h1⟩
  · intro h
    rw [if_pos (Nat.div_eq_of_lt h)]

theorem band_height_pos (s : s_settings) (P : Nat) (hP : 1 ≤ P) :
    1 ≤ starpu_vec.band_height s P := by
  have h := band_height_cases s P hP
  by_cases hc : P ≤ s.mesh_height - 2
  · rw [(h.1 hc).1]; exact (h.1 hc).2
  · rw [h.2 (by omega)]

/-- The bands of the workers before the last one end inside the interior rows
exactly when `P - 1 ≤ height - 2`. -/
theorem bands_fit (s : s_settings) (P : Nat) (hP : 1 ≤ P) (hfit : P - 1 ≤ s.mesh_height - 2) :
    (P - 1) * starpu_vec.band_height s P ≤ s.mesh_height - 2 := by
  have h := band_height_cases s P hP
  by_cases hc : P ≤ s.mesh_height - 2
  · rw [(h.1 hc).1]
    have h1 : (P - 1) * ((s.mesh_height - 2) / P) ≤ P * ((s.mesh_height - 2) / P) :=
      Nat.mul_le_mul_right _ (by omega)
    have h2 : P * ((s.mesh_height - 2) / P) ≤ s.mesh_height - 2 := Nat.mul_div_le _ _
    omega
  · rw [h.2 (by omega), Nat.mul_one]
    exact hfit

theorem bands_inside (s : s_settings) (P : Nat) (hP : 1 ≤ P)
    (hfit : P - 1 ≤ s.mesh_height - 2) (hh : 3 ≤ s.mesh_height) (t y : Nat) (ht : t < P)
    (hb : starpu_vec.inBand s P t y) : 1 ≤ y ∧ y < s.mesh_height - 1 := by
  unfold starpu_vec.inBand starpu_vec.band_end starpu_vec.band_start at hb
  obtain ⟨h1, h2⟩ := hb
  by_cases hl : t = P - 1
  · rw [if_pos hl] at h2
    omega
  · rw [if_neg hl] at h2
    have hK := bands_fit s P hP hfit
    have h3 : (t + 1) * starpu_vec.band_height s P ≤ (P - 1) * starpu_vec.band_height s P :=
      Nat.mul_le_mul_right _ (by omega)
    have h4 : (t + 1) * starpu_vec.band_height s P
        = t * starpu_vec.band_height s P + starpu_vec.band_height s P := by ring
    omega

theorem bands_cover (s : s_settings) (P : Nat) (hP : 1 ≤ P) (y : Nat) (hy1 : 1 ≤ y)
    (hy2 : y < s.mesh_height - 1) : ∃ t, t < P ∧ starpu_vec.inBand s P t y := by
  have hbh := band_height_pos s P hP
  unfold starpu_vec.inBand starpu_vec.band_end starpu_vec.band_start
  by_cases hc : (y - 1) / starpu_vec.band_height s P < P - 1
  · refine ⟨(y - 1) / starpu_vec.band_height s P, by omega, ?_, ?_⟩
    · have := Nat.div_mul_le_self (y - 1) (starpu_vec.band_height s P)
      omega
    · rw [if_neg (by omega)]
      have := Nat.lt_div_mul_add (a := y - 1) (b := starpu_vec.band_height s P) (by omega)
      omega
  · refine ⟨P - 1, by omega, ?_, ?_⟩
    · have h1 : (P - 1) * starpu_vec.band_height s P
          ≤ ((y - 1) / starpu_vec.band_height s P) * starpu_vec.band_height s P :=
        Nat.mul_le_mul_right _ (by omega)
      have h2 := Nat.div_mul_le_self (y - 1) (starpu_vec.band_height s P)
      omega
    · rw [if_pos rfl]
      exact hy2

theorem bands_disjoint_lt (s : s_settings) (P : Nat) (t t' y : Nat) (ht' : t' < P)
    (hlt : t < t') (hb : starpu_vec.inBand s P t y) (hb' : starpu_vec.inBand s P t' y) :
    False := by
  unfold starpu_vec.inBand starpu_vec.band_end starpu_vec.band_start at hb hb'
  obtain ⟨_, h2⟩ := hb
  obtain ⟨h3, _⟩ := hb'
  rw [if_neg (by omega)] at h2
  have h4 : (t + 1) * starpu_vec.band_height s P ≤ t' * starpu_vec.band_height s P :=
    Nat.mul_le_mul_right _ (by omega)
  have h5 : (t + 1) * starpu_vec.band_height s P
      = t * starpu_vec.band_height s P + starpu_vec.band_height s P := by ring
  omega

theorem band_overruns (s : s_settings) (P : Nat) (hP : 1 ≤ P) (hh : 3 ≤ s.mesh_height)
    (hover : s.mesh_height - 2 < P - 1) :
    starpu_vec.inBand s P (s.mesh_height - 2) (s.mesh_height - 1) := by
  have hbh := (band_height_cases s P hP).2 (by omega)
  unfold starpu_vec.inBand starpu_vec.band_end starpu_vec.band_start
  rw [hbh, if_neg (by omega)]
  omega

/-- C25. Exact condition for the row-band partition: for a mesh height at least
3 and `P ≥ 1` workers, the bands submitted by `starpu_vec_stencil_func` are the
intervals `[band_start t, band_end t)`, `t < P`; they all lie inside the interior
rows `[1, height - 1)`, cover them and are pairwise disjoint if and only if
`P - 1 ≤ height - 2`; when `P ≤ height - 2` each of the first `P - 1` bands has
`(height - 2) / P` rows and the last has `(height - 2) / P + (height - 2) mod P`
rows; when `height - 2 < P - 1` a band of index `t < P - 1` contains the bottom
boundary row `height - 1`. -/
theorem row_band_partition_condition (s : s_settings) (P : Nat) (hh : 3 ≤ s.mesh_height)
    (hP : 1 ≤ P) :
    (starpu_vec.apply_tasks s P).map (fun p => (p.block_start, p.block_end))
      = (List.range P).map
        (fun t => (starpu_vec.band_start s P t, starpu_vec.band_end s P t)) ∧
    (((∀ t y, t < P → starpu_vec.inBand s P t y → 1 ≤ y ∧ y < s.mesh_height - 1) ∧
      (∀ y, 1 ≤ y → y < s.mesh_height - 1 → ∃ t, t < P ∧ starpu_vec.inBand s P t y) ∧
      (∀ t t' y, t < P → t' < P → starpu_vec.inBand s P t y →
        starpu_vec.inBand s P t' y → t = t')) ↔ P - 1 ≤ s.mesh_height - 2) ∧
    (P ≤ s.mesh_height - 2 →
      (∀ t, t < P - 1 → starpu_vec.band_end s P t - starpu_vec.band_start s P t
        = (s.mesh_height - 2) / P) ∧
      starpu_vec.band_end s P (P - 1) - starpu_vec.band_start s P (P - 1)
        = (s.mesh_height - 2) / P + (s.mesh_height - 2) % P) ∧
    (s.mesh_height - 2 < P - 1 →
      ∃ t, t < P - 1 ∧ ∃ y, starpu_vec.inBand s P t y ∧ s.mesh_height - 1 ≤ y) := by
  refine ⟨apply_tasks_bands s P, ⟨?_, ?_⟩, ?_, ?_⟩
  · rintro ⟨hin, _, _⟩
    by_contra hno
    have hb := band_overruns s P hP hh (by omega)
    have := hin (s.mesh_height - 2) (s.mesh_height - 1) (by omega) hb
    omega
  · intro hfit
    refine ⟨fun t y ht hb => bands_inside s P hP hfit hh t y ht hb,
      fun y hy1 hy2 => bands_cover s P hP y hy1 hy2, ?_⟩
    intro t t' y ht ht' hb hb'
    rcases Nat.lt_trichotomy t t' with h | h | h
    · exact (bands_disjoint_lt s P t t' y ht' h hb hb').elim
    · exact h
    · exact (bands_disjoint_lt s P t' t y ht h hb' hb).elim
  · intro hle
    obtain ⟨hbh, hq⟩ := (band_height_cases s P hP).1 hle
    unfold starpu_vec.band_end starpu_vec.band_start
    rw [hbh]
    constructor
    · intro t ht
      rw [if_neg (by omega)]
      omega
    · rw [if_pos rfl]
      have h1 := Nat.div_add_mod (s.mesh_height - 2) P
      have h2 : P * ((s.mesh_height - 2) / P)
          = (P - 1) * ((s.mesh_height - 2) / P) + (s.mesh_height - 2) / P := by
        obtain ⟨k, rfl⟩ := Nat.exists_eq_add_of_le hP
        simp [Nat.add_mul, Nat.add_comm]
      omega
  · intro hover
    exact ⟨s.mesh_height - 2, hover, s.mesh_height - 1, band_overruns s P hP hh hover,
      Nat.le_refl _⟩

theorem row_band_partition_condition_witness :
    (starpu_vec.apply_tasks init_settings 4).map (fun p => (p.block_start, p.block_end))
      = (List.range 4).map
        (fun t => (starpu_vec.band_start init_settings 4 t,
          starpu_vec.band_end init_settings 4 t)) ∧
    (((∀ t y, t < 4 → starpu_vec.inBand init_settings 4 t y →
        1 ≤ y ∧ y < init_settings.mesh_height - 1) ∧
      (∀ y, 1 ≤ y → y < init_settings.mesh_height - 1 →
        ∃ t, t < 4 ∧ starpu_vec.inBand init_settings 4 t y) ∧
      (∀ t t' y, t < 4 → t' < 4 → starpu_vec.inBand init_settings 4 t y →
        starpu_vec.inBand init_settings 4 t' y → t = t'))
        ↔ 4 - 1 ≤ init_settings.mesh_height - 2) ∧
    (4 ≤ init_settings.mesh_height - 2 →
      (∀ t, t < 4 - 1 → starpu_vec.band_end init_settings 4 t
          - starpu_vec.band_start init_settings 4 t
        = (init_settings.mesh_height - 2) / 4) ∧
      starpu_vec.band_end init_settings 4 (4 - 1) - starpu_vec.band_start init_settings 4 (4 - 1)
        = (init_settings.mesh_height - 2) / 4 + (init_settings.mesh_height - 2) % 4) ∧
    (init_settings.mesh_height - 2 < 4 - 1 →
      ∃ t, t < 4 - 1 ∧ ∃ y, starpu_vec.inBand init_settings 4 t y ∧
        init_settings.mesh_height - 1 ≤ y) :=
  row_band_partition_condition init_settings 4 (by decide) (by decide)

/-! ## In-bounds condition of the vector kernel -/

theorem mem_vector_loop_writes (p : starpu_vec.starpu_parameters) (hsw : p.stencil_widht = 3)
    (y i : Nat) :
    i ∈ starpu_vec.vector_loop_writes p y ↔
      ∃ k l, 1 + 8 * k < p.mesh_width - 1 ∧ l < 8 ∧ i = y * p.mesh_width + (1 + 8 * k) + l := by
  unfold starpu_vec.vector_loop_writes starpu_vec.vector_batch_writes
  simp only [List.mem_flatMap, List.mem_map, List.mem_range, mem_vector_loop_columns p hsw]
  constructor
  · rintro ⟨x, ⟨k, rfl, hk⟩, l, hl, rfl⟩
    exact ⟨k, l, hk, hl, rfl⟩
  · rintro ⟨k, l, hk, hl, rfl⟩
    exact ⟨1 + 8 * k, ⟨k, rfl, hk⟩, l, hl, rfl⟩

theorem mem_vector_loop_reads (p : starpu_vec.starpu_parameters) (hsw : p.stencil_widht = 3)
    (hsh : p.stencil_height = 3) (y i : Nat) :
    i ∈ starpu_vec.vector_loop_reads p y ↔
      ∃ k l, 1 + 8 * k < p.mesh_width - 1 ∧ l < 8 ∧
        (i = y * p.mesh_width + (1 + 8 * k) + l ∨
          ∃ sy sx, sy < 3 ∧ sx < 3 ∧
            i = (y + sy - 1) * p.mesh_width + (1 + 8 * k + sx - 1) + l) := by
  unfold starpu_vec.vector_loop_reads starpu_vec.vector_batch_reads
  simp only [List.mem_flatMap, List.mem_map, List.mem_range, List.mem_append, mem_loopRange,
    mem_vector_loop_columns p hsw, hsw, hsh]
  constructor
  · rintro ⟨x, ⟨k, rfl, hk⟩, h⟩
    rcases h with ⟨l, hl, rfl⟩ | ⟨sy, ⟨_, hsy⟩, sx, ⟨_, hsx⟩, l, hl, rfl⟩
    · exact ⟨k, l, hk, hl, Or.inl rfl⟩
    · exact ⟨k, l, hk, hl, Or.inr ⟨sy, sx, hsy, hsx, rfl⟩⟩
  · rintro ⟨k, l, hk, hl, h⟩
    refine ⟨1 + 8 * k, ⟨k, rfl, hk⟩, ?_⟩
    rcases h with rfl | ⟨sy, sx, hsy, hsx, rfl⟩
    · exact Or.inl ⟨l, hl, rfl⟩
    · exact Or.inr ⟨sy, ⟨Nat.zero_le _, hsy⟩, sx, ⟨Nat.zero_le _, hsx⟩, l, hl, rfl⟩

theorem row_reads_eq (p : starpu_vec.starpu_parameters) (y : Nat) :
    starpu_vec.row_reads p y = starpu_vec.vector_loop_reads p y := by
  unfold starpu_vec.row_reads
  rw [scalar_loop_columns_nil]
  simp

theorem row_writes_eq (p : starpu_vec.starpu_parameters) (y : Nat) :
    starpu_vec.row_writes p y = starpu_vec.vector_loop_writes p y := by
  unfold starpu_vec.row_writes
  rw [scalar_loop_columns_nil]
  simp

/-- C26. In-bounds condition of the vector kernel, for the 3×3 stencil, a mesh
of width and height at least 3 and a band contained in the interior rows (it
starts at row 1 or below it, so no index is negative).  When
`(width - 2) mod 8 = 0`, every address `stencil_cpu_func_block` reads from the
mesh while processing a row of the band is below `width * height`, and every
address it writes to the scratch buffer is that of an interior cell of the row
being processed.  When `(width - 2) mod 8 ≠ 0`, for every row `y` the vector
loop writes an address `y * width + c` with `c ≥ width - 1`, and for the row
`height - 2` it reads an address not below `width * height`. -/
theorem vector_kernel_bounds (p : starpu_vec.starpu_parameters)
    (hsw : p.stencil_widht = 3) (hsh : p.stencil_height = 3) (hw : 3 ≤ p.mesh_width)
    (hh : 3 ≤ p.mesh_height) (_hbs : 1 ≤ p.block_start)
    (hbe : p.block_end ≤ p.mesh_height - 1) :
    ((p.mesh_width - 2) % 8 = 0 →
      (∀ y, p.block_start ≤ y → y < p.block_end →
        ∀ i ∈ starpu_vec.row_reads p y, i < p.mesh_width * p.mesh_height) ∧
      (∀ y, p.block_start ≤ y → y < p.block_end →
        ∀ i ∈ starpu_vec.row_writes p y,
          i < p.mesh_width * p.mesh_height ∧
          ∃ x, 1 ≤ x ∧ x ≤ p.mesh_width - 2 ∧ i = y * p.mesh_width + x)) ∧
    ((p.mesh_width - 2) % 8 ≠ 0 →
      (∀ y, ∃ c, p.mesh_width - 1 ≤ c ∧ y * p.mesh_width + c ∈ starpu_vec.row_writes p y) ∧
      (∃ i ∈ starpu_vec.row_reads p (p.mesh_height - 2), p.mesh_width * p.mesh_height ≤ i)) := by
  constructor
  · intro hdiv
    constructor
    · intro y hy1 hy2 i hi
      rw [row_reads_eq, mem_vector_loop_reads p hsw hsh] at hi
      obtain ⟨k, l, hk, hl, h⟩ := hi
      rcases h with rfl | ⟨sy, sx, hsy, hsx, rfl⟩
      · have := addr_lt p.mesh_width p.mesh_height (1 + 8 * k + l) y (by omega) (by omega)
        omega
      · have := addr_lt p.mesh_width p.mesh_height (1 + 8 * k + sx - 1 + l) (y + sy - 1)
          (by omega) (by omega)
        omega
    · intro y hy1 hy2 i hi
      rw [row_writes_eq, mem_vector_loop_writes p hsw] at hi
      obtain ⟨k, l, hk, hl, rfl⟩ := hi
      have := addr_lt p.mesh_width p.mesh_height (1 + 8 * k + l) y (by omega) (by omega)
      exact ⟨by omega, 1 + 8 * k + l, by omega, by omega, by omega⟩
  · intro hnd
    constructor
    · intro y
      refine ⟨1 + 8 * ((p.mesh_width - 2) / 8) + 7, by omega, ?_⟩
      rw [row_writes_eq, mem_vector_loop_writes p hsw]
      exact ⟨(p.mesh_width - 2) / 8, 7, by omega, by decide, by omega⟩
    · refine ⟨(p.mesh_height - 2 + 2 - 1) * p.mesh_width
        + (1 + 8 * ((p.mesh_width - 2) / 8) + 2 - 1) + 7, ?_, ?_⟩
      · rw [row_reads_eq, mem_vector_loop_reads p hsw hsh]
        exact ⟨(p.mesh_width - 2) / 8, 7, by omega, by decide,
          Or.inr ⟨2, 2, by decide, by decide, rfl⟩⟩
      · have h1 : p.mesh_height - 2 + 2 - 1 = p.mesh_height - 1 := by omega
        have h2 : (p.mesh_height - 1 + 1) * p.mesh_width
            = (p.mesh_height - 1) * p.mesh_width + p.mesh_width := by ring
        have h3 : p.mesh_height - 1 + 1 = p.mesh_height := by omega
        have h4 : p.mesh_height * p.mesh_width = p.mesh_width * p.mesh_height :=
          Nat.mul_comm _ _
        rw [h1]
        rw [h3] at h2
        omega

theorem vector_kernel_bounds_witness :
    ((default_last_band.mesh_width - 2) % 8 = 0 →
      (∀ y, default_last_band.block_start ≤ y → y < default_last_band.block_end →
        ∀ i ∈ starpu_vec.row_reads default_last_band y,
          i < default_last_band.mesh_width * default_last_band.mesh_height) ∧
      (∀ y, default_last_band.block_start ≤ y → y < default_last_band.block_end →
        ∀ i ∈ starpu_vec.row_writes default_last_band y,
          i < default_last_band.mesh_width * default_last_band.mesh_height ∧
          ∃ x, 1 ≤ x ∧ x ≤ default_last_band.mesh_width - 2 ∧
            i = y * default_last_band.mesh_width + x)) ∧
    ((default_last_band.mesh_width - 2) % 8 ≠ 0 →
      (∀ y, ∃ c, default_last_band.mesh_width - 1 ≤ c ∧
        y * default_last_band.mesh_width + c ∈ starpu_vec.row_writes default_last_band y) ∧
      (∃ i ∈ starpu_vec.row_reads default_last_band (default_last_band.mesh_height - 2),
        default_last_band.mesh_width * default_last_band.mesh_height ≤ i)) :=
  vector_kernel_bounds default_last_band rfl rfl (by decide) (by decide) (by decide)
    (by decide)

/-! ## Command line validation -/

/-- The loop of `parse_cmd_line` keeps validated settings validated. -/
theorem parse_args_validated (atoi : String → Int) :
    ∀ (n : Nat) (l : List String), l.length ≤ n → ∀ st st' : s_settings, validated st →
      parse_args atoi l st = some st' → validated st' := by
  intro n
  induction n with
  | zero =>
    intro l hl st st' hv h
    have : l = [] := List.length_eq_zero.1 (by omega)
    subst this
    simp only [parse_args, Option.some.injEq] at h
    subst h
    exact hv
  | succ n ih =>
    intro l hl st st' hv h
    match l, hl with
    | [], _ =>
      simp only [parse_args, Option.some.injEq] at h
      subst h
      exact hv
    | arg :: rest, hl =>
      have hrest : rest.length ≤ n := by simpa using hl
      have hlen : ∀ (v : String) (rest' : List String), rest = v :: rest' →
          rest'.length ≤ n := by
        intro v rest' he
        subst he
        simp at hrest
        omega
      obtain ⟨hv1, hv2, hv3, hv4⟩ := hv
      unfold parse_args at h
      split_ifs at h with h1 h2 h3 h4 h5 h6 h7
      · cases rest with
        | nil => simp at h
        | cons v rest' =>
          simp only at h
          split_ifs at h with hlt
          simp only [STENCIL_WIDTH, Nat.cast_ofNat, not_lt] at hlt
          refine ih rest' (hlen v rest' rfl) _ st' ?_ h
          exact ⟨by show 3 ≤ (atoi v).toNat; omega, hv2, hv3, hv4⟩
      · cases rest with
        | nil => simp at h
        | cons v rest' =>
          simp only at h
          split_ifs at h with hlt
          simp only [STENCIL_HEIGHT, Nat.cast_ofNat, not_lt] at hlt
          refine ih rest' (hlen v rest' rfl) _ st' ?_ h
          exact ⟨hv1, by show 3 ≤ (atoi v).toNat; omega, hv3, hv4⟩
      · cases rest with
        | nil => simp at h
        | cons v rest' =>
          simp only at h
          split_ifs at h with hz hr
          · refine ih rest' (hlen v rest' rfl) _ st' ?_ h
            exact ⟨hv1, hv2, hv3, hv4⟩
          · refine ih rest' (hlen v rest' rfl) _ st' ?_ h
            exact ⟨hv1, hv2, hv3, hv4⟩
      · cases rest with
        | nil => simp at h
        | cons v rest' =>
          simp only at h
          split_ifs at h with hlt
          simp only [not_lt] at hlt
          refine ih rest' (hlen v rest' rfl) _ st' ?_ h
          exact ⟨hv1, hv2, by show 1 ≤ (atoi v).toNat; omega, hv4⟩
      · cases rest with
        | nil => simp at h
        | cons v rest' =>
          simp only at h
          split_ifs at h with hlt
          simp only [not_lt] at hlt
          refine ih rest' (hlen v rest' rfl) _ st' ?_ h
          exact ⟨hv1, hv2, hv3, by show 1 ≤ (atoi v).toNat; omega⟩
      · refine ih rest hrest _ st' ?_ h
        exact ⟨hv1, hv2, hv3, hv4⟩
      · refine ih rest hrest _ st' ?_ h
        exact ⟨hv1, hv2, hv3, hv4⟩

/-- Arguments that the loop of `parse_cmd_line` accepts are consumed as whole
options: what follows them is read from an option position. -/
theorem parse_args_append (atoi : String → Int) (rest : List String) :
    ∀ (n : Nat) (pre : List String), pre.length ≤ n → ∀ st st1 : s_settings,
      parse_args atoi pre st = some st1 →
      parse_args atoi (pre ++ rest) st = parse_args atoi rest st1 := by
  intro n
  induction n with
  | zero =>
    intro pre hl st st1 h
    have : pre = [] := List.length_eq_zero.1 (by omega)
    subst this
    simp only [parse_args, Option.some.injEq] at h
    subst h
    rfl
  | succ n ih =>
    intro pre hl st st1 h
    match pre, hl with
    | [], _ =>
      simp only [parse_args, Option.some.injEq] at h
      subst h
      rfl
    | arg :: pr, hl =>
      have hpr : pr.length ≤ n := by simpa using hl
      have hlen : ∀ (v : String) (pr' : List String), pr = v :: pr' → pr'.length ≤ n := by
        intro v pr' he
        subst he
        simp at hpr
        omega
      rw [List.cons_append]
      unfold parse_args at h
      conv_lhs => unfold parse_args
      split_ifs at h with h1 h2 h3 h4 h5 h6 h7
      · cases pr with
        | nil => simp at h
        | cons v pr' =>
          simp only at h
          split_ifs at h with hlt
          simp only [if_pos h1, List.cons_append, if_neg hlt]
          exact ih pr' (hlen v pr' rfl) _ st1 h
      · cases pr with
        | nil => simp at h
        | cons v pr' =>
          simp only at h
          split_ifs at h with hlt
          simp only [if_neg h1, if_pos h2, List.cons_append, if_neg hlt]
          exact ih pr' (hlen v pr' rfl) _ st1 h
      · cases pr with
        | nil => simp at h
        | cons v pr' =>
          simp only at h
          split_ifs at h with hz hr
          · simp only [if_neg h1, if_neg h2, if_pos h3, List.cons_append, if_pos hz]
            exact ih pr' (hlen v pr' rfl) _ st1 h
          · simp only [if_neg h1, if_neg h2, if_pos h3, List.cons_append, if_neg hz, if_pos hr]
            exact ih pr' (hlen v pr' rfl) _ st1 h
      · cases pr with
        | nil => simp at h
        | cons v pr' =>
          simp only at h
          split_ifs at h with hlt
          simp only [if_neg h1, if_neg h2, if_neg h3, if_pos h4, List.cons_append, if_neg hlt]
          exact ih pr' (hlen v pr' rfl) _ st1 h
      · cases pr with
        | nil => simp at h
        | cons v pr' =>
          simp only at h
          split_ifs at h with hlt
          simp only [if_neg h1, if_neg h2, if_neg h3, if_neg h4, if_pos h5, List.cons_append,
            if_neg hlt]
          exact ih pr' (hlen v pr' rfl) _ st1 h
      · simp only [if_neg h1, if_neg h2, if_neg h3, if_neg h4, if_neg h5, if_pos h6]
        exact ih pr hpr _ st1 h
      · simp only [if_neg h1, if_neg h2, if_neg h3, if_neg h4, if_neg h5, if_neg h6, if_pos h7]
        exact ih pr hpr _ st1 h

theorem parse_args_rejects (atoi : String → Int) (st : s_settings) (v : String)
    (rest : List String) :
    (atoi v < 3 → parse_args atoi ("--mesh-width" :: v :: rest) st = none) ∧
    (atoi v < 3 → parse_args atoi ("--mesh-height" :: v :: rest) st = none) ∧
    (atoi v < 1 → parse_args atoi ("--nb-iterations" :: v :: rest) st = none) := by
  refine ⟨?_, ?_, ?_⟩
  · intro h
    have h' : atoi v < (STENCIL_WIDTH : Int) := by simpa [STENCIL_WIDTH] using h
    unfold parse_args
    simp [h']
  · intro h
    have h' : atoi v < (STENCIL_HEIGHT : Int) := by simpa [STENCIL_HEIGHT] using h
    unfold parse_args
    simp [h']
  · intro h
    unfold parse_args
    simp [h]

/-- C21. Validated configuration: whenever `parse_cmd_line`, started from the
defaults of `init_settings`, returns instead of exiting, the settings have
`mesh_width ≥ 3`, `mesh_height ≥ 3`, `nb_iterations ≥ 1` and `nb_repeat ≥ 1`;
and an argument list in which, after arguments the loop accepts, the option
`--mesh-width` or `--mesh-height` comes with a value below 3, or
`--nb-iterations` with a value below 1, makes it exit. -/
theorem parse_cmd_line_validated (atoi : String → Int) :
    (∀ (argv : List String) (st' : s_settings),
      parse_cmd_line atoi argv init_settings = some st' →
        3 ≤ st'.mesh_width ∧ 3 ≤ st'.mesh_height ∧ 1 ≤ st'.nb_iterations ∧ 1 ≤ st'.nb_repeat) ∧
    (∀ (argv0 : String) (pre : List String) (v : String) (rest : List String),
      parse_args atoi pre init_settings ≠ none → atoi v < 3 →
        parse_cmd_line atoi (argv0 :: (pre ++ "--mesh-width" :: v :: rest)) init_settings
          = none) ∧
    (∀ (argv0 : String) (pre : List String) (v : String) (rest : List String),
      parse_args atoi pre init_settings ≠ none → atoi v < 3 →
        parse_cmd_line atoi (argv0 :: (pre ++ "--mesh-height" :: v :: rest)) init_settings
          = none) ∧
    (∀ (argv0 : String) (pre : List String) (v : String) (rest : List String),
      parse_args atoi pre init_settings ≠ none → atoi v < 1 →
        parse_cmd_line atoi (argv0 :: (pre ++ "--nb-iterations" :: v :: rest)) init_settings
          = none) := by
  have hexit : ∀ (argv0 : String) (pre tail : List String),
      parse_args atoi pre init_settings ≠ none →
      (∀ st1, parse_args atoi tail st1 = none) →
      parse_cmd_line atoi (argv0 :: (pre ++ tail)) init_settings = none := by
    intro argv0 pre tail hpre htail
    obtain ⟨st1, hst1⟩ := Option.ne_none_iff_exists'.1 hpre
    unfold parse_cmd_line
    rw [List.drop_one, List.tail_cons,
      parse_args_append atoi tail pre.length pre (Nat.le_refl _) init_settings st1 hst1,
      htail st1]
  refine ⟨?_, ?_, ?_, ?_⟩
  · intro argv st' h
    unfold parse_cmd_line at h
    cases hp : parse_args atoi (argv.drop 1) init_settings with
    | none => rw [hp] at h; simp at h
    | some st1 =>
      rw [hp] at h
      have hv : validated st1 :=
        parse_args_validated atoi _ _ (Nat.le_refl _) init_settings st1 (by decide) hp
      obtain ⟨hv1, hv2, hv3, hv4⟩ := hv
      simp only at h
      split_ifs at h with ho hi
      · simp only [Option.some.injEq] at h
        subst h
        exact ⟨hv1, hv2, by show 1 ≤ 100; omega, Nat.le_refl 1⟩
      · simp only [Option.some.injEq] at h
        subst h
        exact ⟨hv1, hv2, hv3, Nat.le_refl 1⟩
      · simp only [Option.some.injEq] at h
        subst h
        exact ⟨hv1, hv2, hv3, hv4⟩
  · intro argv0 pre v rest hpre hv
    exact hexit argv0 pre _ hpre (fun st1 => (parse_args_rejects atoi st1 v rest).1 hv)
  · intro argv0 pre v rest hpre hv
    exact hexit argv0 pre _ hpre (fun st1 => (parse_args_rejects atoi st1 v rest).2.1 hv)
  · intro argv0 pre v rest hpre hv
    exact hexit argv0 pre _ hpre (fun st1 => (parse_args_rejects atoi st1 v rest).2.2 hv)

end Stencil

namespace Histogram

open Stencil

/-! ## Histogram counts -/

theorem compute_bounds_eq (bounds0 : Buffer) (s : s_settings) (k : Nat) (hk : k ≤ s.nb_bins) :
    compute_bounds bounds0 s k = bin_edge s k := by
  unfold compute_bounds
  have h0 : Assigns (fun b => store b 0 (s.lower_bound : ELEMENT_TYPE))
      (fun i => i = 0) (bin_edge s) :=
    assigns_store_of_eq (bin_edge s) 0 _ (by simp [bin_edge])
  have h1 := assigns_forLoop 0 s.nb_bins
    (fun j bounds => store bounds (j + 1)
      ((s.lower_bound : ELEMENT_TYPE)
        + ((j + 1 : Nat) : ELEMENT_TYPE) * (s.upper_bound - s.lower_bound) / s.nb_bins))
    (fun j i => i = j + 1) (bin_edge s)
    (fun j _ _ => assigns_store_of_eq (bin_edge s) (j + 1) _ rfl)
  have h2 := assigns_comp h0 h1 bounds0 k
  refine h2.1 ?_
  by_cases hz : k = 0
  · exact Or.inl hz
  · exact Or.inr ⟨k - 1, Nat.zero_le _, by omega, by omega⟩

theorem bin_edge_mono (s : s_settings) (hnb : 1 ≤ s.nb_bins)
    (hlu : s.lower_bound < s.upper_bound) (a b : Nat) (hab : a ≤ b) :
    bin_edge s a ≤ bin_edge s b := by
  unfold bin_edge
  have h1 : (0 : ℚ) < s.nb_bins := by exact_mod_cast hnb
  have h2 : (0 : ℚ) ≤ s.upper_bound - s.lower_bound := by linarith
  have h3 : (a : ℚ) ≤ b := by exact_mod_cast hab
  have h4 : (a : ℚ) * (s.upper_bound - s.lower_bound) ≤ b * (s.upper_bound - s.lower_bound) :=
    mul_le_mul_of_nonneg_right h3 h2
  have h5 := div_le_div_of_nonneg_right h4 (le_of_lt h1)
  linarith

theorem bin_edge_zero (s : s_settings) : bin_edge s 0 = s.lower_bound := by
  simp [bin_edge]

theorem bin_edge_last (s : s_settings) (hnb : 1 ≤ s.nb_bins) :
    bin_edge s s.nb_bins = s.upper_bound := by
  unfold bin_edge
  have h1 : (s.nb_bins : ℚ) ≠ 0 := by
    have : (0 : ℚ) < s.nb_bins := by exact_mod_cast hnb
    exact ne_of_gt this
  field_simp

/-- A value lies in at most one bin. -/
theorem inBin_unique (s : s_settings) (hnb : 1 ≤ s.nb_bins)
    (hlu : s.lower_bound < s.upper_bound) (v : ELEMENT_TYPE) (j j' : Nat)
    (hj : inBin s j v) (hj' : inBin s j' v) : j = j' := by
  unfold inBin at hj hj'
  rcases Nat.lt_trichotomy j j' with h | h | h
  · have := bin_edge_mono s hnb hlu (j + 1) j' h
    linarith
  · exact h
  · have := bin_edge_mono s hnb hlu (j' + 1) j h
    linarith

/-- A value of `[lower, upper)` lies in some bin. -/
theorem inBin_exists (s : s_settings) (hnb : 1 ≤ s.nb_bins) (v : ELEMENT_TYPE)
    (hv1 : s.lower_bound ≤ v) (hv2 : v < s.upper_bound) : ∃ j, j < s.nb_bins ∧ inBin s j v := by
  have key : ∀ n, v < bin_edge s n → ∃ j, j < n ∧ inBin s j v := by
    intro n
    induction n with
    | zero =>
      intro h
      rw [bin_edge_zero] at h
      linarith
    | succ n ih =>
      intro h
      by_cases hc : bin_edge s n ≤ v
      · exact ⟨n, Nat.lt_succ_self n, hc, h⟩
      · obtain ⟨j, hj, hb⟩ := ih (lt_of_not_le hc)
        exact ⟨j, by omega, hb⟩
  exact key s.nb_bins (by rw [bin_edge_last s hnb]; exact hv2)

theorem inBin_range (s : s_settings) (hnb : 1 ≤ s.nb_bins)
    (hlu : s.lower_bound < s.upper_bound) (v : ELEMENT_TYPE) (j : Nat) (hj : j < s.nb_bins)
    (hb : inBin s j v) : s.lower_bound ≤ v ∧ v < s.upper_bound := by
  unfold inBin at hb
  have h1 := bin_edge_mono s hnb hlu 0 j (Nat.zero_le j)
  have h2 := bin_edge_mono s hnb hlu (j + 1) s.nb_bins hj
  rw [bin_edge_zero] at h1
  rw [bin_edge_last s hnb] at h2
  constructor <;> linarith

theorem count_loop_broken (bounds : Buffer) (v : ELEMENT_TYPE) (js : List Nat)
    (h : Nat → Int) :
    js.foldl (fun (st : (Nat → Int) × Bool) j =>
      if st.2 then st
      else if v ≥ bounds j ∧ v < bounds (j + 1) then (increment st.1 j, true)
      else st) (h, true) = (h, true) := by
  induction js with
  | nil => rfl
  | cons a js ih => simpa using ih

/-- The inner loop adds 1 to the bin of the value, when the bins it scans hold
the value at most once. -/
theorem count_loop_spec (bounds : Buffer) (v : ELEMENT_TYPE) (js : List Nat)
    (huniq : ∀ j j', j ∈ js → j' ∈ js → (bounds j ≤ v ∧ v < bounds (j + 1)) →
      (bounds j' ≤ v ∧ v < bounds (j' + 1)) → j = j')
    (h : Nat → Int) (k : Nat) :
    (js.foldl (fun (st : (Nat → Int) × Bool) j =>
      if st.2 then st
      else if v ≥ bounds j ∧ v < bounds (j + 1) then (increment st.1 j, true)
      else st) (h, false)).1 k
      = h k + if k ∈ js ∧ (bounds k ≤ v ∧ v < bounds (k + 1)) then 1 else 0 := by
  induction js generalizing h with
  | nil => simp
  | cons a js ih =>
    rw [List.foldl_cons]
    by_cases hc : bounds a ≤ v ∧ v < bounds (a + 1)
    · have hc' : v ≥ bounds a ∧ v < bounds (a + 1) := hc
      simp only [Bool.false_eq_true, if_false, if_pos hc']
      rw [count_loop_broken]
      by_cases hk : k = a
      · subst hk
        simp [increment, hc]
      · have hno : ¬ (k ∈ a :: js ∧ (bounds k ≤ v ∧ v < bounds (k + 1))) := by
          rintro ⟨hm, hck⟩
          exact hk (huniq k a hm (List.mem_cons_self a js) hck hc)
        rw [if_neg hno]
        simp [increment, hk]
    · have hc' : ¬ (v ≥ bounds a ∧ v < bounds (a + 1)) := hc
      simp only [Bool.false_eq_true, if_false, if_neg hc']
      rw [ih (fun j j' hj hj' => huniq j j' (List.mem_cons_of_mem a hj)
        (List.mem_cons_of_mem a hj'))]
      congr 1
      by_cases hk : k = a
      · subst hk
        simp [hc]
      · simp [hk]

theorem count_value_spec (bounds0 : Buffer) (s : s_settings) (hnb : 1 ≤ s.nb_bins)
    (hlu : s.lower_bound < s.upper_bound) (v : ELEMENT_TYPE) (h : Nat → Int) (k : Nat) :
    count_value (compute_bounds bounds0 s) s.nb_bins v h k
      = h k + if k < s.nb_bins ∧ inBin s k v then 1 else 0 := by
  unfold count_value forLoop
  have hb : ∀ j, j ∈ loopRange 0 s.nb_bins →
      ((compute_bounds bounds0 s j ≤ v ∧ v < compute_bounds bounds0 s (j + 1)) ↔ inBin s j v) := by
    intro j hj
    have hj2 := ((mem_loopRange 0 s.nb_bins j).1 hj).2
    rw [compute_bounds_eq bounds0 s j (by omega), compute_bounds_eq bounds0 s (j + 1) (by omega)]
    rfl
  rw [count_loop_spec (compute_bounds bounds0 s) v (loopRange 0 s.nb_bins)
    (fun j j' hj hj' hc hc' =>
      inBin_unique s hnb hlu v j j' ((hb j hj).1 hc) ((hb j' hj').1 hc')) h k]
  congr 1
  by_cases hk : k < s.nb_bins
  · have hm : k ∈ loopRange 0 s.nb_bins := (mem_loopRange 0 s.nb_bins k).2 ⟨Nat.zero_le k, hk⟩
    simp only [hm, hk, true_and, hb k hm]
  · have hm : ¬ k ∈ loopRange 0 s.nb_bins := fun hm => hk ((mem_loopRange 0 s.nb_bins k).1 hm).2
    simp only [hm, hk, false_and]

theorem fold_counts (g : Nat → (Nat → Int) → (Nat → Int)) (q : Nat → Bool) (k : Nat)
    (hg : ∀ i h, g i h k = h k + if q i = true then 1 else 0) (l : List Nat)
    (h0 : Nat → Int) :
    (l.foldl (fun h i => g i h) h0) k = h0 k + (l.countP q : Int) := by
  induction l generalizing h0 with
  | nil => simp
  | cons a l ih =>
    rw [List.foldl_cons, ih, hg, List.countP_cons]
    by_cases hq : q a = true
    · simp only [hq, if_true]
      push_cast
      ring
    · simp only [hq, if_false]
      push_cast
      ring

theorem indicator_sum (s : s_settings) (hnb : 1 ≤ s.nb_bins)
    (hlu : s.lower_bound < s.upper_bound) (v : ELEMENT_TYPE) :
    (∑ j in Finset.range s.nb_bins, if decide (inBin s j v) = true then (1 : Int) else 0)
      = if decide (s.lower_bound ≤ v ∧ v < s.upper_bound) = true then 1 else 0 := by
  by_cases hv : s.lower_bound ≤ v ∧ v < s.upper_bound
  · obtain ⟨j0, hj0, hb0⟩ := inBin_exists s hnb v hv.1 hv.2
    rw [Finset.sum_eq_single j0]
    · simp [hb0, hv]
    · intro j _ hne
      have : ¬ inBin s j v := fun hb => hne (inBin_unique s hnb hlu v j j0 hb hb0)
      simp [this]
    · intro hno
      exact absurd (Finset.mem_range.2 hj0) hno
  · rw [Finset.sum_eq_zero]
    · simp [hv]
    · intro j hj
      have : ¬ inBin s j v :=
        fun hb => hv (inBin_range s hnb hlu v j (Finset.mem_range.1 hj) hb)
      simp [this]

theorem sum_counts (s : s_settings) (hnb : 1 ≤ s.nb_bins)
    (hlu : s.lower_bound < s.upper_bound) (array : Nat → ELEMENT_TYPE) (l : List Nat) :
    (∑ j in Finset.range s.nb_bins,
        ((l.countP (fun i => decide (inBin s j (array i))) : Nat) : Int))
      = ((l.countP (fun i => decide (s.lower_bound ≤ array i ∧ array i < s.upper_bound)) : Nat)
          : Int) := by
  induction l with
  | nil => simp
  | cons a l ih =>
    simp only [List.countP_cons, Nat.cast_add, Finset.sum_add_distrib, ih]
    congr 1
    have h := indicator_sum s hnb hlu (array a)
    push_cast
    exact h

/-- C30. Histogram counts: for every array, `nb_bins ≥ 1` and `lower < upper`,
with the bin edges `bounds[j] = lower + j * (upper - lower) / nb_bins` in exact
arithmetic, after `naive_compute_histogram` every bin `j < nb_bins` holds the
number of indices `i < array_len` with `bounds[j] ≤ array[i] < bounds[j + 1]`,
whatever the histogram and the table held before; the bins sum to the number of
elements in `[lower, upper)`, which is at most `array_len`; and a value lies in
at most one bin. -/
theorem naive_compute_histogram_counts (bounds0 : Buffer) (array : Nat → ELEMENT_TYPE)
    (histogram : Nat → Int) (s : s_settings) (hnb : 1 ≤ s.nb_bins)
    (hlu : s.lower_bound < s.upper_bound) :
    (∀ j, j < s.nb_bins →
      naive_compute_histogram bounds0 array histogram s j
        = (((List.range s.array_len).countP
            (fun i => decide (bin_edge s j ≤ array i ∧ array i < bin_edge s (j + 1))) : Nat)
            : Int)) ∧
    (∑ j in Finset.range s.nb_bins, naive_compute_histogram bounds0 array histogram s j)
      = (((List.range s.array_len).countP
          (fun i => decide (s.lower_bound ≤ array i ∧ array i < s.upper_bound)) : Nat) : Int) ∧
    (List.range s.array_len).countP
        (fun i => decide (s.lower_bound ≤ array i ∧ array i < s.upper_bound)) ≤ s.array_len ∧
    (∀ (v : ELEMENT_TYPE) (j j' : Nat),
      (bin_edge s j ≤ v ∧ v < bin_edge s (j + 1)) →
      (bin_edge s j' ≤ v ∧ v < bin_edge s (j' + 1)) → j = j') := by
  have hbin : ∀ j, j < s.nb_bins →
      naive_compute_histogram bounds0 array histogram s j
        = (((List.range s.array_len).countP
            (fun i => decide (inBin s j (array i))) : Nat) : Int) := by
    intro j hj
    unfold naive_compute_histogram forLoop loopRange
    rw [Nat.sub_zero, ← List.range_eq_range']
    rw [fold_counts (fun i h => count_value (compute_bounds bounds0 s) s.nb_bins (array i) h)
      (fun i => decide (inBin s j (array i))) j]
    · simp [hj]
    · intro i h
      rw [count_value_spec bounds0 s hnb hlu]
      simp [hj]
  refine ⟨hbin, ?_, ?_, fun v j j' hj hj' => inBin_unique s hnb hlu v j j' hj hj'⟩
  · rw [Finset.sum_congr rfl (fun j hj => hbin j (Finset.mem_range.1 hj))]
    exact sum_counts s hnb hlu array (List.range s.array_len)
  · have := List.countP_le_length
      (fun i => decide (s.lower_bound ≤ array i ∧ array i < s.upper_bound))
      (l := List.range s.array_len)
    simpa using this

theorem naive_compute_histogram_counts_witness :
    (∀ j, j < init_settings.nb_bins →
      naive_compute_histogram zero_buffer sample_array (fun _ => 7)
          init_settings j
        = (((List.range init_settings.array_len).countP
            (fun i => decide (bin_edge init_settings j ≤ sample_array i ∧
              sample_array i < bin_edge init_settings (j + 1))) : Nat) : Int)) ∧
    (∑ j in Finset.range init_settings.nb_bins,
        naive_compute_histogram zero_buffer sample_array (fun _ => 7)
          init_settings j)
      = (((List.range init_settings.array_len).countP
          (fun i => decide (init_settings.lower_bound ≤ sample_array i ∧
            sample_array i < init_settings.upper_bound)) : Nat) : Int) ∧
    (List.range init_settings.array_len).countP
        (fun i => decide (init_settings.lower_bound ≤ sample_array i ∧
          sample_array i < init_settings.upper_bound))
      ≤ init_settings.array_len ∧
    (∀ (v : ELEMENT_TYPE) (j j' : Nat),
      (bin_edge init_settings j ≤ v ∧ v < bin_edge init_settings (j + 1)) →
      (bin_edge init_settings j' ≤ v ∧ v < bin_edge init_settings (j' + 1)) → j = j') :=
  naive_compute_histogram_counts zero_buffer sample_array (fun _ => 7)
    init_settings (by decide) (by simp [init_settings])

end Histogram
